import Mathlib

/-! # gocsdl: the type-model resolution engine

A shallow embedding of `pkg/csdl/parser.go` and `pkg/csdl/type.go`.

* A Go `string` is a sequence of bytes: `GoString` is `List Nat`, one number per byte.
  `strings.Compare`, `strings.Index` and slicing work on bytes, and so do the definitions
  here.  `lit` turns an ASCII literal of the source into its bytes
  (`46` is `.`, `95` is `_`, `118` is `v`, `43` is `+`, `45` is `-`, `48`..`57` are digits).
* Go's `int` is taken to be 64 bits wide (`strconv.IntSize = 64`); `strconv.Atoi` fails on a
  value outside that range, which is the only place the width matters.
* `map[string]V` is an association list `GoMap V` read through `GoMap.get` (first match),
  written through `GoMap.set` (replace in place, else append) and `GoMap.delete`.  A `range`
  over a map is a fold over the list; Go's iteration order is unspecified, and the statements
  below speak about lookups only, which do not depend on it.  A record's `Properties` map is
  taken to be allocated, as `NewTypeFromEntityType` and `NewTypeFromComplexType` do.
* `*Type` is an address (`Nat`) into a heap `Nat → Type_`; the type map `map[string]*Type`
  maps keys to addresses.  `Type.Fold` mutates the record behind its receiver, so a lookup
  that returns the receiver itself sees the mutated record, exactly as in Go.
* Recursion that may not terminate (`Type.Fold` on a cyclic base chain) takes a fuel argument
  and returns `none` when the fuel is exhausted.
* `PropType.Node` returns an `*ast.Ident`; its model `Node` returns the identifier's name,
  and the line it prints for an unknown type is left out.  `doTypeSearch` ranges over the
  map in the order of the association list.
* `Parser.Fold` walks the keys in the order `slices.SortedFunc` and `slices.Reverse` leave
  them in.  The walk itself is `foldWalk`, over any list of keys; `ParserFold` runs it on the
  reversed insertion sort of the keys.  The statements about the walk are proved for every
  order that visits all keys, so they do not depend on how the sort breaks ties.
-/

namespace csdl

/-! ## Strings -/

/-- Go `string`: a sequence of bytes. -/
abbrev GoString := List Nat

/-- Bytes of an ASCII string literal of the source. -/
def lit (s : String) : GoString := s.data.map Char.toNat

/-- Go `strings.Compare`: three-way bytewise lexicographic comparison. -/
def stringsCompare : GoString → GoString → Int
  | [], [] => 0
  | [], _ :: _ => -1
  | _ :: _, [] => 1
  | x :: xs, y :: ys => if x < y then -1 else if y < x then 1 else stringsCompare xs ys

/-- Go `cmp.Compare` on `int`. -/
def cmpCompare (x y : Int) : Int := if x < y then -1 else if y < x then 1 else 0

/-- Go `strings.Index(s, sep)` for a one-byte separator; `none` stands for `-1`. -/
def stringsIndex : GoString → Nat → Option Nat
  | [], _ => none
  | x :: xs, c => if x = c then some 0 else (stringsIndex xs c).map (· + 1)

/-- Go `strings.TrimPrefix(s, p)` for a one-byte prefix. -/
def stringsTrimPrefix : GoString → Nat → GoString
  | [], _ => []
  | x :: xs, c => if x = c then xs else x :: xs

/-- Whether a byte is an ASCII decimal digit. -/
def isDigit (c : Nat) : Bool := decide (48 ≤ c) && decide (c ≤ 57)

/-- Value of a string of decimal digits, most significant first. -/
def digitsVal (ds : GoString) : Nat := ds.foldl (fun acc c => acc * 10 + (c - 48)) 0

/-- Largest value of Go's 64-bit `int`. -/
def maxInt : Nat := 2 ^ 63 - 1

/-- Unsigned part of `strconv.Atoi`: a non-empty run of digits. -/
def atoiDigits (ds : GoString) : Option Nat :=
  if ds = [] then none else if ds.all isDigit then some (digitsVal ds) else none

/-- Go `strconv.Atoi`: an optional sign followed by one or more decimal digits, failing
(`none`, the `err != nil` case) on any other input and on a value outside the `int` range. -/
def Atoi (s : GoString) : Option Int :=
  match s with
  | 43 :: ds =>
    match atoiDigits ds with
    | some n => if n ≤ maxInt then some (n : Int) else none
    | none => none
  | 45 :: ds =>
    match atoiDigits ds with
    | some n => if n ≤ maxInt + 1 then some (-(n : Int)) else none
    | none => none
  | ds =>
    match atoiDigits ds with
    | some n => if n ≤ maxInt then some (n : Int) else none
    | none => none

/-! ## parser.go: the namespace comparator -/

/-- Go `splitNamespace`: cut a qualified name at its first two dots. -/
def splitNamespace (namespace_ : GoString) : GoString × GoString × GoString :=
  match stringsIndex namespace_ 46 with
  | none => (namespace_, [], [])
  | some index =>
    let comp1 := namespace_.take index
    let comp2 := namespace_.drop (index + 1)
    match stringsIndex comp2 46 with
    | none => (comp1, comp2, [])
    | some index2 => (comp1, comp2.take index2, comp2.drop (index2 + 1))

/-- Go `splitVersion`: parse `vMajor_Minor_Rev`, stopping at the first part that
`strconv.Atoi` rejects. -/
def splitVersion (version : GoString) : Int × Int × Int :=
  let version := stringsTrimPrefix version 118
  match stringsIndex version 95 with
  | none =>
    match Atoi version with
    | none => (0, 0, 0)
    | some intVer => (intVer, 0, 0)
  | some index =>
    let comp1 := version.take index
    match Atoi comp1 with
    | none => (0, 0, 0)
    | some major =>
      let comp2 := version.drop (index + 1)
      match stringsIndex comp2 95 with
      | none =>
        match Atoi comp2 with
        | none => (major, 0, 0)
        | some minor => (major, minor, 0)
      | some index2 =>
        match Atoi (comp2.take index2) with
        | none => (major, 0, 0)
        | some minor =>
          match Atoi (comp2.drop (index2 + 1)) with
          | none => (major, minor, 0)
          | some rev => (major, minor, rev)

/-- Go `sortNamespace`: the comparator handed to `slices.SortedFunc`. -/
def sortNamespace (a b : GoString) : Int :=
  let (a1, a2, a3) := splitNamespace a
  let (b1, b2, b3) := splitNamespace b
  if a1 ≠ b1 then stringsCompare a1 b1
  else if a3 = [] then stringsCompare a2 b2
  else
    let (aMajor, aMinor, aRev) := splitVersion a2
    let (bMajor, bMinor, bRev) := splitVersion b2
    if aMajor ≠ bMajor then cmpCompare aMajor bMajor
    else if aMinor ≠ bMinor then cmpCompare aMinor bMinor
    else if aRev ≠ bRev then cmpCompare aRev bRev
    else stringsCompare a3 b3

/-! ## type.go: the data model -/

/-- Go `map[string]V`. -/
abbrev GoMap (V : Type) := List (GoString × V)

/-- Map read `m[k]` with the comma-ok result. -/
def GoMap.get {V : Type} : GoMap V → GoString → Option V
  | [], _ => none
  | (k', v) :: rest, k => if k' = k then some v else GoMap.get rest k

/-- Map write `m[k] = v`. -/
def GoMap.set {V : Type} : GoMap V → GoString → V → GoMap V
  | [], k, v => [(k, v)]
  | (k', v') :: rest, k, v => if k' = k then (k, v) :: rest else (k', v') :: GoMap.set rest k v

/-- Go `delete(m, k)`. -/
def GoMap.delete {V : Type} : GoMap V → GoString → GoMap V
  | [], _ => []
  | (k', v) :: rest, k => if k' = k then GoMap.delete rest k else (k', v) :: GoMap.delete rest k

/-- Go `PropType`. -/
structure PropType where
  Navigation : Bool
  Type_ : GoString
  CanBeNull : Bool
  JsonName : GoString
deriving DecidableEq, Repr

/-- Go `MemberType`. -/
structure MemberType where
  Name : GoString
  Value : GoString
deriving DecidableEq, Repr

/-- Go `Type`. -/
structure Type_ where
  Name : GoString
  Namespace : GoString
  BaseType : GoString
  Properties : GoMap PropType
  Members : GoMap MemberType
  Wildcard : Bool
  Replacements : GoMap GoString
  ComplexType : Bool
deriving DecidableEq, Repr

/-- The program state `Type.Fold` works on: the records behind the `*Type` pointers and the
type map `types map[string]*Type`. -/
structure Store where
  heap : Nat → Type_
  types : GoMap Nat

/-- Assignment through a pointer: replace the record at address `t`. -/
def Store.write (st : Store) (t : Nat) (r : Type_) : Store :=
  { st with heap := Function.update st.heap t r }

/-- The map key `t.Namespace + "." + t.Name`. -/
def qualifiedName (r : Type_) : GoString := r.Namespace ++ lit "." ++ r.Name

/-- Go `len(m)`: the number of distinct keys. -/
def GoMap.len {V : Type} : GoMap V → Nat
  | [] => 0
  | (k, _) :: rest => if (GoMap.get rest k).isSome then GoMap.len rest else GoMap.len rest + 1

/-! ## csdl.go: the raw declarations

Only the fields the builders read are kept. -/

/-- Go `Property`; `Nullable *bool` is `none` for `nil`. -/
structure Property where
  Name : GoString
  Type_ : GoString
  Nullable : Option Bool
deriving DecidableEq, Repr

/-- Go `NavigationProperty`. -/
structure NavigationProperty where
  Name : GoString
  Type_ : GoString
  Nullable : Option Bool
deriving DecidableEq, Repr

/-- Go `Annotation`. -/
structure Annotation where
  Term : GoString
  Bool_ : Bool
deriving DecidableEq, Repr

/-- Go `EntityType`. -/
structure EntityType where
  Name : GoString
  BaseType : GoString
  Property : List Property
  NavigationProperty : List NavigationProperty
deriving DecidableEq, Repr

/-- Go `ComplexType`. -/
structure ComplexType where
  Name : GoString
  BaseType : GoString
  Property : List Property
  NavigationProperty : List NavigationProperty
  Annotation : List Annotation
deriving DecidableEq, Repr

/-! ## type.go: building the model -/

/-- The `canBeNull` computation of the builders: the declared value, `true` when absent. -/
def canBeNullOf (nullable : Option Bool) : Bool :=
  match nullable with
  | some b => b
  | none => true

/-- The loop over `Property` shared by `NewTypeFromEntityType` and
`NewTypeFromComplexType`. -/
def addProperties (props : GoMap PropType) (declared : List Property) : GoMap PropType :=
  declared.foldl (fun acc property =>
    acc.set property.Name
      { Navigation := false, Type_ := property.Type_,
        CanBeNull := canBeNullOf property.Nullable, JsonName := [] }) props

/-- The loop over `NavigationProperty` shared by the two builders. -/
def addNavigationProperties (props : GoMap PropType) (declared : List NavigationProperty) :
    GoMap PropType :=
  declared.foldl (fun acc navProp =>
    acc.set navProp.Name
      { Navigation := true, Type_ := navProp.Type_,
        CanBeNull := canBeNullOf navProp.Nullable, JsonName := [] }) props

/-- Go `NewTypeFromEntityType`; the result is the freshly allocated record. -/
def NewTypeFromEntityType (entityType : EntityType) (nameSpace : GoString) : Type_ :=
  { Name := entityType.Name,
    Namespace := nameSpace,
    Properties :=
      addNavigationProperties (addProperties [] entityType.Property)
        entityType.NavigationProperty,
    BaseType := entityType.BaseType,
    ComplexType := false,
    Members := [], Wildcard := false, Replacements := [] }

/-- The annotation loop of `NewTypeFromComplexType`: stop with `true` at the first
annotation that marks a wildcard. -/
def wildcardScan : List Annotation → Bool
  | [] => false
  | annotation :: rest =>
    if annotation.Term = lit "Redfish.DynamicPropertyPatterns" then true
    else if annotation.Term = lit "OData.AdditionalProperties" ∧ annotation.Bool_ = true
    then true
    else wildcardScan rest

/-- Go `NewTypeFromComplexType`; the result is the freshly allocated record. -/
def NewTypeFromComplexType (complexType : ComplexType) (nameSpace : GoString) : Type_ :=
  let props :=
    addNavigationProperties (addProperties [] complexType.Property)
      complexType.NavigationProperty
  { Name := complexType.Name,
    Namespace := nameSpace,
    Properties := props,
    BaseType := complexType.BaseType,
    ComplexType := true,
    Members := [],
    Wildcard := if GoMap.len props = 0 then wildcardScan complexType.Annotation else false,
    Replacements := [] }

/-! ## type.go: folding -/

/-- The base name `"Resource.v1_0_0.Resource"` of the first case of `handleUnknownType`. -/
def legacyRoot : GoString := lit "Resource.v1_0_0.Resource"

/-- The base name `"Resource.Links"` of the second case of `handleUnknownType`. -/
def legacyLinks : GoString := lit "Resource.Links"

/-- The four assignments of the `"Resource.v1_0_0.Resource"` case. -/
def legacyRootProperties (props : GoMap PropType) : GoMap PropType :=
  let p1 := props.set (lit "ID")
    { Type_ := lit "Edm.String", CanBeNull := false, Navigation := false,
      JsonName := lit "@odata.id" }
  let p2 := p1.set (lit "Type")
    { Type_ := lit "Edm.String", CanBeNull := false, Navigation := false,
      JsonName := lit "@odata.type" }
  let p3 := p2.set (lit "Name")
    { Type_ := lit "Edm.String", CanBeNull := false, Navigation := false, JsonName := [] }
  p3.set (lit "Description")
    { Type_ := lit "Edm.String", CanBeNull := true, Navigation := false, JsonName := [] }

/-- The assignment of the `"Resource.Links"` case. -/
def legacyLinksProperties (props : GoMap PropType) : GoMap PropType :=
  props.set (lit "Oem")
    { Type_ := lit "Resource.Oem", CanBeNull := true, Navigation := false, JsonName := [] }

/-- Go `handleUnknownType`: the dead-end policy. -/
def handleUnknownType (st : Store) (t : Nat) : Store × Option Nat :=
  let r := st.heap t
  if r.BaseType = legacyRoot then
    (st.write t { r with Properties := legacyRootProperties r.Properties }, some t)
  else if r.BaseType = legacyLinks then
    (st.write t { r with Properties := legacyLinksProperties r.Properties }, some t)
  else if r.BaseType = [] then
    (st, some t)
  else
    ({ st with types := st.types.delete (qualifiedName r) }, none)

/-- The base lookup at the head of `Type.Fold`: `types[t.BaseType]`, and on a miss
`types[replacements[t.BaseType]]`. -/
def lookupBase (types : GoMap Nat) (replacements : GoMap GoString) (base : GoString) :
    Option Nat :=
  match types.get base with
  | some b => some b
  | none =>
    match replacements.get base with
    | some replacement => types.get replacement
    | none => none

/-- The merge loop of `Type.Fold`: every property of the base whose name the receiver does
not have yet is copied into the receiver. -/
def mergeProperties (mine base : GoMap PropType) : GoMap PropType :=
  base.foldl (fun acc p => if (acc.get p.1).isSome then acc else acc.set p.1 p.2) mine

/-- Go `(*Type).Fold`.  One unit of fuel per call; `none` means the fuel ran out.  The result
is the state after the call and the returned pointer (`none` for `nil`). -/
def Fold : Nat → Store → GoMap GoString → Nat → Option (Store × Option Nat)
  | 0, _, _, _ => none
  | fuel + 1, st, replacements, t =>
    match lookupBase st.types replacements (st.heap t).BaseType with
    | none => some (handleUnknownType st t)
    | some b =>
      let baseType := st.heap b
      let r := st.heap t
      let st1 := st.write t
        { r with Properties := mergeProperties r.Properties baseType.Properties,
                 BaseType := baseType.BaseType }
      if baseType.BaseType ≠ [] then
        match Fold fuel st1 replacements t with
        | none => none
        | some (st2, none) => some (st2, none)
        | some (st2, some t2) =>
          some (st2.write t2 { st2.heap t2 with Replacements := replacements }, some t2)
      else
        some (st1.write t { st1.heap t with Replacements := replacements }, some t)

/-! ## parser.go: folding the whole map -/

/-- The loop of `Parser.Fold` over the reversed sorted keys. -/
def foldWalk (fuel : Nat) (replacements : GoMap GoString) :
    Store → List GoString → Option Store
  | st, [] => some st
  | st, name :: rest =>
    match st.types.get name with
    | none => foldWalk fuel replacements st rest
    | some t =>
      match Fold fuel st replacements t with
      | none => none
      | some (st1, some t1) =>
        foldWalk fuel replacements { st1 with types := st1.types.set name t1 } rest
      | some (st1, none) =>
        foldWalk fuel replacements { st1 with types := st1.types.delete name } rest

/-- Go `maps.Keys(types)`. -/
def Store.keys (st : Store) : List GoString := st.types.map Prod.fst

/-- Go `slices.SortedFunc(keys, sortNamespace)`, as an insertion sort. -/
def sortedKeys (keys : List GoString) : List GoString :=
  keys.insertionSort (fun a b => sortNamespace a b ≤ 0)

/-- Go `(*Parser).Fold`: sort the keys, reverse, and fold each type still in the map. -/
def ParserFold (fuel : Nat) (replacements : GoMap GoString) (st : Store) : Option Store :=
  foldWalk fuel replacements st (sortedKeys st.keys).reverse

/-! ## type.go: resolving property types -/

/-- Go `strings.HasPrefix`. -/
def stringsHasPrefix (s pre : GoString) : Bool := pre.isPrefixOf s

/-- Go `strings.HasSuffix`. -/
def stringsHasSuffix (s suf : GoString) : Bool := suf.isSuffixOf s

/-- Go `strings.TrimPrefix` for a prefix of any length. -/
def trimPrefix (s pre : GoString) : GoString :=
  if stringsHasPrefix s pre then s.drop pre.length else s

/-- Go `strings.TrimSuffix`. -/
def trimSuffix (s suf : GoString) : GoString :=
  if stringsHasSuffix s suf then s.take (s.length - suf.length) else s

/-- Go `strings.ReplaceAll(s, ".", "_")`. -/
def replaceDots (s : GoString) : GoString := s.map (fun c => if c = 46 then 95 else c)

/-- Go `(*Type).GoTypeName`. -/
def GoTypeName (t : Type_) : GoString :=
  if stringsHasPrefix t.Namespace t.Name then t.Name
  else
    let nameSpace :=
      match stringsIndex t.Namespace 46 with
      | some index => t.Namespace.take index
      | none => t.Namespace
    replaceDots (nameSpace ++ lit "_" ++ t.Name)

/-- The vendor and bare name `doTypeSearch` compares: the first and third component of
`splitNamespace`, or the first and second when the third is empty. -/
def searchKey (typeName : GoString) : GoString × GoString :=
  match splitNamespace typeName with
  | (vendor, second, name) => if name = [] then (vendor, second) else (vendor, name)

/-- The loop of `doTypeSearch`: the first entry, in iteration order, whose key has the wanted
vendor and bare name. -/
def searchLoop : GoMap Nat → GoString × GoString → Option Nat
  | [], _ => none
  | (mapName, t) :: rest, wanted =>
    if searchKey mapName = wanted then some t else searchLoop rest wanted

/-- Go `doTypeSearch`; `none` stands for `(nil, false)`. -/
def doTypeSearch (typeName : GoString) (types : GoMap Nat) : Option Nat :=
  match types.get typeName with
  | some typeData => some typeData
  | none => searchLoop types (searchKey typeName)

/-- The second `switch` of `PropType.Node` as a table: the case label, whether the wrapper
is put in front, and the identifier. -/
def primitiveTable : GoMap (Bool × GoString) :=
  [(lit "Edm.Boolean", true, lit "bool"),
   (lit "Edm.Byte", true, lit "byte"),
   (lit "Edm.Date", true, lit "Date"),
   (lit "Edm.DateTimeOffset", true, lit "DateTimeOffset"),
   (lit "Edm.Decimal", true, lit "float64"),
   (lit "Edm.Double", true, lit "float64"),
   (lit "Edm.Duration", true, lit "Duration"),
   (lit "Edm.Int16", true, lit "int16"),
   (lit "Edm.Int32", true, lit "int32"),
   (lit "Edm.Int64", true, lit "int64"),
   (lit "Edm.PrimitiveType", true, lit "any"),
   (lit "Edm.SByte", true, lit "int8"),
   (lit "Edm.Single", true, lit "float32"),
   (lit "Edm.String", true, lit "string"),
   (lit "Edm.Guid", true, lit "UUID"),
   (lit "Resource.UUID", true, lit "UUID"),
   (lit "Resource.Oem", false, lit "map[string]any"),
   (lit "Resource.Description", true, lit "string"),
   (lit "Resource.Name", true, lit "string"),
   (lit "Resource.Status", false, lit "Resource_Status"),
   (lit "Resource.PowerState", false, lit "Resource_PowerState")]

/-- Whether `PropType.Node` takes the `Collection(` case of its first `switch`. -/
def isCollection (p : PropType) : Bool := stringsHasPrefix p.Type_ (lit "Collection(")

/-- The `prefix` variable of `PropType.Node` after its first `switch`. -/
def wrapperOf (p : PropType) : GoString :=
  if isCollection p then lit "[]" else if p.CanBeNull then lit "*" else []

/-- The `typeName` variable of `PropType.Node` after its first `switch`. -/
def strippedTypeName (p : PropType) : GoString :=
  if isCollection p then trimSuffix (trimPrefix p.Type_ (lit "Collection(")) (lit ")")
  else p.Type_

/-- Go `(*PropType).Node`: the name of the identifier it returns.  The message printed for
an unknown type is not modelled. -/
def Node (st : Store) (p : PropType) : GoString :=
  if p.Navigation then
    if p.CanBeNull then lit "*OdataID" else lit "OdataID"
  else
    let wrapper := wrapperOf p
    let typeName := strippedTypeName p
    if stringsHasSuffix typeName (lit "OemActions") then lit "map[string]any"
    else
      match primitiveTable.get typeName with
      | some (true, ident) => wrapper ++ ident
      | some (false, ident) => ident
      | none =>
        match doTypeSearch typeName st.types with
        | none => wrapper ++ lit "any"
        | some typeData => wrapper ++ GoTypeName (st.heap typeData)

/-! ## codegen.go: grouping types into a file -/

/-- Go `File`; only the `types` map takes part in `AddType`. -/
structure File where
  types : GoMap Nat

/-- The `types` map of `NewFile`. -/
def NewFile : File := { types := [] }

/-- Go `(*File).AddType`: the file afterwards and the returned error (`none` for `nil`). -/
def AddType (heap : Nat → Type_) (f : File) (t : Nat) : File × Option GoString :=
  if stringsHasPrefix (heap t).Namespace (lit "MessageRegistry") ∧
      (heap t).Name = lit "Message" then
    (f, none)
  else
    match f.types.get (heap t).Name with
    | some existing =>
      if GoMap.len (heap existing).Properties > GoMap.len (heap t).Properties ∨
          GoMap.len (heap existing).Members > GoMap.len (heap t).Members then
        (f, none)
      else
        ({ types := f.types.set (heap t).Name t }, none)
    | none => ({ types := f.types.set (heap t).Name t }, none)

/-! ## type.go: emitting declarations

The `go/ast` values the emitter builds are kept as plain data: a field is its name, the name
of its type identifier and the value of its tag; a declaration is a struct type with its
fields, a named type, or a block of constants.  `(*Type).Node` is `typeNode` here, since
`Node` is already the name of `(*PropType).Node`. -/

/-- An `*ast.Field` with one name, an identifier as type and an optional tag literal. -/
structure Field where
  Name : GoString
  Type_ : GoString
  Tag : Option GoString
deriving DecidableEq, Repr

/-- The value of a constant: the identifier `ast.NewIdent(v)`, or the string literal
`strconv.Quote(name)`, kept unevaluated. -/
inductive ConstValue where
  | ident (v : GoString)
  | quoted (name : GoString)
deriving DecidableEq, Repr

/-- An `*ast.ValueSpec` with one name, an identifier as type and one value. -/
structure ValueSpec where
  Name : GoString
  Type_ : GoString
  Value : ConstValue
deriving DecidableEq, Repr

/-- An `*ast.GenDecl` as the emitter builds it. -/
inductive Decl where
  | structType (name : GoString) (fields : List Field)
  | namedType (name : GoString) (underlying : GoString)
  | constBlock (specs : List ValueSpec)
deriving DecidableEq, Repr

/-- The tag literal with only `omitempty`. -/
def omitemptyTag : GoString := lit "`json:\",omitempty\"`"

/-- The tag literal that names a JSON field: the text `json:"` and the name, closed by a
quote, between backquotes. -/
def jsonNameTag (jsonName : GoString) : GoString := lit "`json:\"" ++ jsonName ++ lit "\"`"

/-- Go `(*PropType).ToField`: the field, and the receiver after the call (its `Type` is
overwritten when the alias table has an entry for it). -/
def ToField (st : Store) (replacements : GoMap GoString) (p : PropType) (name : GoString) :
    Field × PropType :=
  if name = lit "Actions" then
    ({ Name := lit "Actions", Type_ := lit "map[string]Action", Tag := some omitemptyTag }, p)
  else if name = lit "Oem" then
    ({ Name := lit "Oem", Type_ := lit "map[string]any", Tag := some omitemptyTag }, p)
  else
    let p1 : PropType :=
      match replacements.get p.Type_ with
      | some rep => { p with Type_ := rep }
      | none => p
    let fieldType := Node st p1
    let tag0 : Option GoString := none
    let tag1 := if p1.JsonName ≠ [] then some (jsonNameTag p1.JsonName) else tag0
    let tag2 := if p1.Navigation = true ∨ p1.CanBeNull = true then some omitemptyTag else tag1
    let tag3 := if fieldType = lit "any" then some omitemptyTag else tag2
    ({ Name := name, Type_ := fieldType, Tag := tag3 }, p1)

/-- Go `maps.Keys(m)`: the distinct keys. -/
def GoMap.keys {V : Type} : GoMap V → List GoString
  | [] => []
  | (k, _) :: rest => if (GoMap.get rest k).isSome then GoMap.keys rest else k :: GoMap.keys rest

/-- Go `slices.Sorted` on strings, as an insertion sort. -/
def sortedStrings (keys : List GoString) : List GoString :=
  keys.insertionSort (fun a b => stringsCompare a b ≤ 0)

/-- The first fixed field of `structNode`. -/
def fixedIDField : Field :=
  { Name := lit "ID", Type_ := lit "string", Tag := some (lit "`json:\"@odata.id\"`") }

/-- The second fixed field of `structNode`. -/
def fixedTypeField : Field :=
  { Name := lit "Type", Type_ := lit "string",
    Tag := some (lit "`json:\"@odata.type,omitempty\"`") }

/-- The third fixed field of `structNode`. -/
def fixedContextField : Field :=
  { Name := lit "Context", Type_ := lit "string",
    Tag := some (lit "`json:\"@odata.context,omitempty\"`") }

/-- The step `structNode` repeats for `Id`, `Name` and `Description`: when the record at `t`
has the property, its field is appended (with the tag replaced by `omitempty` when `retag`
is set, as for `Description`) and the property is deleted from the record. -/
def takeProperty (st : Store) (t : Nat) (name : GoString) (retag : Bool)
    (fields : List Field) : Store × List Field :=
  match (st.heap t).Properties.get name with
  | some prop =>
    let field := (ToField st (st.heap t).Replacements prop name).1
    let field := if retag then { field with Tag := some omitemptyTag } else field
    (st.write t { st.heap t with Properties := (st.heap t).Properties.delete name },
      fields ++ [field])
  | none => (st, fields)

/-- The zero value of `PropType`, what a map read gives for a missing key. -/
def zeroPropType : PropType :=
  { Navigation := false, Type_ := [], CanBeNull := false, JsonName := [] }

/-- Go `(*Type).structNode`: the state afterwards and the declarations. -/
def structNode (st : Store) (t : Nat) : Store × List Decl :=
  let s0 : Store × List Field :=
    if (st.heap t).ComplexType then (st, [])
    else takeProperty st t (lit "Id") false [fixedIDField]
  let s1 : Store × List Field := (s0.1, s0.2 ++ [fixedTypeField, fixedContextField])
  let s2 := takeProperty s1.1 t (lit "Name") false s1.2
  let s3 := takeProperty s2.1 t (lit "Description") true s2.2
  let fieldNames := sortedStrings (GoMap.keys (s3.1.heap t).Properties)
  let rest := fieldNames.map (fun name =>
    let prop :=
      match (s3.1.heap t).Properties.get name with
      | some prop => prop
      | none => zeroPropType
    (ToField s3.1 (s3.1.heap t).Replacements prop name).1)
  (s3.1, [Decl.structType (GoTypeName (s3.1.heap t)) (s3.2 ++ rest)])

/-- Go `(*Type).underLyingEnumType`. -/
def underLyingEnumType : GoString := lit "string"

/-- Go `(*Type).enumNode`; the members come in the order of the association list. -/
def enumNode (st : Store) (t : Nat) : List Decl :=
  let r := st.heap t
  let specs := r.Members.map (fun entry =>
    let member := entry.2
    { Name := GoTypeName r ++ lit "_" ++ member.Name,
      Type_ := GoTypeName r,
      Value := if member.Value ≠ [] then ConstValue.ident member.Value
        else ConstValue.quoted member.Name : ValueSpec })
  [Decl.namedType (GoTypeName r) underLyingEnumType, Decl.constBlock specs]

/-- The loop at the end of `(*Type).Node`: the first entry, in iteration order, whose key
starts with the namespace of the record, whose record has the same name and has
properties. -/
def otherVersion (st : Store) (r : Type_) : GoMap Nat → Option Nat
  | [] => none
  | (name, typeData) :: rest =>
    if stringsHasPrefix name r.Namespace = true ∧ r.Name = (st.heap typeData).Name ∧
        GoMap.len (st.heap typeData).Properties > 0 then some typeData
    else otherVersion st r rest

/-- Go `(*Type).Node`: the state afterwards and the declarations; `none` stands for the
`panic` at its end. -/
def typeNode (st : Store) (t : Nat) : Option (Store × List Decl) :=
  let r := st.heap t
  if GoMap.len r.Properties ≠ 0 then some (structNode st t)
  else if GoMap.len r.Members ≠ 0 then some (st, enumNode st t)
  else if stringsHasSuffix r.Name (lit "OemActions") = true ∨ r.Name = lit "ItemOrCollection" ∨
      r.Wildcard = true then some (st, [])
  else if (46 : Nat) ∉ r.Namespace then
    match otherVersion st r st.types with
    | some typeData => some (structNode st typeData)
    | none => none
  else none

/-! ## Vocabulary of the statements -/

/-- The string `s` is a decimal writing of the natural number `n`: one or more ASCII digits
(leading zeros allowed) whose value is `n`. -/
def Decimal (s : GoString) (n : Nat) : Prop :=
  s ≠ [] ∧ s.all isDigit = true ∧ digitsVal s = n

/-- The result of `splitVersion` on `v` followed by `version`, that is, what the body of
`splitVersion` computes once `strings.TrimPrefix` has removed the `v`. -/
def splitVersionBody (version : GoString) : Int × Int × Int :=
  splitVersion (118 :: version)

/-- The version segment `vM_m_r` built from three writings. -/
def version3 (M m r : GoString) : GoString := 118 :: (M ++ 95 :: (m ++ 95 :: r))

/-- The qualified name `V.ver.X`. -/
def qualified3 (V ver X : GoString) : GoString := V ++ 46 :: (ver ++ 46 :: X)

/-- The bases reached from the record at `a`, in order: empty when `a` has no base type,
else the record found for its base type by `lookupBase`, followed by that record's bases. -/
def chainFrom (st : Store) (replacements : GoMap GoString) : Nat → List Nat → Prop
  | a, [] => (st.heap a).BaseType = []
  | a, b :: rest =>
    (st.heap a).BaseType ≠ [] ∧
    lookupBase st.types replacements (st.heap a).BaseType = some b ∧
    chainFrom st replacements b rest

instance chainFrom.decidable (st : Store) (replacements : GoMap GoString) :
    ∀ (a : Nat) (c : List Nat), Decidable (chainFrom st replacements a c)
  | a, [] => inferInstanceAs (Decidable ((st.heap a).BaseType = []))
  | a, b :: rest =>
    have := chainFrom.decidable st replacements b rest
    inferInstanceAs (Decidable ((st.heap a).BaseType ≠ [] ∧
      lookupBase st.types replacements (st.heap a).BaseType = some b ∧
      chainFrom st replacements b rest))

/-- Derived-over-base union of property maps: the first map in the list that declares the
name decides. -/
def unionGet : List (GoMap PropType) → GoString → Option PropType
  | [], _ => none
  | m :: ms, name =>
    match m.get name with
    | some p => some p
    | none => unionGet ms name

/-- The property maps of the records at the given addresses. -/
def propsOf (st : Store) (as : List Nat) : List (GoMap PropType) :=
  as.map (fun a => (st.heap a).Properties)

/-- The dead-end policy on one record: the record `handleUnknownType` leaves behind, or
`none` when it deletes the type. -/
def deadEnd (r : Type_) : Option Type_ :=
  if r.BaseType = legacyRoot then
    some { r with Properties := legacyRootProperties r.Properties }
  else if r.BaseType = legacyLinks then
    some { r with Properties := legacyLinksProperties r.Properties }
  else if r.BaseType = [] then some r
  else none

/-- The receiver needs no further folding: its base type is empty, or it is a legacy base
that resolves to nothing and whose synthetic properties are already in place. -/
def Settled (st : Store) (replacements : GoMap GoString) (t : Nat) : Prop :=
  (st.heap t).BaseType = [] ∨
  (lookupBase st.types replacements (st.heap t).BaseType = none ∧
    deadEnd (st.heap t) = some (st.heap t))

/-- The base types a record can be left with by a fold that did not delete it. -/
def FinalBase (r : Type_) : Prop :=
  r.BaseType = [] ∨ r.BaseType = legacyRoot ∨ r.BaseType = legacyLinks

/-- No record is stored under two keys (`Parser.Parse` allocates one record per key). -/
def DistinctRecords (st : Store) : Prop :=
  ∀ k1 k2 a, st.types.get k1 = some a → st.types.get k2 = some a → k1 = k2

/-- The walk order visits every key of the map. -/
def Covers (order : List GoString) (st : Store) : Prop :=
  ∀ k a, st.types.get k = some a → k ∈ order

/-- The value `splitVersion` reads from one segment on its own: the number `strconv.Atoi`
parses, and 0 when `Atoi` rejects the segment. -/
def segmentValue (s : GoString) : Int :=
  match Atoi s with
  | some n => n
  | none => 0

/-- A chain of bases that dead-ends: starting from the base type name `name`, every name is
non-empty and found by `lookupBase`, up to a last name that is non-empty, is neither legacy
name, and resolves to nothing. -/
def deadFrom (st : Store) (replacements : GoMap GoString) : GoString → List Nat → Prop
  | name, [] =>
    name ≠ [] ∧ name ≠ legacyRoot ∧ name ≠ legacyLinks ∧
    lookupBase st.types replacements name = none
  | name, b :: rest =>
    name ≠ [] ∧ lookupBase st.types replacements name = some b ∧
    deadFrom st replacements (st.heap b).BaseType rest

instance deadFrom.decidable (st : Store) (replacements : GoMap GoString) :
    ∀ (name : GoString) (c : List Nat), Decidable (deadFrom st replacements name c)
  | name, [] =>
    inferInstanceAs (Decidable (name ≠ [] ∧ name ≠ legacyRoot ∧ name ≠ legacyLinks ∧
      lookupBase st.types replacements name = none))
  | name, b :: rest =>
    have := deadFrom.decidable st replacements (st.heap b).BaseType rest
    inferInstanceAs (Decidable (name ≠ [] ∧ lookupBase st.types replacements name = some b ∧
      deadFrom st replacements (st.heap b).BaseType rest))

/-- The four properties the dead-end policy gives a type that derives from the legacy root
and declares nothing itself. -/
def legacyRootSynthesized : GoMap PropType :=
  let idProp : PropType :=
    { Navigation := false, Type_ := lit "Edm.String", CanBeNull := false,
      JsonName := lit "@odata.id" }
  let typeProp : PropType :=
    { Navigation := false, Type_ := lit "Edm.String", CanBeNull := false,
      JsonName := lit "@odata.type" }
  let nameProp : PropType :=
    { Navigation := false, Type_ := lit "Edm.String", CanBeNull := false, JsonName := [] }
  let descriptionProp : PropType :=
    { Navigation := false, Type_ := lit "Edm.String", CanBeNull := true, JsonName := [] }
  [(lit "ID", idProp), (lit "Type", typeProp), (lit "Name", nameProp),
    (lit "Description", descriptionProp)]

/-- Several map writes in a row. -/
def GoMap.setAll {V : Type} (m : GoMap V) (kvs : List (GoString × V)) : GoMap V :=
  kvs.foldl (fun acc p => acc.set p.1 p.2) m

/-- The nullability a declaration asks for, written out case by case and without the
builders: an explicit `Nullable="true"` gives `true`, an explicit `Nullable="false"` gives
`false`, and a declaration without the attribute gives `true`. -/
def declaredNullable : Option Bool → Bool
  | some true => true
  | some false => false
  | none => true

/-- The entry a declared property is expected to produce: not a navigation property, the
declared type reference, the declared nullability, no serialized name. -/
def propertyEntry (p : Property) : PropType :=
  { Navigation := false, Type_ := p.Type_, CanBeNull := declaredNullable p.Nullable,
    JsonName := [] }

/-- The entry a declared navigation property is expected to produce: a navigation property,
the declared type reference, the declared nullability, no serialized name. -/
def navigationEntry (n : NavigationProperty) : PropType :=
  { Navigation := true, Type_ := n.Type_, CanBeNull := declaredNullable n.Nullable,
    JsonName := [] }

/-- The record `r` has exactly the declared names, each with the entry of its declaration. -/
def BuiltFrom (r : Type_) (props : List Property) (navs : List NavigationProperty) : Prop :=
  (∀ p ∈ props, r.Properties.get p.Name = some (propertyEntry p)) ∧
  (∀ n ∈ navs, r.Properties.get n.Name = some (navigationEntry n)) ∧
  (∀ name, (r.Properties.get name).isSome = true →
    name ∈ props.map Property.Name ∨ name ∈ navs.map NavigationProperty.Name)

/-- The annotation marks a wildcard type. -/
def MarksWildcard (a : Annotation) : Prop :=
  a.Term = lit "Redfish.DynamicPropertyPatterns" ∨
  (a.Term = lit "OData.AdditionalProperties" ∧ a.Bool_ = true)

/-- The property `Node` is asked to resolve in the statements about collections: not a
navigation property, with the given type reference and nullability. -/
def plainProp (typeRef : GoString) (nullable : Bool) : PropType :=
  { Navigation := false, Type_ := typeRef, CanBeNull := nullable, JsonName := [] }

/-- The type reference `Collection(X)`. -/
def collectionOf (x : GoString) : GoString := lit "Collection(" ++ x ++ lit ")"

/-- The records at the given addresses are added to the file one after the other. -/
def addTypes (heap : Nat → Type_) (f : File) (ts : List Nat) : File :=
  ts.foldl (fun acc t => (AddType heap acc t).1) f

/-- The record is the `Message` of a `MessageRegistry` namespace, which `AddType` skips. -/
def IsReplicatedMessage (r : Type_) : Prop :=
  stringsHasPrefix r.Namespace (lit "MessageRegistry") = true ∧ r.Name = lit "Message"

instance IsReplicatedMessage.decidable (r : Type_) : Decidable (IsReplicatedMessage r) :=
  inferInstanceAs (Decidable
    (stringsHasPrefix r.Namespace (lit "MessageRegistry") = true ∧ r.Name = lit "Message"))

/-- The record can take part in the reconciliation under the bare name `n`: it has that
name, no enum members, and is not the replicated `Message`. -/
def StructLike (n : GoString) (r : Type_) : Prop :=
  r.Name = n ∧ GoMap.len r.Members = 0 ∧ ¬ IsReplicatedMessage r

instance StructLike.decidable (n : GoString) (r : Type_) : Decidable (StructLike n r) :=
  inferInstanceAs (Decidable
    (r.Name = n ∧ GoMap.len r.Members = 0 ∧ ¬ IsReplicatedMessage r))

/-- The bases `Type.Fold` visits from the base type name `name`: the walk is over when the
name resolves to nothing, or when the record found has no base type of its own; otherwise it
goes on from the base type of the record found. -/
def baseWalk (st : Store) (replacements : GoMap GoString) : GoString → List Nat → Prop
  | name, [] => lookupBase st.types replacements name = none
  | name, b :: rest =>
    lookupBase st.types replacements name = some b ∧
    (((st.heap b).BaseType = [] ∧ rest = []) ∨
      ((st.heap b).BaseType ≠ [] ∧ baseWalk st replacements (st.heap b).BaseType rest))

instance baseWalk.decidable (st : Store) (replacements : GoMap GoString) :
    ∀ (name : GoString) (c : List Nat), Decidable (baseWalk st replacements name c)
  | name, [] => inferInstanceAs (Decidable (lookupBase st.types replacements name = none))
  | name, b :: rest =>
    have := baseWalk.decidable st replacements (st.heap b).BaseType rest
    inferInstanceAs (Decidable (lookupBase st.types replacements name = some b ∧
      (((st.heap b).BaseType = [] ∧ rest = []) ∨
        ((st.heap b).BaseType ≠ [] ∧ baseWalk st replacements (st.heap b).BaseType rest))))

/-- The properties of a record without `Id`, which only a type that is not a complex type
loses. -/
def withoutId (r : Type_) : GoMap PropType :=
  if r.ComplexType then r.Properties else GoMap.delete r.Properties (lit "Id")

/-- The record a struct emission leaves behind: `Id` (unless the type is a complex type),
`Name` and `Description` are gone from its properties, everything else is as before. -/
def afterEmission (r : Type_) : Type_ :=
  let withoutName := GoMap.delete (withoutId r) (lit "Name")
  { r with Properties := GoMap.delete withoutName (lit "Description") }

/-! ## Example data -/

/-- A record with the given name, namespace, base type and properties. -/
def mkType (name ns base : String) (props : GoMap PropType) : Type_ :=
  { Name := lit name, Namespace := lit ns, BaseType := lit base, Properties := props,
    Members := [], Wildcard := false, Replacements := [], ComplexType := false }

/-- A plain string-typed property. -/
def strProp (nullable : Bool) : PropType :=
  { Navigation := false, Type_ := lit "Edm.String", CanBeNull := nullable, JsonName := [] }

/-- Three versions of a widget and an unrelated gadget: `v1_1_0` derives from `v1_0_0`,
which derives from the unversioned root; `Size` is declared by the first two. -/
def widgetStore : Store :=
  { heap := fun a =>
      if a = 0 then mkType "Widget" "Acme.v1_1_0" "Acme.v1_0_0.Widget"
        [(lit "Size", strProp false)]
      else if a = 1 then mkType "Widget" "Acme.v1_0_0" "Acme.Widget"
        [(lit "Size", strProp true), (lit "Color", strProp true)]
      else if a = 2 then mkType "Widget" "Acme" "" [(lit "Id", strProp false)]
      else mkType "Gadget" "Acme" "" [(lit "Weight", strProp true)],
    types := [(lit "Acme.v1_1_0.Widget", 0), (lit "Acme.v1_0_0.Widget", 1),
      (lit "Acme.Widget", 2), (lit "Acme.Gadget", 3)] }

/-- The base chains of the records of `widgetStore`, by address. -/
def widgetChains (a : Nat) : List Nat :=
  if a = 0 then [1, 2] else if a = 1 then [2] else []

/-- An alias table with an entry for the empty name. -/
def emptyNameAlias : GoMap GoString := [([], lit "Acme.Gadget")]

/-- A single type that declares `Name` itself and derives from the legacy root, which is
not in the map. -/
def legacyStore : Store :=
  { heap := fun _ => mkType "Chassis" "Acme" "Resource.v1_0_0.Resource"
      [(lit "Name", strProp true)],
    types := [(lit "Acme.Chassis", 0)] }

/-- A type that dead-ends two bases up: `Acme.v1_1_0.Sensor` derives from
`Acme.v1_0_0.Sensor`, which derives from `Vendor.Missing`, a name nothing resolves; the
unrelated `Acme.Gadget` shares the map. -/
def sensorStore : Store :=
  { heap := fun a =>
      if a = 0 then mkType "Sensor" "Acme.v1_1_0" "Acme.v1_0_0.Sensor"
        [(lit "Reading", strProp true)]
      else if a = 1 then mkType "Sensor" "Acme.v1_0_0" "Vendor.Missing"
        [(lit "Units", strProp true)]
      else mkType "Gadget" "Acme" "" [(lit "Weight", strProp true)],
    types := [(lit "Acme.v1_1_0.Sensor", 0), (lit "Acme.v1_0_0.Sensor", 1),
      (lit "Acme.Gadget", 2)] }

/-- A single type that declares nothing itself and derives from the legacy root, which is
not in the map. -/
def bareLegacyStore : Store :=
  { heap := fun _ => mkType "Chassis" "Acme" "Resource.v1_0_0.Resource" [],
    types := [(lit "Acme.Chassis", 0)] }

/-- An alias table with one type definition. -/
def lengthAlias : GoMap GoString := [(lit "Acme.Length", lit "Edm.Int64")]

/-- An entity declaration with two properties and one navigation property. -/
def chassisDecl : EntityType :=
  { Name := lit "Chassis", BaseType := lit "Resource.v1_0_0.Resource",
    Property := [⟨lit "SerialNumber", lit "Edm.String", none⟩,
      ⟨lit "HeightMm", lit "Edm.Decimal", some false⟩],
    NavigationProperty := [⟨lit "Thermal", lit "Thermal.Thermal", some true⟩] }

/-- A complex declaration with the same members as `chassisDecl`. -/
def chassisComplexDecl : ComplexType :=
  { Name := chassisDecl.Name, BaseType := chassisDecl.BaseType,
    Property := chassisDecl.Property, NavigationProperty := chassisDecl.NavigationProperty,
    Annotation := [] }

/-- A folded map with one `Widget` and one `Gadget`, each in a single version. -/
def catalogStore : Store :=
  { heap := fun a =>
      if a = 0 then mkType "Widget" "Vendor.v2_3_1" "" [(lit "Size", strProp true)]
      else mkType "Gadget" "Vendor.v1_0_0" "" [(lit "Weight", strProp true)],
    types := [(lit "Vendor.v2_3_1.Widget", 0), (lit "Vendor.v1_0_0.Gadget", 1)] }

/-- Two declarations of `Widget` from different namespaces, with 2 and with 5
properties. -/
def duplicateHeap : Nat → Type_ := fun a =>
  if a = 0 then mkType "Widget" "Acme.v1_0_0" ""
    [(lit "Size", strProp true), (lit "Color", strProp true)]
  else mkType "Widget" "Acme.v1_1_0" ""
    [(lit "Size", strProp true), (lit "Color", strProp true), (lit "Weight", strProp true),
      (lit "Height", strProp true), (lit "Width", strProp true)]

/-- A map whose only type has an empty name, as a declaration without a `Name` attribute
gives. -/
def namelessStore : Store :=
  { heap := fun _ => mkType "" "Vendor.v2_3_1" "" [(lit "Size", strProp true)],
    types := [(lit "Vendor.v2_3_1.", 0)] }

/-- The `Message` of a message registry, at every address. -/
def messageHeap : Nat → Type_ := fun _ =>
  mkType "Message" "MessageRegistry.v1_0_0" "" [(lit "MessageId", strProp false)]

/-- A complex type without properties that was marked as a wildcard. -/
def wildcardStore : Store :=
  { heap := fun _ =>
      { Name := lit "HttpHeaders", Namespace := lit "EventDestination.v1_0_0", BaseType := [],
        Properties := [], Members := [], Wildcard := true, Replacements := [],
        ComplexType := true },
    types := [(lit "EventDestination.v1_0_0.HttpHeaders", 0)] }

/-- A folded entity that declares `Name` and `Size`. -/
def namedStore : Store :=
  { heap := fun _ => mkType "Widget" "Acme.v1_0_0" ""
      [(lit "Name", strProp false), (lit "Size", strProp true)],
    types := [(lit "Acme.v1_0_0.Widget", 0)] }

/-- The type `Widget` of the schema `Acme`, and a type with an empty name of the schema
`Acme.Widget`. -/
def ambiguousStore : Store :=
  { heap := fun a =>
      if a = 0 then mkType "Widget" "Acme" "" [(lit "Size", strProp true)]
      else mkType "" "Acme.Widget" "" [(lit "Weight", strProp true)],
    types := [(lit "Acme.Widget", 0), (lit "Acme.Widget.", 1)] }

/-- An alias table in which the underlying type of one alias is an alias again. -/
def chainedAlias : GoMap GoString :=
  [(lit "Acme.Length", lit "Acme.Number"), (lit "Acme.Number", lit "Edm.Int64")]

/-- A nullable string property with a serialized-name override. -/
def overriddenProp : PropType :=
  { Navigation := false, Type_ := lit "Edm.String", CanBeNull := true,
    JsonName := lit "@odata.etag" }

/-! ## Strings: basic facts -/

theorem stringsCompare_self (a : GoString) : stringsCompare a a = 0 := by
  induction a with
  | nil => rfl
  | cons x xs ih => simp [stringsCompare, ih]

theorem stringsCompare_neg_iff (a b : GoString) : stringsCompare a b < 0 ↔ a < b := by
  induction a generalizing b with
  | nil =>
    cases b with
    | nil => simp [stringsCompare]
    | cons y ys => simpa [stringsCompare] using List.nil_lt_cons y ys
  | cons x xs ih =>
    cases b with
    | nil => simp [stringsCompare]
    | cons y ys =>
      simp only [stringsCompare]
      by_cases h1 : x < y
      · simp only [h1, if_true]
        exact iff_of_true (by decide) (List.Lex.rel h1)
      · by_cases h2 : y < x
        · simp only [h1, h2, if_true, if_false]
          constructor
          · intro h
            omega
          · intro h
            cases h with
            | cons h => omega
            | rel h => omega
        · have h3 : x = y := by omega
          subst h3
          simp only [h1, if_false, ih]
          constructor
          · intro h
            exact List.Lex.cons h
          · intro h
            cases h with
            | cons h => exact h
            | rel h => omega

theorem stringsIndex_none (s : GoString) (c : Nat) (h : c ∉ s) : stringsIndex s c = none := by
  induction s with
  | nil => rfl
  | cons x xs ih =>
    simp only [List.mem_cons, not_or] at h
    simp [stringsIndex, ih h.2, Ne.symm h.1]

theorem stringsIndex_append (p q : GoString) (c : Nat) (h : c ∉ p) :
    stringsIndex (p ++ c :: q) c = some p.length := by
  induction p with
  | nil => simp [stringsIndex]
  | cons x xs ih =>
    simp only [List.mem_cons, not_or] at h
    simp [stringsIndex, ih h.2, Ne.symm h.1]

/-! ## The version parser on well-formed versions -/

theorem not_mem_of_all_isDigit (s : GoString) (c : Nat) (hs : s.all isDigit = true)
    (hc : isDigit c = false) : c ∉ s := by
  intro hmem
  have := List.all_eq_true.mp hs c hmem
  simp [hc] at this

theorem Atoi_decimal (s : GoString) (n : Nat) (h : Decimal s n) (hn : n ≤ maxInt) :
    Atoi s = some (n : Int) := by
  obtain ⟨hne, hall, hval⟩ := h
  cases s with
  | nil => exact absurd rfl hne
  | cons d ds =>
    have hd : isDigit d = true := by
      have := List.all_eq_true.mp hall d (List.mem_cons_self d ds)
      exact this
    have h43 : d ≠ 43 := by
      intro h
      subst h
      simp [isDigit] at hd
    have h45 : d ≠ 45 := by
      intro h
      subst h
      simp [isDigit] at hd
    have hA : Atoi (d :: ds) =
        match atoiDigits (d :: ds) with
        | some n => if n ≤ maxInt then some (n : Int) else none
        | none => none := by
      unfold Atoi
      split
      · next h => exact absurd (List.cons.inj h).1 h43
      · next h => exact absurd (List.cons.inj h).1 h45
      · rfl
    rw [hA]
    simp [atoiDigits, hall, hval, hn]

theorem digitsVal_append_one (ds : GoString) (c : Nat) :
    digitsVal (ds ++ [c]) = digitsVal ds * 10 + (c - 48) := by
  simp [digitsVal, List.foldl_append]

theorem digitsVal_reverse_digits (L : List Nat) :
    digitsVal (L.reverse.map (· + 48)) = Nat.ofDigits 10 L := by
  induction L with
  | nil => rfl
  | cons d L ih =>
    rw [List.reverse_cons, List.map_append, List.map_singleton, digitsVal_append_one, ih,
      Nat.ofDigits_cons]
    simp only [Nat.add_sub_cancel, Nat.cast_id]
    omega

/-- Every natural number has a decimal writing. -/
theorem exists_decimal (n : Nat) : ∃ s, Decimal s n := by
  by_cases hn : n = 0
  · subst hn
    exact ⟨[48], by decide, by decide, by decide⟩
  · refine ⟨(Nat.digits 10 n).reverse.map (· + 48), ?_, ?_, ?_⟩
    · intro h
      have h2 : Nat.digits 10 n = [] := by
        simpa using h
      exact hn (Nat.digits_eq_nil_iff_eq_zero.mp h2)
    · rw [List.all_eq_true]
      intro c hc
      obtain ⟨d, hd, rfl⟩ := List.mem_map.mp hc
      have hlt : d < 10 := Nat.digits_lt_base (by decide) (List.mem_reverse.mp hd)
      simp only [isDigit, Bool.and_eq_true, decide_eq_true_eq]
      omega
    · rw [digitsVal_reverse_digits, Nat.ofDigits_digits]

theorem splitVersion_v (s : GoString) : splitVersion (118 :: s) = splitVersionBody s := rfl

theorem splitVersion_decimal_head (s rest : GoString) (n : Nat) (h : Decimal s n) :
    splitVersion (s ++ rest) = splitVersionBody (s ++ rest) := by
  obtain ⟨hne, hall, hv⟩ := h
  cases s with
  | nil => exact absurd rfl hne
  | cons d ds =>
    have hd : isDigit d = true := List.all_eq_true.mp hall d (List.mem_cons_self d ds)
    have h118 : d ≠ 118 := by
      intro h
      subst h
      simp [isDigit] at hd
    simp [splitVersionBody, splitVersion, stringsTrimPrefix, h118]

theorem splitVersionBody_three (sM sm sr : GoString) (M m r : Nat)
    (hM : Decimal sM M) (hm : Decimal sm m) (hr : Decimal sr r)
    (bM : M ≤ maxInt) (bm : m ≤ maxInt) (br : r ≤ maxInt) :
    splitVersionBody (sM ++ 95 :: (sm ++ 95 :: sr)) = ((M : Int), (m : Int), (r : Int)) := by
  have u1 : (95 : Nat) ∉ sM := not_mem_of_all_isDigit sM 95 hM.2.1 (by decide)
  have u2 : (95 : Nat) ∉ sm := not_mem_of_all_isDigit sm 95 hm.2.1 (by decide)
  simp [splitVersionBody, splitVersion, stringsTrimPrefix, stringsIndex_append _ _ _ u1,
    stringsIndex_append _ _ _ u2, Atoi_decimal _ _ hM bM, Atoi_decimal _ _ hm bm,
    Atoi_decimal _ _ hr br]

theorem splitVersionBody_two (sM sm : GoString) (M m : Nat)
    (hM : Decimal sM M) (hm : Decimal sm m) (bM : M ≤ maxInt) (bm : m ≤ maxInt) :
    splitVersionBody (sM ++ 95 :: sm) = ((M : Int), (m : Int), 0) := by
  have u1 : (95 : Nat) ∉ sM := not_mem_of_all_isDigit sM 95 hM.2.1 (by decide)
  have u2 : (95 : Nat) ∉ sm := not_mem_of_all_isDigit sm 95 hm.2.1 (by decide)
  simp [splitVersionBody, splitVersion, stringsTrimPrefix, stringsIndex_append _ _ _ u1,
    stringsIndex_none _ _ u2, Atoi_decimal _ _ hM bM, Atoi_decimal _ _ hm bm]

theorem splitVersionBody_one (sM : GoString) (M : Nat) (hM : Decimal sM M) (bM : M ≤ maxInt) :
    splitVersionBody sM = ((M : Int), 0, 0) := by
  have u1 : (95 : Nat) ∉ sM := not_mem_of_all_isDigit sM 95 hM.2.1 (by decide)
  simp [splitVersionBody, splitVersion, stringsTrimPrefix, stringsIndex_none _ _ u1,
    Atoi_decimal _ _ hM bM]

/-! ## The comparator -/

theorem splitNamespace_qualified3 (V ver X : GoString) (hV : (46 : Nat) ∉ V)
    (hver : (46 : Nat) ∉ ver) : splitNamespace (qualified3 V ver X) = (V, ver, X) := by
  simp [splitNamespace, qualified3, stringsIndex_append _ _ _ hV, stringsIndex_append _ _ _ hver]

theorem version3_no_dot (sA sB sC : GoString) (A B C : Nat) (hA : Decimal sA A)
    (hB : Decimal sB B) (hC : Decimal sC C) : (46 : Nat) ∉ version3 sA sB sC := by
  have u1 : (46 : Nat) ∉ sA := not_mem_of_all_isDigit sA 46 hA.2.1 (by decide)
  have u2 : (46 : Nat) ∉ sB := not_mem_of_all_isDigit sB 46 hB.2.1 (by decide)
  have u3 : (46 : Nat) ∉ sC := not_mem_of_all_isDigit sC 46 hC.2.1 (by decide)
  simp [version3, u1, u2, u3]

theorem cmpCompare_neg_iff (x y : Int) : cmpCompare x y < 0 ↔ x < y := by
  unfold cmpCompare
  split
  · simp [*]
  · split <;> simp [*]

/-- C10: `splitVersion` returns the three numbers of a well-formed version within the `int`
range, with a missing minor or revision read as 0, with or without the leading `v`. -/
theorem splitVersion_wellFormed (sM sm sr : GoString) (M m r : Nat)
    (hM : Decimal sM M) (hm : Decimal sm m) (hr : Decimal sr r)
    (bM : M ≤ maxInt) (bm : m ≤ maxInt) (br : r ≤ maxInt) :
    splitVersion (118 :: (sM ++ 95 :: (sm ++ 95 :: sr))) = ((M : Int), (m : Int), (r : Int)) ∧
    splitVersion (118 :: (sM ++ 95 :: sm)) = ((M : Int), (m : Int), 0) ∧
    splitVersion (118 :: sM) = ((M : Int), 0, 0) ∧
    splitVersion (sM ++ 95 :: (sm ++ 95 :: sr)) = ((M : Int), (m : Int), (r : Int)) ∧
    splitVersion (sM ++ 95 :: sm) = ((M : Int), (m : Int), 0) ∧
    splitVersion sM = ((M : Int), 0, 0) := by
  refine ⟨?_, ?_, ?_, ?_, ?_, ?_⟩
  · rw [splitVersion_v]
    exact splitVersionBody_three sM sm sr M m r hM hm hr bM bm br
  · rw [splitVersion_v]
    exact splitVersionBody_two sM sm M m hM hm bM bm
  · rw [splitVersion_v]
    exact splitVersionBody_one sM M hM bM
  · rw [splitVersion_decimal_head sM _ M hM]
    exact splitVersionBody_three sM sm sr M m r hM hm hr bM bm br
  · rw [splitVersion_decimal_head sM _ M hM]
    exact splitVersionBody_two sM sm M m hM hm bM bm
  · have h := splitVersion_decimal_head sM [] M hM
    rw [List.append_nil] at h
    rw [h]
    exact splitVersionBody_one sM M hM bM

/-- Witness of C10 at `v1_10_3`. -/
theorem splitVersion_wellFormed_witness :
    splitVersion (lit "v1_10_3") = (1, 10, 3) ∧ splitVersion (lit "v1_10") = (1, 10, 0) ∧
    splitVersion (lit "v1") = (1, 0, 0) ∧ splitVersion (lit "1_10_3") = (1, 10, 3) ∧
    splitVersion (lit "1_10") = (1, 10, 0) ∧ splitVersion (lit "1") = (1, 0, 0) :=
  splitVersion_wellFormed (lit "1") (lit "10") (lit "3") 1 10 3
    ⟨by decide, by decide, by decide⟩ ⟨by decide, by decide, by decide⟩
    ⟨by decide, by decide, by decide⟩ (by decide) (by decide) (by decide)

/-- C8: comparing a name with itself gives 0. -/
theorem sortNamespace_self (a : GoString) : sortNamespace a a = 0 := by
  simp [sortNamespace, stringsCompare_self]

/-- C9, as amended: for a dot-free vendor, a non-empty type name and versions whose three
numbers fit in an `int`, the comparator is negative exactly when the version triple is
lexicographically smaller, or the triples are equal and the type names are in string order. -/
theorem sortNamespace_versions (V X Y sA sB sC sD sE sF : GoString) (A B C D E F : Nat)
    (hV : (46 : Nat) ∉ V) (hX : X ≠ [])
    (hA : Decimal sA A) (hB : Decimal sB B) (hC : Decimal sC C)
    (hD : Decimal sD D) (hE : Decimal sE E) (hF : Decimal sF F)
    (bA : A ≤ maxInt) (bB : B ≤ maxInt) (bC : C ≤ maxInt)
    (bD : D ≤ maxInt) (bE : E ≤ maxInt) (bF : F ≤ maxInt) :
    sortNamespace (qualified3 V (version3 sA sB sC) X) (qualified3 V (version3 sD sE sF) Y) < 0
      ↔ ((A < D ∨ (A = D ∧ (B < E ∨ (B = E ∧ C < F)))) ∨
          (A = D ∧ B = E ∧ C = F ∧ X < Y)) := by
  have s1 := splitNamespace_qualified3 V (version3 sA sB sC) X hV
    (version3_no_dot sA sB sC A B C hA hB hC)
  have s2 := splitNamespace_qualified3 V (version3 sD sE sF) Y hV
    (version3_no_dot sD sE sF D E F hD hE hF)
  have v1 : splitVersion (version3 sA sB sC) = ((A : Int), (B : Int), (C : Int)) :=
    splitVersionBody_three sA sB sC A B C hA hB hC bA bB bC
  have v2 : splitVersion (version3 sD sE sF) = ((D : Int), (E : Int), (F : Int)) :=
    splitVersionBody_three sD sE sF D E F hD hE hF bD bE bF
  unfold sortNamespace
  rw [s1, s2]
  simp only [v1, v2, ne_eq, not_true_eq_false, if_false, hX]
  by_cases h1 : (A : Int) = D
  · have h1' : A = D := by exact_mod_cast h1
    by_cases h2 : (B : Int) = E
    · have h2' : B = E := by exact_mod_cast h2
      by_cases h3 : (C : Int) = F
      · have h3' : C = F := by exact_mod_cast h3
        simp only [h1, h2, h3, not_true_eq_false, if_false, stringsCompare_neg_iff]
        subst h1' h2' h3'
        simp
      · have h3' : C ≠ F := by exact_mod_cast h3
        simp only [h1, h2, h3, not_true_eq_false, not_false_eq_true, if_true, if_false,
          cmpCompare_neg_iff]
        subst h1' h2'
        simp only [Nat.cast_lt]
        constructor
        · intro h
          exact Or.inl (Or.inr ⟨trivial, Or.inr ⟨trivial, h⟩⟩)
        · intro h
          omega
    · have h2' : B ≠ E := by exact_mod_cast h2
      simp only [h1, h2, not_true_eq_false, not_false_eq_true, if_true, if_false,
        cmpCompare_neg_iff]
      subst h1'
      simp only [Nat.cast_lt]
      constructor
      · intro h
        exact Or.inl (Or.inr ⟨trivial, Or.inl h⟩)
      · intro h
        omega
  · have h1' : A ≠ D := by exact_mod_cast h1
    simp only [h1, not_false_eq_true, if_true, cmpCompare_neg_iff]
    simp only [Nat.cast_lt]
    constructor
    · intro h
      exact Or.inl (Or.inl h)
    · intro h
      omega

/-- Witness of C9 (amended) at `V.v1_9_0.X` against `V.v1_10_0.X`. -/
theorem sortNamespace_versions_witness :
    sortNamespace (lit "V.v1_9_0.X") (lit "V.v1_10_0.X") < 0
      ↔ (((1 : Nat) < 1 ∨ ((1 : Nat) = 1 ∧ ((9 : Nat) < 10 ∨ ((9 : Nat) = 10 ∧ (0 : Nat) < 0)))) ∨
          ((1 : Nat) = 1 ∧ (9 : Nat) = 10 ∧ (0 : Nat) = 0 ∧ lit "X" < lit "X")) :=
  sortNamespace_versions (lit "V") (lit "X") (lit "X") (lit "1") (lit "9") (lit "0")
    (lit "1") (lit "10") (lit "0") 1 9 0 1 10 0 (by decide) (by decide)
    ⟨by decide, by decide, by decide⟩ ⟨by decide, by decide, by decide⟩
    ⟨by decide, by decide, by decide⟩ ⟨by decide, by decide, by decide⟩
    ⟨by decide, by decide, by decide⟩ ⟨by decide, by decide, by decide⟩
    (by decide) (by decide) (by decide) (by decide) (by decide) (by decide)

/-- C9 as stated fails once a number leaves the `int` range: `Atoi` rejects `2^63`, the
version reads as `(0, 0, 0)`, and `V.v9223372036854775808_0_0.X` sorts below `V.v1_0_0.X`
although its triple is the larger one. -/
theorem sortNamespace_versions_overflow :
    Decimal (lit "9223372036854775808") 9223372036854775808 ∧
    Decimal (lit "0") 0 ∧ Decimal (lit "1") 1 ∧
    sortNamespace
      (qualified3 (lit "V") (version3 (lit "9223372036854775808") (lit "0") (lit "0")) (lit "X"))
      (qualified3 (lit "V") (version3 (lit "1") (lit "0") (lit "0")) (lit "X")) = -1 ∧
    ¬ ((9223372036854775808 : Nat) < 1 ∨ ((9223372036854775808 : Nat) = 1 ∧
        ((0 : Nat) < 0 ∨ ((0 : Nat) = 0 ∧ (0 : Nat) < 0)))) ∧
    ¬ ((9223372036854775808 : Nat) = 1 ∧ (0 : Nat) = 0 ∧ (0 : Nat) = 0 ∧ lit "X" < lit "X") := by
  refine ⟨⟨by decide, by decide, by decide⟩, ⟨by decide, by decide, by decide⟩,
    ⟨by decide, by decide, by decide⟩, by decide, by decide, ?_⟩
  intro h
  exact absurd h.1 (by decide)

/-- C7 at `Acme.widget` and `Acme.v1_0_0.Gadget`: each compares greater than the other. -/
theorem sortNamespace_both_greater :
    sortNamespace (lit "Acme.widget") (lit "Acme.v1_0_0.Gadget") = 1 ∧
    sortNamespace (lit "Acme.v1_0_0.Gadget") (lit "Acme.widget") = 1 := by
  decide

/-- C6 at `V.value`, `V.zz.X`, `V.v1_0_0.X`: the first is below the second, the second
below the third, and the first is above the third. -/
theorem sortNamespace_cycle :
    sortNamespace (lit "V.value") (lit "V.zz.X") = -1 ∧
    sortNamespace (lit "V.zz.X") (lit "V.v1_0_0.X") = -1 ∧
    sortNamespace (lit "V.value") (lit "V.v1_0_0.X") = 1 := by
  decide

/-! ## Maps: basic facts -/

theorem GoMap.get_set_self {V : Type} (m : GoMap V) (k : GoString) (v : V) :
    (m.set k v).get k = some v := by
  induction m with
  | nil => simp [GoMap.set, GoMap.get]
  | cons p rest ih =>
    obtain ⟨k', v'⟩ := p
    by_cases h : k' = k
    · simp [GoMap.set, GoMap.get, h]
    · simp [GoMap.set, GoMap.get, h, ih]

theorem GoMap.get_set_ne {V : Type} (m : GoMap V) (k k2 : GoString) (v : V) (hk : k2 ≠ k) :
    (m.set k v).get k2 = m.get k2 := by
  induction m with
  | nil => simp [GoMap.set, GoMap.get, Ne.symm hk]
  | cons p rest ih =>
    obtain ⟨k', v'⟩ := p
    by_cases h : k' = k
    · subst h
      simp [GoMap.set, GoMap.get, Ne.symm hk]
    · by_cases h2 : k' = k2
      · subst h2
        simp [GoMap.set, GoMap.get, h]
      · simp [GoMap.set, GoMap.get, h, h2, ih]

theorem GoMap.set_eq_self {V : Type} (m : GoMap V) (k : GoString) (v : V)
    (h : m.get k = some v) : m.set k v = m := by
  induction m with
  | nil => simp [GoMap.get] at h
  | cons p rest ih =>
    obtain ⟨k', v'⟩ := p
    by_cases hk : k' = k
    · simp only [GoMap.get, hk, if_true, Option.some.injEq] at h
      simp [GoMap.set, hk, h]
    · simp only [GoMap.get, hk, if_false] at h
      simp [GoMap.set, hk, ih h]

theorem GoMap.get_delete_self {V : Type} (m : GoMap V) (k : GoString) :
    (m.delete k).get k = none := by
  induction m with
  | nil => rfl
  | cons p rest ih =>
    obtain ⟨k', v'⟩ := p
    by_cases hk : k' = k
    · simp [GoMap.delete, hk, ih]
    · simp [GoMap.delete, hk, GoMap.get, ih]

theorem GoMap.get_delete_ne {V : Type} (m : GoMap V) (k k2 : GoString) (hk : k2 ≠ k) :
    (m.delete k).get k2 = m.get k2 := by
  induction m with
  | nil => rfl
  | cons p rest ih =>
    obtain ⟨k', v'⟩ := p
    by_cases h : k' = k
    · subst h
      simp [GoMap.delete, GoMap.get, Ne.symm hk, ih]
    · simp [GoMap.delete, h, GoMap.get, ih]

theorem GoMap.mem_of_get {V : Type} (m : GoMap V) (k : GoString) (v : V)
    (h : m.get k = some v) : (k, v) ∈ m := by
  induction m with
  | nil => simp [GoMap.get] at h
  | cons p rest ih =>
    obtain ⟨k', v'⟩ := p
    by_cases hk : k' = k
    · simp only [GoMap.get, hk, if_true, Option.some.injEq] at h
      simp [hk, h]
    · simp only [GoMap.get, hk, if_false] at h
      exact List.mem_cons_of_mem _ (ih h)

theorem GoMap.forall_get_of_forall_mem {V : Type} (m : GoMap V) (P : GoString → V → Prop)
    (h : ∀ p ∈ m, P p.1 p.2) : ∀ k v, m.get k = some v → P k v :=
  fun k v hget => h (k, v) (GoMap.mem_of_get m k v hget)

theorem mergeProperties_get (mine base : GoMap PropType) (name : GoString) :
    (mergeProperties mine base).get name =
      match mine.get name with
      | some p => some p
      | none => base.get name := by
  unfold mergeProperties
  induction base generalizing mine with
  | nil =>
    simp only [List.foldl, GoMap.get]
    cases mine.get name <;> rfl
  | cons q rest ih =>
    obtain ⟨k, v⟩ := q
    simp only [List.foldl]
    rw [ih]
    by_cases hk : k = name
    · subst hk
      cases hm : mine.get k with
      | some p => simp [hm, GoMap.get]
      | none => simp [hm, GoMap.get, GoMap.get_set_self]
    · cases hm : mine.get k with
      | some p => simp [hm, GoMap.get, hk]
      | none =>
        simp only [hm, Option.isSome_none, Bool.false_eq_true, if_false, GoMap.get, hk]
        rw [GoMap.get_set_ne _ _ _ _ (Ne.symm hk)]

/-! ## Folding one type along a resolvable chain -/

theorem Store.write_heap_self (st : Store) (t : Nat) (r : Type_) : (st.write t r).heap t = r := by
  simp [Store.write]

theorem Store.write_heap_ne (st : Store) (t a : Nat) (r : Type_) (h : a ≠ t) :
    (st.write t r).heap a = st.heap a := by
  simp [Store.write, Function.update, h]

theorem Store.write_types (st : Store) (t : Nat) (r : Type_) : (st.write t r).types = st.types :=
  rfl

theorem chainFrom_congr (st st' : Store) (repl : GoMap GoString) (ht : st'.types = st.types) :
    ∀ (c : List Nat) (a : Nat), (∀ x ∈ a :: c, st'.heap x = st.heap x) →
      chainFrom st repl a c → chainFrom st' repl a c := by
  intro c
  induction c with
  | nil =>
    intro a hx h
    simp only [chainFrom] at h ⊢
    rw [hx a (List.mem_cons_self a [])]
    exact h
  | cons b rest ih =>
    intro a hx h
    simp only [chainFrom] at h ⊢
    rw [hx a (List.mem_cons_self a _), ht]
    exact ⟨h.1, h.2.1, ih b (fun x hmem => hx x (List.mem_cons_of_mem a hmem)) h.2.2⟩

theorem propsOf_congr (st st' : Store) (as : List Nat)
    (h : ∀ x ∈ as, st'.heap x = st.heap x) : propsOf st' as = propsOf st as := by
  unfold propsOf
  apply List.map_congr_left
  intro x hx
  rw [h x hx]

theorem Fold_chain_aux (repl : GoMap GoString) (t : Nat) :
    ∀ (rest : List Nat) (b1 : Nat) (st : Store),
      lookupBase st.types repl (st.heap t).BaseType = some b1 →
      chainFrom st repl b1 rest → t ∉ b1 :: rest →
      ∀ fuel, rest.length + 1 ≤ fuel →
      ∃ st', Fold fuel st repl t = some (st', some t) ∧ st'.types = st.types ∧
        (∀ a, a ≠ t → st'.heap a = st.heap a) ∧
        st'.heap t = { st.heap t with
          BaseType := [], Properties := (st'.heap t).Properties, Replacements := repl } ∧
        ∀ name, (st'.heap t).Properties.get name = unionGet (propsOf st (t :: b1 :: rest)) name := by
  intro rest
  induction rest with
  | nil =>
    intro b1 st hl hc ht fuel hf
    obtain ⟨f, rfl⟩ : ∃ f, fuel = f + 1 := ⟨fuel - 1, by omega⟩
    simp only [chainFrom] at hc
    simp only [Fold, hl, hc, ne_eq, not_true_eq_false, if_false]
    refine ⟨_, rfl, rfl, ?_, ?_, ?_⟩
    · intro a ha
      simp [Store.write, Function.update, ha]
    · simp [Store.write]
    · intro name
      simp only [Store.write, Function.update_same, propsOf, List.map, unionGet,
        mergeProperties_get]
      cases (st.heap t).Properties.get name with
      | some p => rfl
      | none => cases (st.heap b1).Properties.get name <;> rfl
  | cons b2 rest ih =>
    intro b1 st hl hc ht fuel hf
    obtain ⟨f, rfl⟩ : ∃ f, fuel = f + 1 := ⟨fuel - 1, by omega⟩
    simp only [chainFrom] at hc
    obtain ⟨hne, hl2, hc2⟩ := hc
    have htb1 : t ≠ b1 := fun h => ht (by simp [h])
    have ht2 : t ∉ b2 :: rest := fun h => ht (List.mem_cons_of_mem b1 h)
    let st1 := st.write t
      { st.heap t with
        Properties := mergeProperties (st.heap t).Properties (st.heap b1).Properties,
        BaseType := (st.heap b1).BaseType }
    have hagree : ∀ x ∈ b2 :: rest, st1.heap x = st.heap x := by
      intro x hx
      apply Store.write_heap_ne
      intro h
      exact ht2 (h ▸ hx)
    have hl1 : lookupBase st1.types repl (st1.heap t).BaseType = some b2 := by
      simp only [st1, Store.write_types, Store.write_heap_self]
      exact hl2
    have hc1 : chainFrom st1 repl b2 rest := chainFrom_congr st st1 repl rfl rest b2 hagree hc2
    obtain ⟨st2, hF, hty, hother, hrec, hprops⟩ :=
      ih b2 st1 hl1 hc1 ht2 f (by simp only [List.length_cons] at hf; omega)
    simp only [Fold, hl, hne, ne_eq, not_false_eq_true, if_true]
    have hF' : Fold f st1 repl t = some (st2, some t) := hF
    simp only [st1] at hF'
    rw [hF']
    refine ⟨_, rfl, ?_, ?_, ?_, ?_⟩
    · simp only [Store.write_types]
      exact hty
    · intro a ha
      rw [Store.write_heap_ne _ _ _ _ ha, hother a ha]
      exact Store.write_heap_ne _ _ _ _ ha
    · rw [Store.write_heap_self, hrec]
      simp [st1, Store.write]
    · intro name
      rw [Store.write_heap_self]
      simp only
      rw [hprops name]
      have e1 : propsOf st1 (t :: b2 :: rest) =
          mergeProperties (st.heap t).Properties (st.heap b1).Properties ::
            propsOf st (b2 :: rest) := by
        have := propsOf_congr st st1 (b2 :: rest) hagree
        simp only [propsOf, List.map] at this ⊢
        rw [this]
        simp [st1, Store.write]
      rw [e1]
      simp only [propsOf, List.map, unionGet, mergeProperties_get]
      cases (st.heap t).Properties.get name with
      | some p => rfl
      | none => cases (st.heap b1).Properties.get name <;> rfl

/-! ## What a call of `Fold` leaves behind -/

theorem Store.write_same (st : Store) (t : Nat) : st.write t (st.heap t) = st := by
  cases st
  simp [Store.write]

theorem handleUnknownType_eq (st : Store) (t : Nat) :
    handleUnknownType st t =
      match deadEnd (st.heap t) with
      | some r => (st.write t r, some t)
      | none => ({ st with types := st.types.delete (qualifiedName (st.heap t)) }, none) := by
  unfold deadEnd handleUnknownType
  by_cases h1 : (st.heap t).BaseType = legacyRoot
  · simp only [if_pos h1]
  · by_cases h2 : (st.heap t).BaseType = legacyLinks
    · simp only [if_neg h1, if_pos h2]
    · by_cases h3 : (st.heap t).BaseType = []
      · simp only [if_neg h1, if_neg h2, if_pos h3, Store.write_same]
      · simp only [if_neg h1, if_neg h2, if_neg h3]

theorem deadEnd_cases (r r' : Type_) (h : deadEnd r = some r') :
    (r.BaseType = legacyRoot ∧ r' = { r with Properties := legacyRootProperties r.Properties }) ∨
    (r.BaseType ≠ legacyRoot ∧ r.BaseType = legacyLinks ∧
      r' = { r with Properties := legacyLinksProperties r.Properties }) ∨
    (r.BaseType ≠ legacyRoot ∧ r.BaseType ≠ legacyLinks ∧ r.BaseType = [] ∧ r' = r) := by
  unfold deadEnd at h
  by_cases h1 : r.BaseType = legacyRoot
  · simp only [if_pos h1, Option.some.injEq] at h
    exact Or.inl ⟨h1, h.symm⟩
  · by_cases h2 : r.BaseType = legacyLinks
    · simp only [if_neg h1, if_pos h2, Option.some.injEq] at h
      exact Or.inr (Or.inl ⟨h1, h2, h.symm⟩)
    · by_cases h3 : r.BaseType = []
      · simp only [if_neg h1, if_neg h2, if_pos h3, Option.some.injEq] at h
        exact Or.inr (Or.inr ⟨h1, h2, h3, h.symm⟩)
      · simp only [if_neg h1, if_neg h2, if_neg h3] at h
        exact absurd h (by simp)

theorem deadEnd_fields (r r' : Type_) (h : deadEnd r = some r') :
    r' = { r with Properties := r'.Properties } := by
  rcases deadEnd_cases r r' h with ⟨_, h2⟩ | ⟨_, _, h2⟩ | ⟨_, _, _, h2⟩ <;> subst h2 <;> rfl

theorem legacyRootProperties_idem (m : GoMap PropType) :
    legacyRootProperties (legacyRootProperties m) = legacyRootProperties m := by
  have k1 : lit "ID" ≠ lit "Type" := by decide
  have k2 : lit "ID" ≠ lit "Name" := by decide
  have k3 : lit "ID" ≠ lit "Description" := by decide
  have k4 : lit "Type" ≠ lit "Name" := by decide
  have k5 : lit "Type" ≠ lit "Description" := by decide
  have k6 : lit "Name" ≠ lit "Description" := by decide
  generalize hn : legacyRootProperties m = n
  have g1 := hn
  have g2 := hn
  have g3 := hn
  have g4 := hn
  unfold legacyRootProperties
  unfold legacyRootProperties at g1 g2 g3 g4
  simp only at g1 g2 g3 g4 ⊢
  rw [GoMap.set_eq_self n (lit "ID")]
  · rw [GoMap.set_eq_self n (lit "Type")]
    · rw [GoMap.set_eq_self n (lit "Name")]
      · rw [GoMap.set_eq_self n (lit "Description")]
        rw [← g4]
        exact GoMap.get_set_self _ _ _
      · rw [← g3, GoMap.get_set_ne _ _ _ _ k6]
        exact GoMap.get_set_self _ _ _
    · rw [← g2, GoMap.get_set_ne _ _ _ _ k5, GoMap.get_set_ne _ _ _ _ k4]
      exact GoMap.get_set_self _ _ _
  · rw [← g1, GoMap.get_set_ne _ _ _ _ k3, GoMap.get_set_ne _ _ _ _ k2,
      GoMap.get_set_ne _ _ _ _ k1]
    exact GoMap.get_set_self _ _ _

theorem legacyLinksProperties_idem (m : GoMap PropType) :
    legacyLinksProperties (legacyLinksProperties m) = legacyLinksProperties m := by
  unfold legacyLinksProperties
  rw [GoMap.set_eq_self _ (lit "Oem")]
  exact GoMap.get_set_self _ _ _

theorem deadEnd_idem (r r' : Type_) (h : deadEnd r = some r') : deadEnd r' = some r' := by
  rcases deadEnd_cases r r' h with ⟨h1, h2⟩ | ⟨h0, h1, h2⟩ | ⟨h0, h1, h2, h3⟩
  · subst h2
    unfold deadEnd
    have h1' : ({ r with Properties := legacyRootProperties r.Properties } : Type_).BaseType =
        legacyRoot := h1
    simp only [if_pos h1', legacyRootProperties_idem]
  · subst h2
    unfold deadEnd
    have h0' : ¬ ({ r with Properties := legacyLinksProperties r.Properties } : Type_).BaseType =
        legacyRoot := h0
    have h1' : ({ r with Properties := legacyLinksProperties r.Properties } : Type_).BaseType =
        legacyLinks := h1
    simp only [if_neg h0', if_pos h1', legacyLinksProperties_idem]
  · subst h3
    exact h

theorem deadEnd_replacements (r : Type_) (repl : GoMap GoString) (h : deadEnd r = some r) :
    deadEnd { r with Replacements := repl } = some { r with Replacements := repl } := by
  rcases deadEnd_cases r r h with ⟨h1, h2⟩ | ⟨h0, h1, h2⟩ | ⟨h0, h1, h2, _⟩
  · unfold deadEnd
    have h1' : ({ r with Replacements := repl } : Type_).BaseType = legacyRoot := h1
    have hp : legacyRootProperties r.Properties = r.Properties := by
      have := congrArg Type_.Properties h2
      exact this.symm
    simp only [if_pos h1', hp]
  · unfold deadEnd
    have h0' : ¬ ({ r with Replacements := repl } : Type_).BaseType = legacyRoot := h0
    have h1' : ({ r with Replacements := repl } : Type_).BaseType = legacyLinks := h1
    have hp : legacyLinksProperties r.Properties = r.Properties := by
      have := congrArg Type_.Properties h2
      exact this.symm
    simp only [if_neg h0', if_pos h1', hp]
  · unfold deadEnd
    have h0' : ¬ ({ r with Replacements := repl } : Type_).BaseType = legacyRoot := h0
    have h1' : ¬ ({ r with Replacements := repl } : Type_).BaseType = legacyLinks := h1
    have h2' : ({ r with Replacements := repl } : Type_).BaseType = [] := h2
    simp only [if_neg h0', if_neg h1', if_pos h2']

theorem deadEnd_baseType (r r' : Type_) (h : deadEnd r = some r') :
    r'.BaseType = [] ∨ r'.BaseType = legacyRoot ∨ r'.BaseType = legacyLinks := by
  rcases deadEnd_cases r r' h with ⟨h1, h2⟩ | ⟨_, h1, h2⟩ | ⟨_, _, h1, h2⟩
  · subst h2
    exact Or.inr (Or.inl h1)
  · subst h2
    exact Or.inr (Or.inr h1)
  · subst h2
    exact Or.inl h1

/-- A result reached with some fuel is the result with any larger fuel. -/
theorem Fold_fuel_mono (repl : GoMap GoString) (t : Nat) :
    ∀ (fuel : Nat) (st : Store) (x : Store × Option Nat), Fold fuel st repl t = some x →
      ∀ fuel2, fuel ≤ fuel2 → Fold fuel2 st repl t = some x := by
  intro fuel
  induction fuel with
  | zero =>
    intro st x h
    simp [Fold] at h
  | succ f ih =>
    intro st x h fuel2 hf
    obtain ⟨f2, rfl⟩ : ∃ f2, fuel2 = f2 + 1 := ⟨fuel2 - 1, by omega⟩
    cases hl : lookupBase st.types repl (st.heap t).BaseType with
    | none =>
      simp only [Fold, hl] at h ⊢
      exact h
    | some b =>
      by_cases hb : (st.heap b).BaseType = []
      · simp only [Fold, hl, hb, ne_eq, not_true_eq_false, if_false] at h ⊢
        exact h
      · simp only [Fold, hl, hb, ne_eq, not_false_eq_true, if_true] at h ⊢
        generalize st.write t
          { st.heap t with
            Properties := mergeProperties (st.heap t).Properties (st.heap b).Properties,
            BaseType := (st.heap b).BaseType } = stm at h ⊢
        cases hF : Fold f stm repl t with
        | none => simp [hF] at h
        | some y =>
          rw [ih stm y hF f2 (by omega)]
          rw [hF] at h
          exact h

theorem qualifiedName_congr (r r' : Type_) (h1 : r'.Name = r.Name)
    (h2 : r'.Namespace = r.Namespace) : qualifiedName r' = qualifiedName r := by
  unfold qualifiedName
  rw [h1, h2]

theorem Fold_spec (repl : GoMap GoString) (t : Nat) :
    ∀ (fuel : Nat) (st st1 : Store) (res : Option Nat),
      Fold fuel st repl t = some (st1, res) →
      (∀ a, a ≠ t → st1.heap a = st.heap a) ∧
      qualifiedName (st1.heap t) = qualifiedName (st.heap t) ∧
      ((res = some t ∧ st1.types = st.types ∧ Settled st1 repl t) ∨
        (res = none ∧ st1.types = st.types.delete (qualifiedName (st.heap t)))) := by
  intro fuel
  induction fuel with
  | zero =>
    intro st st1 res h
    simp [Fold] at h
  | succ f ih =>
    intro st st1 res h
    cases hl : lookupBase st.types repl (st.heap t).BaseType with
    | none =>
      simp only [Fold, hl, Option.some.injEq] at h
      rw [handleUnknownType_eq] at h
      cases hd : deadEnd (st.heap t) with
      | none =>
        simp only [hd, Prod.mk.injEq] at h
        obtain ⟨h1, h2⟩ := h
        subst h1 h2
        exact ⟨fun a _ => rfl, rfl, Or.inr ⟨rfl, rfl⟩⟩
      | some r' =>
        simp only [hd, Prod.mk.injEq] at h
        obtain ⟨h1, h2⟩ := h
        subst h1 h2
        have hf := deadEnd_fields _ _ hd
        have hb : r'.BaseType = (st.heap t).BaseType := by rw [hf]
        refine ⟨fun a ha => Store.write_heap_ne _ _ _ _ ha, ?_, Or.inl ⟨rfl, rfl, Or.inr ⟨?_, ?_⟩⟩⟩
        · rw [Store.write_heap_self, hf]
          rfl
        · rw [Store.write_heap_self, Store.write_types, hb]
          exact hl
        · rw [Store.write_heap_self]
          exact deadEnd_idem _ _ hd
    | some b =>
      by_cases hb : (st.heap b).BaseType = []
      · simp only [Fold, hl, hb, ne_eq, not_true_eq_false, if_false, Option.some.injEq,
          Prod.mk.injEq] at h
        obtain ⟨h1, h2⟩ := h
        subst h1 h2
        refine ⟨?_, ?_, Or.inl ⟨rfl, rfl, Or.inl ?_⟩⟩
        · intro a ha
          simp [Store.write, Function.update, ha]
        · simp [Store.write, qualifiedName]
        · simp [Store.write]
      · simp only [Fold, hl, hb, ne_eq, not_false_eq_true, if_true] at h
        generalize hst1 : st.write t
          { st.heap t with
            Properties := mergeProperties (st.heap t).Properties (st.heap b).Properties,
            BaseType := (st.heap b).BaseType } = stm at h
        have hm1 : ∀ a, a ≠ t → stm.heap a = st.heap a := by
          intro a ha
          rw [← hst1]
          exact Store.write_heap_ne _ _ _ _ ha
        have hm2 : qualifiedName (stm.heap t) = qualifiedName (st.heap t) := by
          rw [← hst1, Store.write_heap_self]
          rfl
        have hm3 : stm.types = st.types := by
          rw [← hst1]
          rfl
        cases hF : Fold f stm repl t with
        | none => simp [hF] at h
        | some p =>
          obtain ⟨st2, r2⟩ := p
          obtain ⟨i1, i2, i3⟩ := ih stm st2 r2 hF
          cases r2 with
          | none =>
            simp only [hF, Option.some.injEq, Prod.mk.injEq] at h
            obtain ⟨h1, h2⟩ := h
            subst h1 h2
            refine ⟨fun a ha => (i1 a ha).trans (hm1 a ha), i2.trans hm2, Or.inr ⟨rfl, ?_⟩⟩
            rcases i3 with ⟨h3, _⟩ | ⟨_, h3⟩
            · exact absurd h3 (by simp)
            · rw [h3, hm3, hm2]
          | some t2 =>
            simp only [hF, Option.some.injEq, Prod.mk.injEq] at h
            obtain ⟨h1, h2⟩ := h
            rcases i3 with ⟨h3, h4, h5⟩ | ⟨h3, _⟩
            · have ht2 : t2 = t := by simpa using h3
              subst ht2
              subst h1 h2
              refine ⟨?_, ?_, Or.inl ⟨rfl, h4.trans hm3, ?_⟩⟩
              · intro a ha
                rw [Store.write_heap_ne _ _ _ _ ha]
                exact (i1 a ha).trans (hm1 a ha)
              · rw [Store.write_heap_self]
                exact (qualifiedName_congr _ _ rfl rfl).trans (i2.trans hm2)
              · rcases h5 with h5 | ⟨h5, h6⟩
                · left
                  rw [Store.write_heap_self]
                  exact h5
                · right
                  rw [Store.write_heap_self, Store.write_types]
                  exact ⟨h5, deadEnd_replacements _ repl h6⟩
            · exact absurd h3 (by simp)

/-- C1: along an acyclic chain of bases that are all found (directly or through the alias
table) and that ends at a record with an empty base type, `Fold` returns its receiver with
an empty base type and with the derived-over-base union of the chain's properties; nothing
else in the state changes. -/
theorem Fold_flattens_chain (st : Store) (repl : GoMap GoString) (t b1 : Nat) (rest : List Nat)
    (fuel : Nat)
    (hbase : lookupBase st.types repl (st.heap t).BaseType = some b1)
    (hchain : chainFrom st repl b1 rest)
    (hacyclic : t ∉ b1 :: rest)
    (hfuel : (b1 :: rest).length ≤ fuel) :
    ∃ st', Fold fuel st repl t = some (st', some t) ∧
      (st'.heap t).BaseType = [] ∧
      (∀ name, (st'.heap t).Properties.get name = unionGet (propsOf st (t :: b1 :: rest)) name) ∧
      st'.heap t = { st.heap t with
        BaseType := [], Properties := (st'.heap t).Properties, Replacements := repl } ∧
      st'.types = st.types ∧ (∀ a, a ≠ t → st'.heap a = st.heap a) := by
  obtain ⟨st', hF, hty, hother, hrec, hprops⟩ :=
    Fold_chain_aux repl t rest b1 st hbase hchain hacyclic fuel (by simpa using hfuel)
  refine ⟨st', hF, ?_, hprops, hrec, hty, hother⟩
  rw [hrec]

/-- Witness of C1: folding `Acme.v1_1_0.Widget` in `widgetStore`. -/
theorem Fold_flattens_chain_witness :
    ∃ st', Fold 2 widgetStore [] 0 = some (st', some 0) ∧
      (st'.heap 0).BaseType = [] ∧
      (∀ name, (st'.heap 0).Properties.get name =
        unionGet (propsOf widgetStore [0, 1, 2]) name) ∧
      st'.heap 0 = { widgetStore.heap 0 with
        BaseType := [], Properties := (st'.heap 0).Properties, Replacements := [] } ∧
      st'.types = widgetStore.types ∧ (∀ a, a ≠ 0 → st'.heap a = widgetStore.heap a) :=
  Fold_flattens_chain widgetStore [] 0 1 [2] 2 (by decide) (by decide) (by decide) (by decide)

/-! ## Folding twice -/

theorem deadEnd_of_empty (r : Type_) (h : r.BaseType = []) : deadEnd r = some r := by
  unfold deadEnd
  have h1 : ¬ r.BaseType = legacyRoot := by
    rw [h]
    decide
  have h2 : ¬ r.BaseType = legacyLinks := by
    rw [h]
    decide
  simp only [if_neg h1, if_neg h2, if_pos h]

theorem Fold_of_settled (st : Store) (repl : GoMap GoString) (t : Nat)
    (hempty : lookupBase st.types repl [] = none) (hs : Settled st repl t) (fuel : Nat)
    (hfuel : 1 ≤ fuel) : Fold fuel st repl t = some (st, some t) := by
  obtain ⟨f, rfl⟩ : ∃ f, fuel = f + 1 := ⟨fuel - 1, by omega⟩
  have hl : lookupBase st.types repl (st.heap t).BaseType = none := by
    rcases hs with h | ⟨h, _⟩
    · rw [h]
      exact hempty
    · exact h
  have hd : deadEnd (st.heap t) = some (st.heap t) := by
    rcases hs with h | ⟨_, h⟩
    · exact deadEnd_of_empty _ h
    · exact h
  simp only [Fold, hl]
  rw [handleUnknownType_eq, hd]
  simp only [Store.write_same]

theorem lookupBase_empty (types : GoMap Nat) (repl : GoMap GoString)
    (hkeys : ∀ k a, types.get k = some a → (46 : Nat) ∈ k) (halias : repl.get [] = none) :
    lookupBase types repl [] = none := by
  unfold lookupBase
  cases hg : types.get [] with
  | some a => exact absurd (hkeys [] a hg) (by simp)
  | none => simp [halias]

/-- C4, as amended: when every key of the type map contains a dot and the alias table has
no entry for the empty name, folding the record returned by `Fold` once more returns the
same record and leaves the whole state as it was. -/
theorem Fold_idempotent (st st1 : Store) (repl : GoMap GoString) (t r fuel : Nat)
    (hkeys : ∀ k a, st.types.get k = some a → (46 : Nat) ∈ k)
    (halias : repl.get [] = none)
    (hfold : Fold fuel st repl t = some (st1, some r)) :
    ∀ fuel2, 1 ≤ fuel2 → Fold fuel2 st1 repl r = some (st1, some r) := by
  intro fuel2 hf
  obtain ⟨_, _, h3⟩ := Fold_spec repl t fuel st st1 (some r) hfold
  rcases h3 with ⟨h4, h5, h6⟩ | ⟨h4, _⟩
  · have hr : r = t := by simpa using h4
    subst hr
    have hempty : lookupBase st1.types repl [] = none := by
      rw [h5]
      exact lookupBase_empty st.types repl hkeys halias
    exact Fold_of_settled st1 repl r hempty h6 fuel2 hf
  · exact absurd h4 (by simp)

/-- Witness of C4 (amended): folding `Acme.v1_1_0.Widget` twice with an empty alias table. -/
theorem Fold_idempotent_witness :
    ∃ st1, Fold 2 widgetStore [] 0 = some (st1, some 0) ∧
      ∀ fuel2, 1 ≤ fuel2 → Fold fuel2 st1 [] 0 = some (st1, some 0) :=
  ⟨_, rfl, Fold_idempotent widgetStore _ [] 0 0 2
    (GoMap.forall_get_of_forall_mem _ _ (by decide)) rfl rfl⟩

/-- C4 as stated fails for an alias table with an entry for the empty name: the first fold
of `Acme.v1_1_0.Widget` ends with an empty base type, and the second fold resolves that empty
name through the alias table and merges the properties of `Acme.Gadget`. -/
theorem Fold_twice_differs :
    (∀ p ∈ widgetStore.types, p.1 = qualifiedName (widgetStore.heap p.2)) ∧
    ∃ st1 st2, Fold 2 widgetStore emptyNameAlias 0 = some (st1, some 0) ∧
      Fold 2 st1 emptyNameAlias 0 = some (st2, some 0) ∧
      (st1.heap 0).Properties.get (lit "Weight") = none ∧
      (st2.heap 0).Properties.get (lit "Weight") = some (strProp true) :=
  ⟨by decide, _, _, rfl, rfl, by decide, by decide⟩

/-- C5 at a type that declares `Name` itself (nullable) and derives from the legacy root:
after `Fold` its `Name` is the synthetic, non-nullable one. -/
theorem Fold_overwrites_own_Name :
    (legacyStore.heap 0).Properties.get (lit "Name") = some (strProp true) ∧
    ∃ st1, Fold 1 legacyStore [] 0 = some (st1, some 0) ∧
      (st1.heap 0).Properties.get (lit "Name") = some (strProp false) :=
  ⟨by decide, _, rfl, by decide⟩

/-! ## The walk of `Parser.Fold` -/

theorem GoMap.get_delete_some {V : Type} (m : GoMap V) (q k : GoString) (v : V)
    (h : (m.delete q).get k = some v) : k ≠ q ∧ m.get k = some v := by
  by_cases hk : k = q
  · subst hk
    rw [GoMap.get_delete_self] at h
    exact absurd h (by simp)
  · rw [GoMap.get_delete_ne _ _ _ hk] at h
    exact ⟨hk, h⟩

theorem mem_sortedKeys_reverse (st : Store) (k : GoString) :
    k ∈ (sortedKeys st.keys).reverse ↔ k ∈ st.keys := by
  unfold sortedKeys
  rw [List.mem_reverse]
  exact (List.perm_insertionSort _ _).mem_iff

theorem ParserFold_covers (st : Store) : Covers (sortedKeys st.keys).reverse st := by
  intro k a h
  rw [mem_sortedKeys_reverse]
  unfold Store.keys
  exact List.mem_map.mpr ⟨(k, a), GoMap.mem_of_get _ _ _ h, rfl⟩

theorem Settled.finalBase (st : Store) (repl : GoMap GoString) (t : Nat)
    (h : Settled st repl t) : FinalBase (st.heap t) := by
  rcases h with h | ⟨_, h⟩
  · exact Or.inl h
  · exact deadEnd_baseType _ _ h

theorem pairs_key_unique (m : GoMap Nat) (h : (m.map Prod.snd).Nodup) :
    ∀ k1 k2 a, (k1, a) ∈ m → (k2, a) ∈ m → k1 = k2 := by
  induction m with
  | nil =>
    intro k1 k2 a h1
    exact absurd h1 (by simp)
  | cons p rest ih =>
    obtain ⟨k, v⟩ := p
    simp only [List.map, List.nodup_cons] at h
    intro k1 k2 a h1 h2
    rcases List.mem_cons.mp h1 with e1 | e1
    · rcases List.mem_cons.mp h2 with e2 | e2
      · simp only [Prod.mk.injEq] at e1 e2
        rw [e1.1, e2.1]
      · simp only [Prod.mk.injEq] at e1
        exact absurd (List.mem_map.mpr ⟨(k2, a), e2, e1.2⟩) h.1
    · rcases List.mem_cons.mp h2 with e2 | e2
      · simp only [Prod.mk.injEq] at e2
        exact absurd (List.mem_map.mpr ⟨(k1, a), e1, e2.2⟩) h.1
      · exact ih h.2 k1 k2 a e1 e2

theorem distinctRecords_of_nodup (st : Store) (h : (st.types.map Prod.snd).Nodup) :
    DistinctRecords st := by
  intro k1 k2 a h1 h2
  exact pairs_key_unique st.types h k1 k2 a (GoMap.mem_of_get _ _ _ h1)
    (GoMap.mem_of_get _ _ _ h2)

theorem foldWalk_final_aux (repl : GoMap GoString) (fuel : Nat) :
    ∀ (order : List GoString) (st st' : Store),
      DistinctRecords st →
      (∀ k a, st.types.get k = some a → k ∈ order ∨ FinalBase (st.heap a)) →
      foldWalk fuel repl st order = some st' →
      ∀ k a, st'.types.get k = some a → FinalBase (st'.heap a) := by
  intro order
  induction order with
  | nil =>
    intro st st' _ hinv hrun k a hk
    simp only [foldWalk, Option.some.injEq] at hrun
    subst hrun
    rcases hinv k a hk with h | h
    · exact absurd h (by simp)
    · exact h
  | cons name rest ih =>
    intro st st' hd hinv hrun
    cases hg : st.types.get name with
    | none =>
      simp only [foldWalk, hg] at hrun
      refine ih st st' hd ?_ hrun
      intro k a hk
      rcases hinv k a hk with h | h
      · rcases List.mem_cons.mp h with h | h
        · subst h
          rw [hg] at hk
          exact absurd hk (by simp)
        · exact Or.inl h
      · exact Or.inr h
    | some t =>
      cases hF : Fold fuel st repl t with
      | none => simp [foldWalk, hg, hF] at hrun
      | some p =>
        obtain ⟨st1, r1⟩ := p
        obtain ⟨s1, _, s3⟩ := Fold_spec repl t fuel st st1 r1 hF
        cases r1 with
        | some t1 =>
          simp only [foldWalk, hg, hF] at hrun
          rcases s3 with ⟨h3, h4, h5⟩ | ⟨h3, _⟩
          · have ht1 : t1 = t := by simpa using h3
            subst ht1
            have hty : st1.types.set name t1 = st.types := by
              rw [h4]
              exact GoMap.set_eq_self _ _ _ hg
            rw [hty] at hrun
            refine ih _ st' ?_ ?_ hrun
            · exact hd
            · intro k a hk
              by_cases hat : a = t1
              · subst hat
                exact Or.inr (Settled.finalBase st1 repl a h5)
              · have hk' : st.types.get k = some a := hk
                have hheap : st1.heap a = st.heap a := s1 a hat
                rcases hinv k a hk' with h | h
                · rcases List.mem_cons.mp h with h | h
                  · subst h
                    rw [hg] at hk'
                    exact absurd (Option.some.inj hk').symm hat
                  · exact Or.inl h
                · right
                  show FinalBase (st1.heap a)
                  rw [hheap]
                  exact h
          · exact absurd h3 (by simp)
        | none =>
          simp only [foldWalk, hg, hF] at hrun
          rcases s3 with ⟨h3, _⟩ | ⟨_, h4⟩
          · exact absurd h3 (by simp)
          · have hsub : ∀ k a, (st1.types.delete name).get k = some a →
                k ≠ name ∧ st.types.get k = some a := by
              intro k a hk
              obtain ⟨g1, g2⟩ := GoMap.get_delete_some _ _ _ _ hk
              rw [h4] at g2
              exact ⟨g1, (GoMap.get_delete_some _ _ _ _ g2).2⟩
            refine ih _ st' ?_ ?_ hrun
            · intro k1 k2 a h1 h2
              exact hd k1 k2 a (hsub k1 a h1).2 (hsub k2 a h2).2
            · intro k a hk
              obtain ⟨g1, g2⟩ := hsub k a hk
              have hat : a ≠ t := by
                intro h
                subst h
                exact g1 (hd k name a g2 hg)
              have hheap : st1.heap a = st.heap a := s1 a hat
              rcases hinv k a g2 with h | h
              · rcases List.mem_cons.mp h with h | h
                · exact absurd h g1
                · exact Or.inl h
              · right
                show FinalBase (st1.heap a)
                rw [hheap]
                exact h

/-- C3, as amended: when the walk of `Parser.Fold` terminates on a map that holds a distinct
record under each key, every type still in the map has a base type that is empty or one of
the two legacy names handled by the dead-end policy.  The statement holds for every walk
order that visits all keys, in particular for `(sortedKeys st.keys).reverse`. -/
theorem foldWalk_baseTypes (repl : GoMap GoString) (fuel : Nat) (order : List GoString)
    (st st' : Store) (hdistinct : DistinctRecords st) (hcover : Covers order st)
    (hrun : foldWalk fuel repl st order = some st') :
    ∀ k a, st'.types.get k = some a →
      (st'.heap a).BaseType = [] ∨ (st'.heap a).BaseType = legacyRoot ∨
        (st'.heap a).BaseType = legacyLinks :=
  foldWalk_final_aux repl fuel order st st' hdistinct
    (fun k a hk => Or.inl (hcover k a hk)) hrun

/-- Witness of C3 (amended): the walk `Parser.Fold` makes over `widgetStore`. -/
theorem foldWalk_baseTypes_witness :
    ∃ st', ParserFold 3 [] widgetStore = some st' ∧
      ∀ k a, st'.types.get k = some a →
        (st'.heap a).BaseType = [] ∨ (st'.heap a).BaseType = legacyRoot ∨
          (st'.heap a).BaseType = legacyLinks :=
  ⟨_, rfl, foldWalk_baseTypes [] 3 (sortedKeys widgetStore.keys).reverse widgetStore _
    (distinctRecords_of_nodup widgetStore (by decide)) (ParserFold_covers widgetStore) rfl⟩

/-- C3 as stated fails for a type whose base is the legacy root: the dead-end policy keeps
the type and leaves its base type in place. -/
theorem ParserFold_keeps_legacy_base :
    ∃ st', ParserFold 1 [] legacyStore = some st' ∧
      st'.types.get (lit "Acme.Chassis") = some 0 ∧
      (st'.heap 0).BaseType = lit "Resource.v1_0_0.Resource" ∧
      (st'.heap 0).BaseType ≠ [] :=
  ⟨_, rfl, by decide, by decide, by decide⟩

/-! ## Folding the whole map along resolvable chains -/

theorem chainFrom_unique (st : Store) (repl : GoMap GoString) :
    ∀ (c c' : List Nat) (a : Nat), chainFrom st repl a c → chainFrom st repl a c' → c = c' := by
  intro c
  induction c with
  | nil =>
    intro c' a h h'
    cases c' with
    | nil => rfl
    | cons b rest =>
      simp only [chainFrom] at h h'
      exact absurd h h'.1
  | cons b rest ih =>
    intro c' a h h'
    cases c' with
    | nil =>
      simp only [chainFrom] at h h'
      exact absurd h' h.1
    | cons b' rest' =>
      simp only [chainFrom] at h h'
      have hb : b = b' := by
        have := h.2.1.symm.trans h'.2.1
        exact Option.some.inj this
      subst hb
      rw [ih rest' b h.2.2 h'.2.2]

theorem chainFrom_suffix (st : Store) (repl : GoMap GoString) :
    ∀ (pre : List Nat) (a x : Nat) (post : List Nat),
      chainFrom st repl a (pre ++ x :: post) → chainFrom st repl x post := by
  intro pre
  induction pre with
  | nil =>
    intro a x post h
    simp only [List.nil_append, chainFrom] at h
    exact h.2.2
  | cons p pre ih =>
    intro a x post h
    simp only [List.cons_append, chainFrom] at h
    exact ih p x post h.2.2

theorem chainFrom_acyclic (st : Store) (repl : GoMap GoString) (a : Nat) (c : List Nat)
    (h : chainFrom st repl a c) : a ∉ c := by
  intro hmem
  obtain ⟨pre, post, hc⟩ := List.append_of_mem hmem
  subst hc
  have h2 := chainFrom_suffix st repl pre a a post h
  have h3 := chainFrom_unique st repl _ _ a h h2
  have := congrArg List.length h3
  simp at this
  omega

theorem unionGet_single (m : GoMap PropType) (name : GoString) :
    unionGet [m] name = m.get name := by
  simp only [unionGet]
  cases m.get name <;> rfl

theorem Store.set_types_self (st : Store) (name : GoString) (t : Nat)
    (h : st.types.get name = some t) : { st with types := st.types.set name t } = st := by
  cases st
  simp only [Store.mk.injEq, true_and]
  exact GoMap.set_eq_self _ _ _ h

theorem fold_preserves_chain (st st' : Store) (repl : GoMap GoString) (t : Nat)
    (ct : List Nat) (hty : st'.types = st.types)
    (hother : ∀ a, a ≠ t → st'.heap a = st.heap a)
    (hbase : (st'.heap t).BaseType = [])
    (hct : chainFrom st repl t ct)
    (hprops : ∀ name, (st'.heap t).Properties.get name = unionGet (propsOf st (t :: ct)) name) :
    ∀ (c : List Nat) (a : Nat), chainFrom st repl a c →
      ∃ c', chainFrom st' repl a c' ∧ c'.length ≤ c.length ∧ (a = t → c' = []) ∧
        ∀ name, unionGet (propsOf st' (a :: c')) name = unionGet (propsOf st (a :: c)) name := by
  have key : ∀ (c : List Nat), chainFrom st repl t c →
      ∃ c', chainFrom st' repl t c' ∧ c'.length ≤ c.length ∧ (t = t → c' = []) ∧
        ∀ name, unionGet (propsOf st' (t :: c')) name = unionGet (propsOf st (t :: c)) name := by
    intro c hc
    have hcc : c = ct := chainFrom_unique st repl c ct t hc hct
    subst hcc
    refine ⟨[], hbase, Nat.zero_le _, fun _ => rfl, ?_⟩
    intro name
    have : propsOf st' [t] = [(st'.heap t).Properties] := rfl
    rw [this, unionGet_single]
    exact hprops name
  intro c
  induction c with
  | nil =>
    intro a hc
    by_cases hat : a = t
    · subst hat
      exact key [] hc
    · refine ⟨[], ?_, Nat.le_refl _, fun h => absurd h hat, ?_⟩
      · simp only [chainFrom] at hc ⊢
        rw [hother a hat]
        exact hc
      · intro name
        simp only [propsOf, List.map]
        rw [hother a hat]
  | cons b rest ih =>
    intro a hc
    by_cases hat : a = t
    · subst hat
      exact key (b :: rest) hc
    · simp only [chainFrom] at hc
      obtain ⟨c2, g1, g2, _, g4⟩ := ih b hc.2.2
      refine ⟨b :: c2, ?_, ?_, fun h => absurd h hat, ?_⟩
      · simp only [chainFrom]
        rw [hother a hat, hty]
        exact ⟨hc.1, hc.2.1, g1⟩
      · simp only [List.length_cons]
        omega
      · intro name
        have e1 : unionGet (propsOf st' (a :: b :: c2)) name =
            match (st'.heap a).Properties.get name with
            | some p => some p
            | none => unionGet (propsOf st' (b :: c2)) name := rfl
        have e2 : unionGet (propsOf st (a :: b :: rest)) name =
            match (st.heap a).Properties.get name with
            | some p => some p
            | none => unionGet (propsOf st (b :: rest)) name := rfl
        rw [e1, e2, hother a hat, g4 name]

theorem foldWalk_union_aux (repl : GoMap GoString) (fuel : Nat) (types : GoMap Nat)
    (U : Nat → GoString → Option PropType) (hempty : lookupBase types repl [] = none) :
    ∀ (order : List GoString) (st : Store), st.types = types →
      (∀ k a, types.get k = some a →
        ∃ c, chainFrom st repl a c ∧ c.length < fuel ∧ (k ∈ order ∨ c = []) ∧
          ∀ name, unionGet (propsOf st (a :: c)) name = U a name) →
      ∃ st', foldWalk fuel repl st order = some st' ∧ st'.types = types ∧
        ∀ k a, types.get k = some a →
          (st'.heap a).BaseType = [] ∧ ∀ name, (st'.heap a).Properties.get name = U a name := by
  intro order
  induction order with
  | nil =>
    intro st hty hinv
    refine ⟨st, rfl, hty, ?_⟩
    intro k a hk
    obtain ⟨c, h1, _, h3, h4⟩ := hinv k a hk
    have hc : c = [] := by
      rcases h3 with h | h
      · exact absurd h (by simp)
      · exact h
    subst hc
    refine ⟨h1, ?_⟩
    intro name
    rw [← h4 name]
    exact (unionGet_single _ name).symm
  | cons name rest ih =>
    intro st hty hinv
    cases hg : types.get name with
    | none =>
      have hg' : st.types.get name = none := by rw [hty]; exact hg
      simp only [foldWalk, hg']
      apply ih st hty
      intro k a hk
      obtain ⟨c, h1, h2, h3, h4⟩ := hinv k a hk
      refine ⟨c, h1, h2, ?_, h4⟩
      rcases h3 with h | h
      · rcases List.mem_cons.mp h with h | h
        · subst h
          rw [hg] at hk
          exact absurd hk (by simp)
        · exact Or.inl h
      · exact Or.inr h
    | some t =>
      have hg' : st.types.get name = some t := by rw [hty]; exact hg
      obtain ⟨ct, t1, t2, _, t4⟩ := hinv name t hg
      have hstep : ∃ st1, Fold fuel st repl t = some (st1, some t) ∧ st1.types = types ∧
          ∀ k a, types.get k = some a →
            ∃ c, chainFrom st1 repl a c ∧ c.length < fuel ∧ (k ∈ rest ∨ c = []) ∧
              ∀ nm, unionGet (propsOf st1 (a :: c)) nm = U a nm := by
        cases ct with
        | nil =>
          have hs : Settled st repl t := Or.inl t1
          have hF := Fold_of_settled st repl t (by rw [hty]; exact hempty) hs fuel (by omega)
          refine ⟨st, hF, hty, ?_⟩
          intro k a hk
          obtain ⟨c, h1, h2, h3, h4⟩ := hinv k a hk
          refine ⟨c, h1, h2, ?_, h4⟩
          rcases h3 with h | h
          · rcases List.mem_cons.mp h with h | h
            · subst h
              rw [hg] at hk
              have hat : t = a := Option.some.inj hk
              subst hat
              exact Or.inr (chainFrom_unique st repl c [] t h1 t1)
            · exact Or.inl h
          · exact Or.inr h
        | cons b1 rest1 =>
          have hacyc : t ∉ b1 :: rest1 := chainFrom_acyclic st repl t _ t1
          have t1' := t1
          simp only [chainFrom] at t1'
          obtain ⟨st1, hF, f1, f2, f3, f4⟩ :=
            Fold_chain_aux repl t rest1 b1 st t1'.2.1 t1'.2.2 hacyc fuel
              (by simp only [List.length_cons] at t2; omega)
          have hb : (st1.heap t).BaseType = [] := by rw [f3]
          refine ⟨st1, hF, f1.trans hty, ?_⟩
          intro k a hk
          obtain ⟨c, h1, h2, h3, h4⟩ := hinv k a hk
          obtain ⟨c', g1, g2, g3, g4⟩ :=
            fold_preserves_chain st st1 repl t (b1 :: rest1) f1 f2 hb t1 f4 c a h1
          refine ⟨c', g1, by omega, ?_, fun nm => (g4 nm).trans (h4 nm)⟩
          rcases h3 with h | h
          · rcases List.mem_cons.mp h with h | h
            · subst h
              rw [hg] at hk
              exact Or.inr (g3 (Option.some.inj hk).symm)
            · exact Or.inl h
          · subst h
            right
            exact List.eq_nil_of_length_eq_zero (by simpa using g2)
      obtain ⟨st1, hF, s1, s2⟩ := hstep
      simp only [foldWalk, hg', hF]
      have hset : ({ st1 with types := st1.types.set name t } : Store) = st1 :=
        Store.set_types_self st1 name t (by rw [s1]; exact hg)
      rw [hset]
      exact ih st1 s1 s2

theorem qualifiedName_ne_nil (r : Type_) : qualifiedName r ≠ [] := by
  unfold qualifiedName
  intro h
  have := congrArg List.length h
  simp [lit] at this

/-- C2, as amended: on a map keyed by `Namespace + "." + Name` whose every base chain is
resolvable and ends at an empty base type, and with an alias table that has no entry for the
empty name, the walk of `Parser.Fold` terminates, keeps the map as it was, and leaves every
type with an empty base type and with the derived-over-base union of the properties its
chain had before the walk.  The statement holds for every walk order that visits all keys,
in particular for `(sortedKeys st.keys).reverse`, so the order of folding does not matter. -/
theorem foldWalk_consolidates (repl : GoMap GoString) (fuel : Nat) (order : List GoString)
    (st : Store) (chains : Nat → List Nat)
    (hkeyed : ∀ k a, st.types.get k = some a → k = qualifiedName (st.heap a))
    (halias : repl.get [] = none)
    (hchains : ∀ k a, st.types.get k = some a → chainFrom st repl a (chains a))
    (hcover : Covers order st)
    (hfuel : ∀ k a, st.types.get k = some a → (chains a).length < fuel) :
    ∃ st', foldWalk fuel repl st order = some st' ∧ st'.types = st.types ∧
      ∀ k a, st.types.get k = some a →
        (st'.heap a).BaseType = [] ∧
        ∀ name, (st'.heap a).Properties.get name =
          unionGet (propsOf st (a :: chains a)) name := by
  have hempty : lookupBase st.types repl [] = none := by
    unfold lookupBase
    cases hg : st.types.get [] with
    | some a => exact absurd (hkeyed [] a hg).symm (qualifiedName_ne_nil _)
    | none => simp [halias]
  apply foldWalk_union_aux repl fuel st.types
    (fun a name => unionGet (propsOf st (a :: chains a)) name) hempty order st rfl
  intro k a hk
  exact ⟨chains a, hchains k a hk, hfuel k a hk, Or.inl (hcover k a hk), fun _ => rfl⟩

/-- Witness of C2 (amended): the walk `Parser.Fold` makes over `widgetStore` with an empty
alias table. -/
theorem foldWalk_consolidates_witness :
    ∃ st', ParserFold 3 [] widgetStore = some st' ∧ st'.types = widgetStore.types ∧
      ∀ k a, widgetStore.types.get k = some a →
        (st'.heap a).BaseType = [] ∧
        ∀ name, (st'.heap a).Properties.get name =
          unionGet (propsOf widgetStore (a :: widgetChains a)) name :=
  foldWalk_consolidates [] 3 (sortedKeys widgetStore.keys).reverse widgetStore widgetChains
    (GoMap.forall_get_of_forall_mem _ _ (by decide)) rfl
    (GoMap.forall_get_of_forall_mem _ _ (by decide)) (ParserFold_covers widgetStore)
    (GoMap.forall_get_of_forall_mem _ _ (by decide))

/-- C2 as stated fails for an alias table with an entry for the empty name: every chain of
`widgetStore` resolves inside the map and ends at an empty base type, yet the root
`Acme.Widget`, whose chain is empty and which declares no `Weight`, comes out of
`Parser.Fold` with the `Weight` of `Acme.Gadget`. -/
theorem ParserFold_alias_empty_name :
    (∀ p ∈ widgetStore.types, p.1 = qualifiedName (widgetStore.heap p.2)) ∧
    (∀ p ∈ widgetStore.types, chainFrom widgetStore emptyNameAlias p.2 (widgetChains p.2)) ∧
    (∀ p ∈ widgetStore.types, (widgetStore.heap p.2).BaseType = [] ∨
      (widgetStore.types.get (widgetStore.heap p.2).BaseType).isSome = true) ∧
    unionGet (propsOf widgetStore (2 :: widgetChains 2)) (lit "Weight") = none ∧
    ∃ st', ParserFold 3 emptyNameAlias widgetStore = some st' ∧
      st'.types.get (lit "Acme.Widget") = some 2 ∧
      (st'.heap 2).Properties.get (lit "Weight") = some (strProp true) :=
  ⟨by decide, by decide, by decide, by decide, _, rfl, by decide, by decide⟩

/-! ## Unparseable version segments -/

theorem splitVersion_segments_aux (s1 s2 s3 : GoString) (h1 : (95 : Nat) ∉ s1)
    (h2 : (95 : Nat) ∉ s2) :
    splitVersion (118 :: (s1 ++ 95 :: (s2 ++ 95 :: s3))) =
      match Atoi s1 with
      | none => (0, 0, 0)
      | some major =>
        match Atoi s2 with
        | none => (major, 0, 0)
        | some minor =>
          match Atoi s3 with
          | none => (major, minor, 0)
          | some rev => (major, minor, rev) := by
  simp [splitVersion, stringsTrimPrefix, stringsIndex_append _ _ _ h1,
    stringsIndex_append _ _ _ h2]

/-- C11, as amended: for a version `v<s1>_<s2>_<s3>` the major result is the value of `s1`
when it is a number and 0 when it is not; the minor result is the value of `s2` when `s1`
is a number, and 0 otherwise; the revision result is the value of `s3` when `s1` and `s2`
are numbers, and 0 otherwise. -/
theorem splitVersion_segments (s1 s2 s3 : GoString) (h1 : (95 : Nat) ∉ s1)
    (h2 : (95 : Nat) ∉ s2) :
    splitVersion (118 :: (s1 ++ 95 :: (s2 ++ 95 :: s3))) =
      (segmentValue s1,
       if (Atoi s1).isSome then segmentValue s2 else 0,
       if (Atoi s1).isSome ∧ (Atoi s2).isSome then segmentValue s3 else 0) := by
  rw [splitVersion_segments_aux s1 s2 s3 h1 h2]
  unfold segmentValue
  cases Atoi s1 with
  | none => simp
  | some major =>
    cases Atoi s2 with
    | none => simp
    | some minor =>
      cases Atoi s3 with
      | none => simp
      | some rev => simp

/-- Witness of C11 (amended) at `v1_x_3`: the bad minor also zeroes the revision. -/
theorem splitVersion_segments_witness :
    splitVersion (lit "v1_x_3") =
      (segmentValue (lit "1"),
       if (Atoi (lit "1")).isSome then segmentValue (lit "x") else 0,
       if (Atoi (lit "1")).isSome ∧ (Atoi (lit "x")).isSome then segmentValue (lit "3")
       else 0) :=
  splitVersion_segments (lit "1") (lit "x") (lit "3") (by decide) (by decide)

/-- C11 as stated fails at `vx_2_3`: the major is not a number, and `splitVersion` returns
`(0, 0, 0)` although the minor `2` and the revision `3` are numbers. -/
theorem splitVersion_stops_at_bad_major :
    splitVersion (lit "vx_2_3") = (0, 0, 0) ∧
    Atoi (lit "x") = none ∧ segmentValue (lit "2") = 2 ∧ segmentValue (lit "3") = 3 := by
  decide

/-! ## The dead-end policy -/

theorem deadFrom_congr (st st' : Store) (repl : GoMap GoString) (ht : st'.types = st.types) :
    ∀ (c : List Nat) (name : GoString), (∀ x ∈ c, st'.heap x = st.heap x) →
      deadFrom st repl name c → deadFrom st' repl name c := by
  intro c
  induction c with
  | nil =>
    intro name _ h
    simp only [deadFrom] at h ⊢
    rw [ht]
    exact h
  | cons b rest ih =>
    intro name hx h
    simp only [deadFrom] at h ⊢
    rw [ht, hx b (List.mem_cons_self b rest)]
    exact ⟨h.1, h.2.1, ih _ (fun x hmem => hx x (List.mem_cons_of_mem b hmem)) h.2.2⟩

theorem deadFrom_name_ne_nil (st : Store) (repl : GoMap GoString) (name : GoString)
    (c : List Nat) (h : deadFrom st repl name c) : name ≠ [] := by
  cases c with
  | nil => exact h.1
  | cons b rest => exact h.1

theorem deadFrom_unique (st : Store) (repl : GoMap GoString) :
    ∀ (c c' : List Nat) (name : GoString),
      deadFrom st repl name c → deadFrom st repl name c' → c = c' := by
  intro c
  induction c with
  | nil =>
    intro c' name h h'
    cases c' with
    | nil => rfl
    | cons b rest =>
      simp only [deadFrom] at h h'
      rw [h.2.2.2] at h'
      exact absurd h'.2.1 (by simp)
  | cons b rest ih =>
    intro c' name h h'
    cases c' with
    | nil =>
      simp only [deadFrom] at h h'
      rw [h'.2.2.2] at h
      exact absurd h.2.1 (by simp)
    | cons b' rest' =>
      simp only [deadFrom] at h h'
      have hb : b = b' := Option.some.inj (h.2.1.symm.trans h'.2.1)
      subst hb
      rw [ih rest' _ h.2.2 h'.2.2]

theorem deadFrom_suffix (st : Store) (repl : GoMap GoString) :
    ∀ (pre : List Nat) (name : GoString) (x : Nat) (post : List Nat),
      deadFrom st repl name (pre ++ x :: post) → deadFrom st repl (st.heap x).BaseType post := by
  intro pre
  induction pre with
  | nil =>
    intro name x post h
    simp only [List.nil_append, deadFrom] at h
    exact h.2.2
  | cons p pre ih =>
    intro name x post h
    simp only [List.cons_append, deadFrom] at h
    exact ih _ x post h.2.2

theorem deadFrom_acyclic (st : Store) (repl : GoMap GoString) (t : Nat) (c : List Nat)
    (h : deadFrom st repl (st.heap t).BaseType c) : t ∉ c := by
  intro hmem
  obtain ⟨pre, post, hc⟩ := List.append_of_mem hmem
  subst hc
  have h2 := deadFrom_suffix st repl pre _ t post h
  have h3 := deadFrom_unique st repl _ _ _ h h2
  have := congrArg List.length h3
  simp at this
  omega

theorem Fold_dead_aux (repl : GoMap GoString) (t : Nat) :
    ∀ (c : List Nat) (st : Store), deadFrom st repl (st.heap t).BaseType c → t ∉ c →
      ∀ fuel, c.length + 1 ≤ fuel → ∃ st', Fold fuel st repl t = some (st', none) := by
  intro c
  induction c with
  | nil =>
    intro st hc _ fuel hf
    obtain ⟨f, rfl⟩ : ∃ f, fuel = f + 1 := ⟨fuel - 1, by omega⟩
    simp only [deadFrom] at hc
    obtain ⟨h1, h2, h3, h4⟩ := hc
    simp only [Fold, h4]
    unfold handleUnknownType
    simp only [if_neg h1, if_neg h2, if_neg h3]
    exact ⟨_, rfl⟩
  | cons b rest ih =>
    intro st hc ht fuel hf
    obtain ⟨f, rfl⟩ : ∃ f, fuel = f + 1 := ⟨fuel - 1, by omega⟩
    simp only [deadFrom] at hc
    obtain ⟨_, h2, h3⟩ := hc
    have hne : (st.heap b).BaseType ≠ [] := deadFrom_name_ne_nil st repl _ rest h3
    have ht2 : t ∉ rest := fun h => ht (List.mem_cons_of_mem b h)
    generalize hst1 : st.write t
      { st.heap t with
        Properties := mergeProperties (st.heap t).Properties (st.heap b).Properties,
        BaseType := (st.heap b).BaseType } = st1
    have hagree : ∀ x ∈ rest, st1.heap x = st.heap x := by
      intro x hx
      rw [← hst1]
      apply Store.write_heap_ne
      intro h
      exact ht2 (h ▸ hx)
    have hb1 : (st1.heap t).BaseType = (st.heap b).BaseType := by
      rw [← hst1, Store.write_heap_self]
    have hty : st1.types = st.types := by
      rw [← hst1]
      rfl
    have hc1 : deadFrom st1 repl (st1.heap t).BaseType rest := by
      rw [hb1]
      exact deadFrom_congr st st1 repl hty rest _ hagree h3
    obtain ⟨st2, hF⟩ := ih st1 hc1 ht2 f (by simp only [List.length_cons] at hf; omega)
    simp only [Fold, h2, hne, ne_eq, not_false_eq_true, if_true, hst1, hF]
    exact ⟨_, rfl⟩

/-- C12: when the base chain of the receiver reaches a name that is non-empty, is neither
legacy name and resolves to nothing (directly or through the alias table), `Fold` returns
nil, the key `Namespace + "." + Name` of the receiver is no longer in the type map, every
entry under another key is as before, and no other record is touched. -/
theorem Fold_dead_end (st : Store) (repl : GoMap GoString) (t : Nat) (c : List Nat)
    (fuel : Nat)
    (hchain : deadFrom st repl (st.heap t).BaseType c)
    (hfuel : c.length + 1 ≤ fuel) :
    ∃ st', Fold fuel st repl t = some (st', none) ∧
      st'.types.get (qualifiedName (st.heap t)) = none ∧
      (∀ k, k ≠ qualifiedName (st.heap t) → st'.types.get k = st.types.get k) ∧
      (∀ a, a ≠ t → st'.heap a = st.heap a) := by
  obtain ⟨st', hF⟩ :=
    Fold_dead_aux repl t c st hchain (deadFrom_acyclic st repl t c hchain) fuel hfuel
  obtain ⟨h1, _, h3⟩ := Fold_spec repl t fuel st st' none hF
  rcases h3 with ⟨h4, _⟩ | ⟨_, h4⟩
  · exact absurd h4 (by simp)
  · refine ⟨st', hF, ?_, ?_, h1⟩
    · rw [h4]
      exact GoMap.get_delete_self _ _
    · intro k hk
      rw [h4]
      exact GoMap.get_delete_ne _ _ _ hk

/-- Witness of C12: `Acme.v1_1_0.Sensor` in `sensorStore` dead-ends at `Vendor.Missing`. -/
theorem Fold_dead_end_witness :
    ∃ st', Fold 2 sensorStore [] 0 = some (st', none) ∧
      st'.types.get (qualifiedName (sensorStore.heap 0)) = none ∧
      (∀ k, k ≠ qualifiedName (sensorStore.heap 0) →
        st'.types.get k = sensorStore.types.get k) ∧
      (∀ a, a ≠ 0 → st'.heap a = sensorStore.heap a) :=
  Fold_dead_end sensorStore [] 0 [1] 2 (by decide) (by decide)

/-! ## The legacy root -/

/-- C13, as amended: a type that declares nothing itself and whose base is the legacy root,
a name that resolves to nothing, is kept by `Fold` and gets exactly the four properties
`ID` (JSON name `@odata.id`), `Type` (JSON name `@odata.type`), `Name` and `Description`,
of which only `Description` is nullable. -/
theorem Fold_legacyRoot (st : Store) (repl : GoMap GoString) (t fuel : Nat)
    (hbase : (st.heap t).BaseType = legacyRoot)
    (hprops : (st.heap t).Properties = [])
    (habsent : lookupBase st.types repl legacyRoot = none)
    (hfuel : 1 ≤ fuel) :
    Fold fuel st repl t =
      some (st.write t { st.heap t with Properties := legacyRootSynthesized }, some t) := by
  obtain ⟨f, rfl⟩ : ∃ f, fuel = f + 1 := ⟨fuel - 1, by omega⟩
  have hl : lookupBase st.types repl (st.heap t).BaseType = none := by
    rw [hbase]
    exact habsent
  simp only [Fold, hl]
  unfold handleUnknownType
  simp only [if_pos hbase, hprops]
  rfl

/-- Witness of C13 (amended): `Acme.Chassis` in `bareLegacyStore`. -/
theorem Fold_legacyRoot_witness :
    Fold 1 bareLegacyStore [] 0 =
      some (bareLegacyStore.write 0
        { bareLegacyStore.heap 0 with Properties := legacyRootSynthesized }, some 0) :=
  Fold_legacyRoot bareLegacyStore [] 0 1 (by decide) (by decide) (by decide) (by decide)

/-- C13 as stated fails on `Name`: the synthesized `Name` is not nullable. -/
theorem Fold_legacyRoot_Name_not_nullable :
    ∃ st', Fold 1 bareLegacyStore [] 0 = some (st', some 0) ∧
      ((st'.heap 0).Properties.get (lit "Name")).map PropType.CanBeNull = some false ∧
      ((st'.heap 0).Properties.get (lit "Description")).map PropType.CanBeNull = some true :=
  ⟨_, rfl, by decide, by decide⟩

/-! ## The alias table on folded records -/

/-- C14 at `widgetStore` with one alias: after `Parser.Fold` the two derived widgets carry
the alias table, while the root `Acme.Widget` and `Acme.Gadget`, which returned through the
dead-end policy, are still in the map with no alias table. -/
theorem ParserFold_root_without_alias :
    ∃ st', ParserFold 3 lengthAlias widgetStore = some st' ∧
      st'.types = widgetStore.types ∧
      (st'.heap 0).Replacements = lengthAlias ∧ (st'.heap 1).Replacements = lengthAlias ∧
      (st'.heap 2).Replacements = [] ∧ (st'.heap 3).Replacements = [] ∧
      lengthAlias ≠ [] :=
  ⟨_, rfl, by decide, by decide, by decide, by decide, by decide, by decide⟩

/-! ## The builders -/

theorem GoMap.get_setAll_not_mem {V : Type} (kvs : List (GoString × V)) :
    ∀ (m : GoMap V) (k : GoString), k ∉ kvs.map Prod.fst → (m.setAll kvs).get k = m.get k := by
  induction kvs with
  | nil =>
    intro m k _
    rfl
  | cons p rest ih =>
    intro m k hk
    simp only [List.map, List.mem_cons, not_or] at hk
    have := ih (m.set p.1 p.2) k hk.2
    simp only [GoMap.setAll, List.foldl] at this ⊢
    rw [this]
    exact GoMap.get_set_ne _ _ _ _ hk.1

theorem GoMap.get_setAll_mem {V : Type} (kvs : List (GoString × V)) :
    ∀ (m : GoMap V) (k : GoString) (v : V), (kvs.map Prod.fst).Nodup → (k, v) ∈ kvs →
      (m.setAll kvs).get k = some v := by
  induction kvs with
  | nil =>
    intro m k v _ h
    exact absurd h (by simp)
  | cons p rest ih =>
    intro m k v hnd hmem
    simp only [List.map, List.nodup_cons] at hnd
    rcases List.mem_cons.mp hmem with h | h
    · subst h
      have := GoMap.get_setAll_not_mem rest (m.set k v) k hnd.1
      simp only [GoMap.setAll, List.foldl] at this ⊢
      rw [this]
      exact GoMap.get_set_self _ _ _
    · have := ih (m.set p.1 p.2) k v hnd.2 h
      simp only [GoMap.setAll, List.foldl] at this ⊢
      exact this

theorem GoMap.setAll_append {V : Type} (m : GoMap V) (xs ys : List (GoString × V)) :
    m.setAll (xs ++ ys) = (m.setAll xs).setAll ys := by
  simp [GoMap.setAll, List.foldl_append]

theorem canBeNullOf_eq_declared (nullable : Option Bool) :
    canBeNullOf nullable = declaredNullable nullable := by
  cases nullable with
  | none => rfl
  | some b => cases b <;> rfl

theorem addProperties_eq (m : GoMap PropType) (ps : List Property) :
    addProperties m ps = m.setAll (ps.map (fun p => (p.Name, propertyEntry p))) := by
  unfold addProperties GoMap.setAll
  rw [List.foldl_map]
  simp only [propertyEntry, canBeNullOf_eq_declared]

theorem addNavigationProperties_eq (m : GoMap PropType) (ns : List NavigationProperty) :
    addNavigationProperties m ns = m.setAll (ns.map (fun n => (n.Name, navigationEntry n))) := by
  unfold addNavigationProperties GoMap.setAll
  rw [List.foldl_map]
  simp only [navigationEntry, canBeNullOf_eq_declared]

theorem builtFrom_of_nodup (r : Type_) (props : List Property) (navs : List NavigationProperty)
    (hr : r.Properties = addNavigationProperties (addProperties [] props) navs)
    (hnd : (props.map Property.Name ++ navs.map NavigationProperty.Name).Nodup) :
    BuiltFrom r props navs := by
  have hp : r.Properties = GoMap.setAll []
      (props.map (fun p => (p.Name, propertyEntry p)) ++
        navs.map (fun n => (n.Name, navigationEntry n))) := by
    rw [hr, addProperties_eq, addNavigationProperties_eq, GoMap.setAll_append]
  have hkeys : (props.map (fun p => (p.Name, propertyEntry p)) ++
        navs.map (fun n => (n.Name, navigationEntry n))).map Prod.fst =
      props.map Property.Name ++ navs.map NavigationProperty.Name := by
    rw [List.map_append, List.map_map, List.map_map]
    rfl
  refine ⟨?_, ?_, ?_⟩
  · intro p hpm
    rw [hp]
    apply GoMap.get_setAll_mem _ _ _ _ (by rw [hkeys]; exact hnd)
    exact List.mem_append_left _ (List.mem_map.mpr ⟨p, hpm, rfl⟩)
  · intro n hnm
    rw [hp]
    apply GoMap.get_setAll_mem _ _ _ _ (by rw [hkeys]; exact hnd)
    exact List.mem_append_right _ (List.mem_map.mpr ⟨n, hnm, rfl⟩)
  · intro name hsome
    by_contra hcon
    have hnot : name ∉ (props.map (fun p => (p.Name, propertyEntry p)) ++
        navs.map (fun n => (n.Name, navigationEntry n))).map Prod.fst := by
      rw [hkeys]
      intro h
      exact hcon (List.mem_append.mp h)
    rw [hp, GoMap.get_setAll_not_mem _ _ _ hnot] at hsome
    simp [GoMap.get] at hsome

/-- C15: for a declaration whose property and navigation-property names are pairwise
distinct, both builders produce exactly the declared names; a declared property has
`Navigation = false`, a declared navigation property `Navigation = true`, `Type` is the
declared reference, `CanBeNull` is the declared `Nullable` or `true` when it is absent
(`declaredNullable`, stated apart from the builders);
`ComplexType` is `false` for an entity and `true` for a complex type, and `BaseType` is
copied. -/
theorem builders_property_flags (name base ns : GoString) (props : List Property)
    (navs : List NavigationProperty) (anns : List Annotation)
    (hdistinct : (props.map Property.Name ++ navs.map NavigationProperty.Name).Nodup) :
    BuiltFrom (NewTypeFromEntityType ⟨name, base, props, navs⟩ ns) props navs ∧
    (NewTypeFromEntityType ⟨name, base, props, navs⟩ ns).ComplexType = false ∧
    (NewTypeFromEntityType ⟨name, base, props, navs⟩ ns).BaseType = base ∧
    BuiltFrom (NewTypeFromComplexType ⟨name, base, props, navs, anns⟩ ns) props navs ∧
    (NewTypeFromComplexType ⟨name, base, props, navs, anns⟩ ns).ComplexType = true ∧
    (NewTypeFromComplexType ⟨name, base, props, navs, anns⟩ ns).BaseType = base :=
  ⟨builtFrom_of_nodup _ props navs rfl hdistinct, rfl, rfl,
    builtFrom_of_nodup _ props navs rfl hdistinct, rfl, rfl⟩

/-- Witness of C15: the `Chassis` declaration, as an entity and as a complex type.  Its
entries are also written out: `SerialNumber` declares no `Nullable` and can be null,
`HeightMm` declares `Nullable="false"` and cannot, `Thermal` is a navigation property. -/
theorem builders_property_flags_witness :
    (chassisDecl.Property.map Property.Name ++
      chassisDecl.NavigationProperty.map NavigationProperty.Name).Nodup ∧
    (BuiltFrom (NewTypeFromEntityType chassisDecl (lit "Chassis.v1_0_0"))
      chassisDecl.Property chassisDecl.NavigationProperty ∧
    (NewTypeFromEntityType chassisDecl (lit "Chassis.v1_0_0")).ComplexType = false ∧
    (NewTypeFromEntityType chassisDecl (lit "Chassis.v1_0_0")).BaseType =
      lit "Resource.v1_0_0.Resource" ∧
    BuiltFrom (NewTypeFromComplexType chassisComplexDecl (lit "Chassis.v1_0_0"))
      chassisDecl.Property chassisDecl.NavigationProperty ∧
    (NewTypeFromComplexType chassisComplexDecl (lit "Chassis.v1_0_0")).ComplexType = true ∧
    (NewTypeFromComplexType chassisComplexDecl (lit "Chassis.v1_0_0")).BaseType =
      lit "Resource.v1_0_0.Resource") ∧
    (NewTypeFromEntityType chassisDecl (lit "Chassis.v1_0_0")).Properties =
      [(lit "SerialNumber", (⟨false, lit "Edm.String", true, []⟩ : PropType)),
        (lit "HeightMm", (⟨false, lit "Edm.Decimal", false, []⟩ : PropType)),
        (lit "Thermal", (⟨true, lit "Thermal.Thermal", true, []⟩ : PropType))] ∧
    (NewTypeFromComplexType chassisComplexDecl (lit "Chassis.v1_0_0")).Properties =
      (NewTypeFromEntityType chassisDecl (lit "Chassis.v1_0_0")).Properties :=
  ⟨by decide,
    builders_property_flags (lit "Chassis") (lit "Resource.v1_0_0.Resource")
      (lit "Chassis.v1_0_0") chassisDecl.Property chassisDecl.NavigationProperty []
      (by decide),
    by decide, by decide⟩

theorem GoMap.len_eq_zero {V : Type} (m : GoMap V) : GoMap.len m = 0 ↔ m = [] := by
  constructor
  · intro h
    induction m with
    | nil => rfl
    | cons p rest ih =>
      obtain ⟨k, v⟩ := p
      simp only [GoMap.len] at h
      by_cases hs : (GoMap.get rest k).isSome = true
      · rw [if_pos hs] at h
        rw [ih h] at hs
        simp [GoMap.get] at hs
      · rw [if_neg hs] at h
        omega
  · intro h
    subst h
    rfl

theorem GoMap.set_ne_nil {V : Type} (m : GoMap V) (k : GoString) (v : V) : m.set k v ≠ [] := by
  cases m with
  | nil => simp [GoMap.set]
  | cons p rest =>
    obtain ⟨k', v'⟩ := p
    simp only [GoMap.set]
    split <;> simp

theorem GoMap.setAll_ne_nil {V : Type} (kvs : List (GoString × V)) :
    ∀ (m : GoMap V), m ≠ [] → m.setAll kvs ≠ [] := by
  induction kvs with
  | nil =>
    intro m h
    exact h
  | cons p rest ih =>
    intro m _
    exact ih (m.set p.1 p.2) (GoMap.set_ne_nil _ _ _)

theorem GoMap.setAll_eq_nil {V : Type} (kvs : List (GoString × V)) :
    GoMap.setAll ([] : GoMap V) kvs = [] ↔ kvs = [] := by
  cases kvs with
  | nil => simp [GoMap.setAll]
  | cons p rest =>
    simp only [reduceCtorEq, iff_false]
    exact GoMap.setAll_ne_nil rest _ (GoMap.set_ne_nil _ _ _)

theorem builder_properties_eq_nil (props : List Property) (navs : List NavigationProperty) :
    addNavigationProperties (addProperties [] props) navs = [] ↔ props = [] ∧ navs = [] := by
  rw [addProperties_eq, addNavigationProperties_eq, ← GoMap.setAll_append,
    GoMap.setAll_eq_nil]
  simp

theorem wildcardScan_iff (anns : List Annotation) :
    wildcardScan anns = true ↔ ∃ a ∈ anns, MarksWildcard a := by
  induction anns with
  | nil => simp [wildcardScan]
  | cons a rest ih =>
    simp only [wildcardScan, List.mem_cons, exists_eq_or_imp, MarksWildcard]
    by_cases h1 : a.Term = lit "Redfish.DynamicPropertyPatterns"
    · simp [h1]
    · by_cases h2 : a.Term = lit "OData.AdditionalProperties" ∧ a.Bool_ = true
      · simp [h1, h2]
      · rw [if_neg h1, if_neg h2, ih]
        constructor
        · intro h
          exact Or.inr h
        · intro h
          rcases h with h | h
          · rcases h with h | h
            · exact absurd h h1
            · exact absurd h h2
          · exact h

/-- C16: `NewTypeFromComplexType` marks the type as wildcard exactly when the declaration
has no property and no navigation property and one of its annotations has the term
`Redfish.DynamicPropertyPatterns`, or the term `OData.AdditionalProperties` with `Bool`
true.  So a declaration with a property is never wildcard, and neither is one whose only
annotation is `OData.AdditionalProperties` with `Bool` false. -/
theorem wildcard_iff (c : ComplexType) (ns : GoString) :
    ((NewTypeFromComplexType c ns).Wildcard = true ↔
      (c.Property = [] ∧ c.NavigationProperty = [] ∧ ∃ a ∈ c.Annotation, MarksWildcard a)) ∧
    (c.Property ≠ [] → (NewTypeFromComplexType c ns).Wildcard = false) ∧
    (c.Annotation = [⟨lit "OData.AdditionalProperties", false⟩] →
      (NewTypeFromComplexType c ns).Wildcard = false) := by
  have key : (NewTypeFromComplexType c ns).Wildcard = true ↔
      (c.Property = [] ∧ c.NavigationProperty = [] ∧ ∃ a ∈ c.Annotation, MarksWildcard a) := by
    unfold NewTypeFromComplexType
    simp only [GoMap.len_eq_zero, builder_properties_eq_nil]
    by_cases h : c.Property = [] ∧ c.NavigationProperty = []
    · rw [if_pos h, wildcardScan_iff]
      constructor
      · intro hw
        exact ⟨h.1, h.2, hw⟩
      · intro hw
        exact hw.2.2
    · rw [if_neg h]
      constructor
      · intro hw
        exact absurd hw (by simp)
      · intro hw
        exact absurd ⟨hw.1, hw.2.1⟩ h
  refine ⟨key, ?_, ?_⟩
  · intro hp
    cases hw : (NewTypeFromComplexType c ns).Wildcard with
    | false => rfl
    | true => exact absurd (key.mp hw).1 hp
  · intro ha
    cases hw : (NewTypeFromComplexType c ns).Wildcard with
    | false => rfl
    | true =>
      obtain ⟨_, _, a, hmem, hm⟩ := key.mp hw
      rw [ha] at hmem
      simp only [List.mem_singleton] at hmem
      subst hmem
      rcases hm with h | h
      · exact absurd h (by decide)
      · exact absurd h.2 (by decide)

/-- Witness of C16: a complex declaration without members and with the dynamic-property
annotation is a wildcard. -/
theorem wildcard_iff_witness :
    (NewTypeFromComplexType
      ⟨lit "Attributes", [], [], [], [⟨lit "Redfish.DynamicPropertyPatterns", false⟩]⟩
      (lit "Bios.v1_0_0")).Wildcard = true :=
  (wildcard_iff _ _).1.mpr ⟨rfl, rfl, _, List.mem_singleton.mpr rfl, Or.inl rfl⟩

/-! ## Resolving a property type -/

theorem stringsHasPrefix_append (c y : GoString) : stringsHasPrefix (c ++ y) c = true := by
  unfold stringsHasPrefix
  rw [List.isPrefixOf_iff_prefix]
  exact List.prefix_append c y

theorem trimPrefix_append (c y : GoString) : trimPrefix (c ++ y) c = y := by
  unfold trimPrefix
  rw [stringsHasPrefix_append]
  simp

theorem trimSuffix_append (x s : GoString) : trimSuffix (x ++ s) s = x := by
  unfold trimSuffix stringsHasSuffix
  have h : s.isSuffixOf (x ++ s) = true := by
    rw [List.isSuffixOf_iff_suffix]
    exact List.suffix_append x s
  rw [h]
  simp

theorem strippedTypeName_collectionOf (x : GoString) (nullable : Bool) :
    isCollection (plainProp (collectionOf x) nullable) = true ∧
    strippedTypeName (plainProp (collectionOf x) nullable) = x := by
  have h1 : isCollection (plainProp (collectionOf x) nullable) = true := by
    unfold isCollection plainProp collectionOf
    simp only [List.append_assoc]
    exact stringsHasPrefix_append _ _
  refine ⟨h1, ?_⟩
  unfold strippedTypeName
  rw [if_pos h1]
  unfold plainProp collectionOf
  simp only [List.append_assoc]
  rw [trimPrefix_append, trimSuffix_append]

/-- C17, as amended: when `X` is not itself a `Collection(...)`, does not end in
`OemActions` and is not one of the cases of `Node` that return a fixed name, the property
declared as `Collection(X)` resolves to `[]` followed by what the non-nullable property
declared as `X` resolves to. -/
theorem Node_collection (st : Store) (x : GoString) (nullable : Bool)
    (hplain : stringsHasPrefix x (lit "Collection(") = false)
    (hoem : stringsHasSuffix x (lit "OemActions") = false)
    (hfixed : (primitiveTable.get x).map Prod.fst ≠ some false) :
    Node st (plainProp (collectionOf x) nullable) = lit "[]" ++ Node st (plainProp x false) := by
  obtain ⟨c1, c2⟩ := strippedTypeName_collectionOf x nullable
  have w1 : wrapperOf (plainProp (collectionOf x) nullable) = lit "[]" := by
    unfold wrapperOf
    rw [if_pos c1]
  have d1 : isCollection (plainProp x false) = false := hplain
  have w2 : wrapperOf (plainProp x false) = [] := by
    unfold wrapperOf
    rw [d1]
    rfl
  have t2 : strippedTypeName (plainProp x false) = x := by
    unfold strippedTypeName
    rw [d1]
    rfl
  have n1 : (plainProp (collectionOf x) nullable).Navigation = false := rfl
  have n2 : (plainProp x false).Navigation = false := rfl
  unfold Node
  simp only [n1, n2, Bool.false_eq_true, if_false, c2, t2, w1, w2, hoem, List.nil_append]
  cases hp : primitiveTable.get x with
  | some q =>
    obtain ⟨b, ident⟩ := q
    cases b with
    | true => rfl
    | false =>
      rw [hp] at hfixed
      exact absurd rfl hfixed
  | none =>
    cases doTypeSearch x st.types with
    | none => rfl
    | some typeData => rfl

/-- Witness of C17 (amended): `Collection(Vendor.v1_0_0.Widget)` in `catalogStore`. -/
theorem Node_collection_witness :
    Node catalogStore (plainProp (lit "Collection(Vendor.v1_0_0.Widget)") true) =
      lit "[]" ++ Node catalogStore (plainProp (lit "Vendor.v1_0_0.Widget") false) :=
  Node_collection catalogStore (lit "Vendor.v1_0_0.Widget") true (by decide) (by decide)
    (by decide)

/-- C17 as stated fails for the shared status shape: `Collection(Resource.Status)` resolves
to `Resource_Status`, the same name as the plain reference, without `[]`.  It also fails
when `X` is itself a collection: `Collection(Collection(Edm.String))` resolves to `[]any`,
while `Collection(Edm.String)` resolves to `[]string`. -/
theorem Node_collection_of_status :
    Node catalogStore (plainProp (collectionOf (lit "Resource.Status")) false) =
      lit "Resource_Status" ∧
    Node catalogStore (plainProp (lit "Resource.Status") false) = lit "Resource_Status" ∧
    lit "Resource_Status" ≠ lit "[]" ++ lit "Resource_Status" ∧
    Node catalogStore (plainProp (collectionOf (lit "Collection(Edm.String)")) false) =
      lit "[]any" ∧
    Node catalogStore (plainProp (lit "Collection(Edm.String)") false) = lit "[]string" := by
  decide

/-! ## The fallback search -/

theorem GoMap.get_of_first {V : Type} (m : GoMap V) (k : GoString) (v : V) :
    GoMap.get ((k, v) :: m) k = some v := by
  simp [GoMap.get]

theorem GoMap.exists_get_of_mem {V : Type} (m : GoMap V) (e : GoString × V) (h : e ∈ m) :
    ∃ v, m.get e.1 = some v := by
  induction m with
  | nil => exact absurd h (by simp)
  | cons q rest ih =>
    obtain ⟨k, v⟩ := q
    by_cases hk : k = e.1
    · exact ⟨v, by simp [GoMap.get, hk]⟩
    · rcases List.mem_cons.mp h with h | h
      · subst h
        exact absurd rfl hk
      · obtain ⟨v', hv⟩ := ih h
        exact ⟨v', by simp [GoMap.get, hk, hv]⟩

theorem searchLoop_of_unique (wanted : GoString × GoString) (key : GoString) (T : Nat)
    (hk : searchKey key = wanted) :
    ∀ (m : GoMap Nat), m.get key = some T →
      (∀ e ∈ m, searchKey e.1 = wanted → e.1 = key) → searchLoop m wanted = some T := by
  intro m
  induction m with
  | nil =>
    intro hget _
    simp [GoMap.get] at hget
  | cons q rest ih =>
    obtain ⟨k0, a0⟩ := q
    intro hget hu
    by_cases h0 : searchKey k0 = wanted
    · have hk0 : k0 = key := hu (k0, a0) (List.mem_cons_self _ _) h0
      subst hk0
      rw [GoMap.get_of_first] at hget
      simp only [searchLoop, h0, if_true]
      exact hget
    · have hne : k0 ≠ key := by
        intro h
        subst h
        exact h0 hk
      simp only [GoMap.get, hne, if_false] at hget
      simp only [searchLoop, h0, if_false]
      exact ih hget (fun e he => hu e (List.mem_cons_of_mem _ he))

theorem searchLoop_none (wanted : GoString × GoString) :
    ∀ (m : GoMap Nat), (∀ e ∈ m, searchKey e.1 ≠ wanted) → searchLoop m wanted = none := by
  intro m
  induction m with
  | nil =>
    intro _
    rfl
  | cons q rest ih =>
    obtain ⟨k0, a0⟩ := q
    intro h
    have h0 : searchKey k0 ≠ wanted := h (k0, a0) (List.mem_cons_self _ _)
    simp only [searchLoop, h0, if_false]
    exact ih (fun e he => h e (List.mem_cons_of_mem _ he))

theorem searchKey_qualified3 (V ver N : GoString) (hV : (46 : Nat) ∉ V)
    (hver : (46 : Nat) ∉ ver) (hN : N ≠ []) : searchKey (qualified3 V ver N) = (V, N) := by
  unfold searchKey
  rw [splitNamespace_qualified3 V ver N hV hver]
  simp [hN]

theorem searchKey_two (V N : GoString) (hV : (46 : Nat) ∉ V) (hN : (46 : Nat) ∉ N) :
    searchKey (V ++ 46 :: N) = (V, N) := by
  unfold searchKey
  simp [splitNamespace, stringsIndex_append _ _ _ hV, stringsIndex_none _ _ hN]

theorem doTypeSearch_of_unique (types : GoMap Nat) (query key : GoString) (T : Nat)
    (hq : searchKey query = searchKey key) (hget : types.get key = some T)
    (hu : ∀ e ∈ types, searchKey e.1 = searchKey key → e.1 = key) :
    doTypeSearch query types = some T := by
  unfold doTypeSearch
  cases hg : types.get query with
  | some a =>
    have hmem := GoMap.mem_of_get _ _ _ hg
    have hqk : query = key := hu (query, a) hmem hq
    rw [hqk, hget] at hg
    simp only
    exact hg.symm
  | none =>
    simp only
    rw [hq]
    exact searchLoop_of_unique _ key T rfl types hget hu

/-- C18, as amended: for a non-empty type name `N`, when the map holds `V.w.N` and no other
key with vendor `V` and bare name `N`, the searches for `V.v.N`, for `V.w.N` and for the
unversioned `V.N` all succeed and return the record stored under `V.w.N`. -/
theorem doTypeSearch_version_insensitive (st : Store) (V N v w : GoString) (T : Nat)
    (hV : (46 : Nat) ∉ V) (hN : (46 : Nat) ∉ N) (hNne : N ≠ [])
    (hv : (46 : Nat) ∉ v) (hw : (46 : Nat) ∉ w)
    (hkey : st.types.get (qualified3 V w N) = some T)
    (honly : ∀ e ∈ st.types, searchKey e.1 = (V, N) → e.1 = qualified3 V w N) :
    doTypeSearch (qualified3 V v N) st.types = some T ∧
    doTypeSearch (qualified3 V w N) st.types = some T ∧
    doTypeSearch (V ++ 46 :: N) st.types = some T := by
  have kw : searchKey (qualified3 V w N) = (V, N) := searchKey_qualified3 V w N hV hw hNne
  have kv : searchKey (qualified3 V v N) = (V, N) := searchKey_qualified3 V v N hV hv hNne
  have k2 : searchKey (V ++ 46 :: N) = (V, N) := searchKey_two V N hV hN
  have hu : ∀ e ∈ st.types, searchKey e.1 = searchKey (qualified3 V w N) →
      e.1 = qualified3 V w N := by
    intro e he h
    exact honly e he (h.trans kw)
  exact ⟨doTypeSearch_of_unique _ _ _ T (kv.trans kw.symm) hkey hu,
    doTypeSearch_of_unique _ _ _ T rfl hkey hu,
    doTypeSearch_of_unique _ _ _ T (k2.trans kw.symm) hkey hu⟩

/-- Witness of C18 (amended): `Vendor.v1_0_0.Widget`, `Vendor.v2_3_1.Widget` and
`Vendor.Widget` in `catalogStore`, which holds the second only. -/
theorem doTypeSearch_version_insensitive_witness :
    doTypeSearch (lit "Vendor.v1_0_0.Widget") catalogStore.types = some 0 ∧
    doTypeSearch (lit "Vendor.v2_3_1.Widget") catalogStore.types = some 0 ∧
    doTypeSearch (lit "Vendor.Widget") catalogStore.types = some 0 :=
  doTypeSearch_version_insensitive catalogStore (lit "Vendor") (lit "Widget") (lit "v1_0_0")
    (lit "v2_3_1") 0 (by decide) (by decide) (by decide) (by decide) (by decide) (by decide)
    (by decide)

/-- C18 as stated fails for an empty type name: with `Vendor.v2_3_1.` the only key of the
map, the bare name the search compares is the version segment, and the search for
`Vendor.v1_0_0.` finds nothing. -/
theorem doTypeSearch_empty_name :
    namelessStore.types.get (qualified3 (lit "Vendor") (lit "v2_3_1") []) = some 0 ∧
    (∀ e ∈ namelessStore.types, e.1 = qualified3 (lit "Vendor") (lit "v2_3_1") []) ∧
    doTypeSearch (qualified3 (lit "Vendor") (lit "v2_3_1") []) namelessStore.types = some 0 ∧
    doTypeSearch (qualified3 (lit "Vendor") (lit "v1_0_0") []) namelessStore.types = none := by
  decide

/-- C19: a property that is not a navigation property and whose stripped type name does
not end in `OemActions`, is not a case of the primitive table and matches no key of the map,
exactly or by vendor and bare name, resolves to `any` behind the usual wrapper. -/
theorem Node_unresolved (st : Store) (p : PropType)
    (hnav : p.Navigation = false)
    (hoem : stringsHasSuffix (strippedTypeName p) (lit "OemActions") = false)
    (hprim : primitiveTable.get (strippedTypeName p) = none)
    (hexact : st.types.get (strippedTypeName p) = none)
    (hfuzzy : ∀ e ∈ st.types, searchKey e.1 ≠ searchKey (strippedTypeName p)) :
    Node st p =
      if isCollection p then lit "[]any" else if p.CanBeNull then lit "*any" else lit "any" := by
  have hs : doTypeSearch (strippedTypeName p) st.types = none := by
    unfold doTypeSearch
    rw [hexact]
    exact searchLoop_none _ _ hfuzzy
  unfold Node
  simp only [hnav, Bool.false_eq_true, if_false, hoem, hprim, hs]
  unfold wrapperOf
  by_cases hc : isCollection p = true
  · rw [if_pos hc, if_pos hc]
    rfl
  · rw [if_neg hc, if_neg hc]
    by_cases hn : p.CanBeNull = true
    · rw [if_pos hn, if_pos hn]
      rfl
    · rw [if_neg hn, if_neg hn]
      rfl

/-- Witness of C19: three references to `Other.Thing`, which `catalogStore` does not
hold. -/
theorem Node_unresolved_witness :
    Node catalogStore (plainProp (lit "Collection(Other.Thing)") true) = lit "[]any" ∧
    Node catalogStore (plainProp (lit "Other.Thing") true) = lit "*any" ∧
    Node catalogStore (plainProp (lit "Other.Thing") false) = lit "any" :=
  ⟨Node_unresolved catalogStore _ rfl (by decide) (by decide) (by decide) (by decide),
    Node_unresolved catalogStore _ rfl (by decide) (by decide) (by decide) (by decide),
    Node_unresolved catalogStore _ rfl (by decide) (by decide) (by decide) (by decide)⟩

/-! ## Duplicate declarations in a file -/

theorem AddType_fresh (heap : Nat → Type_) (f : File) (t : Nat) (n : GoString)
    (ht : StructLike n (heap t)) (hnone : f.types.get n = none) :
    (AddType heap f t).1.types.get n = some t := by
  obtain ⟨h1, _, h3⟩ := ht
  have h3' : ¬ (stringsHasPrefix (heap t).Namespace (lit "MessageRegistry") = true ∧
      (heap t).Name = lit "Message") := h3
  unfold AddType
  rw [if_neg h3', h1, hnone]
  exact GoMap.get_set_self _ _ _

theorem addTypes_existing (heap : Nat → Type_) (n : GoString) :
    ∀ (ts : List Nat) (f : File) (r0 : Nat),
      (∀ t ∈ ts, StructLike n (heap t)) →
      f.types.get n = some r0 → GoMap.len (heap r0).Members = 0 →
      ∃ r, (r = r0 ∨ r ∈ ts) ∧ (addTypes heap f ts).types.get n = some r ∧
        GoMap.len (heap r0).Properties ≤ GoMap.len (heap r).Properties ∧
        ∀ t ∈ ts, GoMap.len (heap t).Properties ≤ GoMap.len (heap r).Properties := by
  intro ts
  induction ts with
  | nil =>
    intro f r0 _ hget _
    exact ⟨r0, Or.inl rfl, hget, Nat.le_refl _, fun t ht => absurd ht (by simp)⟩
  | cons t rest ih =>
    intro f r0 hall hget hmem0
    obtain ⟨h1, h2, h3⟩ := hall t (List.mem_cons_self t rest)
    have h3' : ¬ (stringsHasPrefix (heap t).Namespace (lit "MessageRegistry") = true ∧
        (heap t).Name = lit "Message") := h3
    have hrest : ∀ x ∈ rest, StructLike n (heap x) :=
      fun x hx => hall x (List.mem_cons_of_mem t hx)
    have hstep : addTypes heap f (t :: rest) = addTypes heap (AddType heap f t).1 rest := rfl
    rw [hstep]
    by_cases hgt : GoMap.len (heap r0).Properties > GoMap.len (heap t).Properties
    · have hA : (AddType heap f t).1 = f := by
        unfold AddType
        rw [if_neg h3', h1, hget]
        simp only
        rw [if_pos (Or.inl hgt)]
      rw [hA]
      obtain ⟨r, g1, g2, g3, g4⟩ := ih f r0 hrest hget hmem0
      refine ⟨r, ?_, g2, g3, ?_⟩
      · rcases g1 with g | g
        · exact Or.inl g
        · exact Or.inr (List.mem_cons_of_mem t g)
      · intro x hx
        rcases List.mem_cons.mp hx with hx | hx
        · subst hx
          omega
        · exact g4 x hx
    · have hcond : ¬ (GoMap.len (heap r0).Properties > GoMap.len (heap t).Properties ∨
          GoMap.len (heap r0).Members > GoMap.len (heap t).Members) := by
        intro h
        rcases h with h | h
        · exact hgt h
        · omega
      have hA : (AddType heap f t).1.types.get n = some t := by
        unfold AddType
        rw [if_neg h3', h1, hget]
        simp only
        rw [if_neg hcond]
        exact GoMap.get_set_self _ _ _
      obtain ⟨r, g1, g2, g3, g4⟩ := ih (AddType heap f t).1 t hrest hA h2
      refine ⟨r, ?_, g2, by omega, ?_⟩
      · rcases g1 with g | g
        · exact Or.inr (g ▸ List.mem_cons_self t rest)
        · exact Or.inr (List.mem_cons_of_mem t g)
      · intro x hx
        rcases List.mem_cons.mp hx with hx | hx
        · subst hx
          exact g3
        · exact g4 x hx

/-- C20: when one or more struct-like records with the same bare name, none of them the
replicated `Message`, are added to a fresh file in any order, the record stored under that
name afterwards is one of them and no added record has more properties than it. -/
theorem AddType_keeps_most_complete (heap : Nat → Type_) (n : GoString) (ts : List Nat)
    (hne : ts ≠ []) (hall : ∀ t ∈ ts, StructLike n (heap t)) :
    ∃ r ∈ ts, (addTypes heap NewFile ts).types.get n = some r ∧
      ∀ t ∈ ts, GoMap.len (heap t).Properties ≤ GoMap.len (heap r).Properties := by
  cases ts with
  | nil => exact absurd rfl hne
  | cons t rest =>
    have ht := hall t (List.mem_cons_self t rest)
    have hfirst : (AddType heap NewFile t).1.types.get n = some t :=
      AddType_fresh heap NewFile t n ht rfl
    obtain ⟨r, g1, g2, g3, g4⟩ :=
      addTypes_existing heap n rest (AddType heap NewFile t).1 t
        (fun x hx => hall x (List.mem_cons_of_mem t hx)) hfirst ht.2.1
    refine ⟨r, ?_, g2, ?_⟩
    · rcases g1 with g | g
      · exact g ▸ List.mem_cons_self t rest
      · exact List.mem_cons_of_mem t g
    · intro x hx
      rcases List.mem_cons.mp hx with hx | hx
      · subst hx
        exact g3
      · exact g4 x hx

/-- Witness of C20: the 2-property and the 5-property `Widget` of `duplicateHeap`, added in
either order. -/
theorem AddType_keeps_most_complete_witness :
    (∃ r ∈ [0, 1], (addTypes duplicateHeap NewFile [0, 1]).types.get (lit "Widget") = some r ∧
      ∀ t ∈ [0, 1], GoMap.len (duplicateHeap t).Properties ≤
        GoMap.len (duplicateHeap r).Properties) ∧
    (∃ r ∈ [1, 0], (addTypes duplicateHeap NewFile [1, 0]).types.get (lit "Widget") = some r ∧
      ∀ t ∈ [1, 0], GoMap.len (duplicateHeap t).Properties ≤
        GoMap.len (duplicateHeap r).Properties) :=
  ⟨AddType_keeps_most_complete duplicateHeap (lit "Widget") [0, 1] (by decide) (by decide),
    AddType_keeps_most_complete duplicateHeap (lit "Widget") [1, 0] (by decide) (by decide)⟩

/-! ## The replicated message -/

/-- C21: `AddType` on the `Message` of a `MessageRegistry` namespace leaves the file as it
is, so the record is not added and nothing in the file is dropped or replaced, and it
returns no error. -/
theorem AddType_skips_Message (heap : Nat → Type_) (f : File) (t : Nat)
    (ht : IsReplicatedMessage (heap t)) : AddType heap f t = (f, none) := by
  have ht' : stringsHasPrefix (heap t).Namespace (lit "MessageRegistry") = true ∧
      (heap t).Name = lit "Message" := ht
  unfold AddType
  rw [if_pos ht']

/-- Witness of C21: the registry message added to a fresh file. -/
theorem AddType_skips_Message_witness :
    IsReplicatedMessage (messageHeap 0) ∧ AddType messageHeap NewFile 0 = (NewFile, none) :=
  ⟨by decide, AddType_skips_Message messageHeap NewFile 0 (by decide)⟩

/-- Counterexample to C21 as stated: after the registry message is added to a fresh file,
no error is returned, but the file holds nothing under the name `Message`, and no entry of
the file is that record. -/
theorem AddType_Message_not_stored :
    (messageHeap 0).Name = lit "Message" ∧
    stringsHasPrefix (messageHeap 0).Namespace (lit "MessageRegistry") = true ∧
    (AddType messageHeap NewFile 0).2 = none ∧
    (AddType messageHeap NewFile 0).1.types.get (lit "Message") = none ∧
    ∀ e ∈ (AddType messageHeap NewFile 0).1.types, e.2 ≠ 0 := by
  decide

/-! ## Emitting a wildcard type -/

/-- C23: for a record marked as a wildcard that has no properties and no enum members,
`(*Type).Node` returns (it does not reach its `panic`), gives the empty list of
declarations, and leaves the state as it is. -/
theorem typeNode_wildcard (st : Store) (t : Nat)
    (hw : (st.heap t).Wildcard = true)
    (hp : GoMap.len (st.heap t).Properties = 0)
    (hm : GoMap.len (st.heap t).Members = 0) :
    typeNode st t = some (st, []) := by
  unfold typeNode
  simp only [hp, hm, hw, ne_eq, not_true_eq_false, if_false, or_true, if_true]

/-- Witness of C23: the wildcard complex type of `wildcardStore`. -/
theorem typeNode_wildcard_witness :
    (wildcardStore.heap 0).Wildcard = true ∧
    GoMap.len (wildcardStore.heap 0).Properties = 0 ∧
    GoMap.len (wildcardStore.heap 0).Members = 0 ∧
    typeNode wildcardStore 0 = some (wildcardStore, []) :=
  ⟨rfl, rfl, rfl, typeNode_wildcard wildcardStore 0 rfl rfl rfl⟩

/-! ## The tag of a field -/

/-- C25 fails on a nullable property: `ToField` on a property with the serialized name
`@odata.etag` that can be null gives the tag with only `omitempty`, in which the serialized
name does not occur. -/
theorem ToField_drops_JsonName :
    overriddenProp.JsonName = lit "@odata.etag" ∧
    (ToField catalogStore [] overriddenProp (lit "ETag")).1.Tag = some omitemptyTag ∧
    ¬ (lit "@odata.etag" <:+: omitemptyTag) ∧
    (ToField catalogStore [] { overriddenProp with CanBeNull := false } (lit "ETag")).1.Tag =
      some (jsonNameTag (lit "@odata.etag")) := by
  decide

/-! ## The field names of a struct -/

/-- C27 fails on a type that got the legacy-root properties: folding the bare `Chassis` of
`bareLegacyStore` gives it `ID`, `Type`, `Name` and `Description`, and `structNode` then
emits the fields `ID` and `Type` twice each. -/
theorem structNode_duplicates_legacy_fields :
    ∃ st1 st2 fields,
      Fold 1 bareLegacyStore [] 0 = some (st1, some 0) ∧
      GoMap.len (st1.heap 0).Properties = 4 ∧
      structNode st1 0 = (st2, [Decl.structType (lit "Acme_Chassis") fields]) ∧
      fields.map Field.Name =
        [lit "ID", lit "Type", lit "Context", lit "Name", lit "Description", lit "ID",
          lit "Type"] ∧
      ¬ (fields.map Field.Name).Nodup :=
  ⟨_, _, _, rfl, by decide, rfl, by decide, by decide⟩

/-! ## Alias substitution in a field -/

/-- C26 (amended): when the alias table maps `A` to `U` and the property name is neither
`Actions` nor `Oem`, the field `ToField` gives for a property declared with type `A` has
the type `PropType.Node` resolves for the same property with type `U`; when `U` is not an
alias itself, it is the very field `ToField` gives for the property declared with `U`, and
the receiver ends with type `U` in both cases. -/
theorem ToField_alias (st : Store) (replacements : GoMap GoString) (p : PropType)
    (name A U : GoString) (hActions : name ≠ lit "Actions") (hOem : name ≠ lit "Oem")
    (hAU : replacements.get A = some U) :
    (ToField st replacements { p with Type_ := A } name).1.Type_ =
      Node st { p with Type_ := U } ∧
    (replacements.get U = none →
      ToField st replacements { p with Type_ := A } name =
        ToField st replacements { p with Type_ := U } name) := by
  constructor
  · unfold ToField
    rw [if_neg hActions, if_neg hOem]
    simp only [hAU]
  · intro hU
    unfold ToField
    rw [if_neg hActions, if_neg hOem, if_neg hActions, if_neg hOem]
    simp only [hAU, hU]

/-- Witness of C26 (amended): the alias `Acme.Length` of `Edm.Int64`. -/
theorem ToField_alias_witness :
    lit "Lengths" ≠ lit "Actions" ∧ lit "Lengths" ≠ lit "Oem" ∧
    lengthAlias.get (lit "Acme.Length") = some (lit "Edm.Int64") ∧
    (ToField catalogStore lengthAlias { strProp true with Type_ := lit "Acme.Length" }
        (lit "Lengths")).1.Type_ =
      Node catalogStore { strProp true with Type_ := lit "Edm.Int64" } ∧
    (lengthAlias.get (lit "Edm.Int64") = none →
      ToField catalogStore lengthAlias { strProp true with Type_ := lit "Acme.Length" }
          (lit "Lengths") =
        ToField catalogStore lengthAlias { strProp true with Type_ := lit "Edm.Int64" }
          (lit "Lengths")) :=
  ⟨by decide, by decide, by decide,
    ToField_alias catalogStore lengthAlias (strProp true) (lit "Lengths") (lit "Acme.Length")
      (lit "Edm.Int64") (by decide) (by decide) (by decide)⟩

/-- Counterexample to C26 as stated: with the alias `Acme.Length` of `Edm.Int64`, a
property declared `Collection(Acme.Length)` gets the field type `[]any` where one declared
`Collection(Edm.Int64)` gets `[]int64`; and when the underlying type is an alias again, a
property declared with the alias gets `any` where one declared with the underlying type
gets `int64`. -/
theorem ToField_collection_not_substituted :
    lengthAlias.get (lit "Acme.Length") = some (lit "Edm.Int64") ∧
    (ToField catalogStore lengthAlias (plainProp (collectionOf (lit "Acme.Length")) false)
      (lit "Lengths")).1.Type_ = lit "[]any" ∧
    (ToField catalogStore lengthAlias (plainProp (collectionOf (lit "Edm.Int64")) false)
      (lit "Lengths")).1.Type_ = lit "[]int64" ∧
    chainedAlias.get (lit "Acme.Length") = some (lit "Acme.Number") ∧
    (ToField catalogStore chainedAlias (plainProp (lit "Acme.Length") false)
      (lit "Length")).1.Type_ = lit "any" ∧
    (ToField catalogStore chainedAlias (plainProp (lit "Acme.Number") false)
      (lit "Length")).1.Type_ = lit "int64" := by
  decide

/-! ## Termination of a fold -/

theorem baseWalk_congr (st st' : Store) (repl : GoMap GoString) (ht : st'.types = st.types) :
    ∀ (c : List Nat) (name : GoString), (∀ x ∈ c, st'.heap x = st.heap x) →
      baseWalk st repl name c → baseWalk st' repl name c := by
  intro c
  induction c with
  | nil =>
    intro name _ h
    simp only [baseWalk] at h ⊢
    rw [ht]
    exact h
  | cons b rest ih =>
    intro name hagree h
    simp only [baseWalk] at h ⊢
    have hb : st'.heap b = st.heap b := hagree b (List.mem_cons_self b rest)
    rw [ht, hb]
    refine ⟨h.1, ?_⟩
    rcases h.2 with h2 | h2
    · exact Or.inl h2
    · exact Or.inr ⟨h2.1, ih _ (fun x hx => hagree x (List.mem_cons_of_mem b hx)) h2.2⟩

theorem Fold_terminates_aux (repl : GoMap GoString) (t : Nat) :
    ∀ (c : List Nat) (st : Store), baseWalk st repl (st.heap t).BaseType c → t ∉ c →
      ∀ fuel, c.length + 1 ≤ fuel → (Fold fuel st repl t).isSome = true := by
  intro c
  induction c with
  | nil =>
    intro st hc _ fuel hf
    obtain ⟨f, rfl⟩ : ∃ f, fuel = f + 1 := ⟨fuel - 1, by omega⟩
    simp only [baseWalk] at hc
    simp only [Fold, hc]
    rfl
  | cons b rest ih =>
    intro st hc ht fuel hf
    obtain ⟨f, rfl⟩ : ∃ f, fuel = f + 1 := ⟨fuel - 1, by omega⟩
    simp only [baseWalk] at hc
    obtain ⟨h2, h3⟩ := hc
    have ht2 : t ∉ rest := fun h => ht (List.mem_cons_of_mem b h)
    by_cases hne : (st.heap b).BaseType = []
    · simp only [Fold, h2, hne, ne_eq, not_true_eq_false, if_false]
      rfl
    · have hwalk : baseWalk st repl (st.heap b).BaseType rest := by
        rcases h3 with h | h
        · exact absurd h.1 hne
        · exact h.2
      generalize hst1 : st.write t
        { st.heap t with
          Properties := mergeProperties (st.heap t).Properties (st.heap b).Properties,
          BaseType := (st.heap b).BaseType } = st1
      have hagree : ∀ x ∈ rest, st1.heap x = st.heap x := by
        intro x hx
        rw [← hst1]
        apply Store.write_heap_ne
        intro h
        exact ht2 (h ▸ hx)
      have hb1 : (st1.heap t).BaseType = (st.heap b).BaseType := by
        rw [← hst1, Store.write_heap_self]
      have hty : st1.types = st.types := by
        rw [← hst1]
        rfl
      have hc1 : baseWalk st1 repl (st1.heap t).BaseType rest := by
        rw [hb1]
        exact baseWalk_congr st st1 repl hty rest _ hagree hwalk
      have hF := ih st1 hc1 ht2 f (by simp only [List.length_cons] at hf; omega)
      obtain ⟨⟨st2, r⟩, hF2⟩ := Option.isSome_iff_exists.mp hF
      simp only [Fold, h2, hne, ne_eq, not_false_eq_true, if_true, hst1, hF2]
      cases r <;> rfl

/-- C24: when the bases `Fold` visits from the receiver (each found by the direct lookup,
else through the alias table) form a finite walk on which no record comes twice, the
receiver included, `Fold` returns after at most as many recursive calls as the walk has
bases: one unit of fuel per call, and the length of the walk plus one is enough. -/
theorem Fold_terminates (st : Store) (replacements : GoMap GoString) (t : Nat)
    (chain : List Nat) (fuel : Nat)
    (hwalk : baseWalk st replacements (st.heap t).BaseType chain)
    (hnodup : (t :: chain).Nodup)
    (hfuel : chain.length + 1 ≤ fuel) :
    (Fold fuel st replacements t).isSome = true :=
  Fold_terminates_aux replacements t chain st hwalk (List.nodup_cons.mp hnodup).1 fuel hfuel

/-- Witness of C24: the newest widget, whose walk ends at a record without a base type, and
the newest sensor, whose walk ends at a name nothing resolves. -/
theorem Fold_terminates_witness :
    (baseWalk widgetStore [] (widgetStore.heap 0).BaseType [1, 2] ∧ [0, 1, 2].Nodup ∧
      (Fold 3 widgetStore [] 0).isSome = true) ∧
    (baseWalk sensorStore [] (sensorStore.heap 0).BaseType [1] ∧ [0, 1].Nodup ∧
      (Fold 2 sensorStore [] 0).isSome = true) :=
  ⟨⟨by decide, by decide,
      Fold_terminates widgetStore [] 0 [1, 2] 3 (by decide) (by decide) (by decide)⟩,
    ⟨by decide, by decide,
      Fold_terminates sensorStore [] 0 [1] 2 (by decide) (by decide) (by decide)⟩⟩

/-! ## What emission leaves behind -/

theorem GoMap.delete_of_get_none {V : Type} (m : GoMap V) (k : GoString)
    (h : m.get k = none) : m.delete k = m := by
  induction m with
  | nil => rfl
  | cons e rest ih =>
    obtain ⟨k', v⟩ := e
    by_cases hk : k' = k
    · simp [GoMap.get, hk] at h
    · simp only [GoMap.get, if_neg hk] at h
      simp only [GoMap.delete, if_neg hk, ih h]

theorem Store.eq_of_agree (st st' : Store) (ht : st'.types = st.types)
    (hh : ∀ a, st'.heap a = st.heap a) : st' = st := by
  obtain ⟨heap, types⟩ := st
  obtain ⟨heap', types'⟩ := st'
  have h1 : heap' = heap := funext hh
  have h2 : types' = types := ht
  rw [h1, h2]

theorem takeProperty_frame (st : Store) (t : Nat) (name : GoString) (retag : Bool)
    (fields : List Field) :
    (takeProperty st t name retag fields).1.types = st.types ∧
    (∀ a, a ≠ t → (takeProperty st t name retag fields).1.heap a = st.heap a) ∧
    (takeProperty st t name retag fields).1.heap t =
      { st.heap t with Properties := GoMap.delete (st.heap t).Properties name } := by
  unfold takeProperty
  cases h : (st.heap t).Properties.get name with
  | none =>
    refine ⟨rfl, fun _ _ => rfl, ?_⟩
    rw [GoMap.delete_of_get_none _ _ h]
  | some prop =>
    simp only
    exact ⟨rfl, fun a ha => Store.write_heap_ne _ _ _ _ ha, Store.write_heap_self _ _ _⟩

theorem structNode_frame (st : Store) (t : Nat) :
    (structNode st t).1.types = st.types ∧
    (∀ a, a ≠ t → (structNode st t).1.heap a = st.heap a) ∧
    (structNode st t).1.heap t = afterEmission (st.heap t) := by
  generalize hs0 : (if (st.heap t).ComplexType then ((st, []) : Store × List Field)
    else takeProperty st t (lit "Id") false [fixedIDField]) = s0
  have h0 : s0.1.types = st.types ∧ (∀ a, a ≠ t → s0.1.heap a = st.heap a) ∧
      s0.1.heap t = { st.heap t with Properties := withoutId (st.heap t) } := by
    unfold withoutId
    by_cases hc : (st.heap t).ComplexType = true
    · rw [if_pos hc] at hs0
      subst hs0
      exact ⟨rfl, fun _ _ => rfl, by rw [if_pos hc]⟩
    · rw [if_neg hc] at hs0
      subst hs0
      rw [if_neg hc]
      exact takeProperty_frame st t (lit "Id") false [fixedIDField]
  have hs : (structNode st t).1 =
      (takeProperty
        (takeProperty s0.1 t (lit "Name") false (s0.2 ++ [fixedTypeField, fixedContextField])).1
        t (lit "Description") true
        (takeProperty s0.1 t (lit "Name") false
          (s0.2 ++ [fixedTypeField, fixedContextField])).2).1 := by
    rw [← hs0]
    rfl
  obtain ⟨a1, a2, a3⟩ := h0
  obtain ⟨b1, b2, b3⟩ := takeProperty_frame s0.1 t (lit "Name") false
    (s0.2 ++ [fixedTypeField, fixedContextField])
  obtain ⟨c1, c2, c3⟩ := takeProperty_frame
    (takeProperty s0.1 t (lit "Name") false (s0.2 ++ [fixedTypeField, fixedContextField])).1
    t (lit "Description") true
    (takeProperty s0.1 t (lit "Name") false (s0.2 ++ [fixedTypeField, fixedContextField])).2
  rw [hs]
  refine ⟨c1.trans (b1.trans a1), fun a ha => (c2 a ha).trans ((b2 a ha).trans (a2 a ha)), ?_⟩
  rw [c3, b3, a3]
  rfl

theorem afterEmission_of_empty (r : Type_) (h : r.Properties = []) : afterEmission r = r := by
  obtain ⟨n, ns, b, props, m, w, rep, c⟩ := r
  simp only at h
  subst h
  cases c <;> rfl

theorem typeNode_frame_core (st : Store) (t : Nat) (st' : Store) (decls : List Decl)
    (h : typeNode st t = some (st', decls)) :
    ∃ e, (e = t ∨ otherVersion st (st.heap t) st.types = some e) ∧
      st'.types = st.types ∧
      (∀ a, a ≠ e → st'.heap a = st.heap a) ∧
      st'.heap e = afterEmission (st.heap e) := by
  have hstruct : ∀ e, some (structNode st e) = some (st', decls) →
      st'.types = st.types ∧ (∀ a, a ≠ e → st'.heap a = st.heap a) ∧
        st'.heap e = afterEmission (st.heap e) := by
    intro e he
    have h1 : st' = (structNode st e).1 := (congrArg Prod.fst (Option.some.inj he)).symm
    rw [h1]
    exact structNode_frame st e
  have hsame : GoMap.len (st.heap t).Properties = 0 →
      ∀ ds, some (st, ds) = some (st', decls) →
      st'.types = st.types ∧ (∀ a, a ≠ t → st'.heap a = st.heap a) ∧
        st'.heap t = afterEmission (st.heap t) := by
    intro hp ds he
    have h1 : st' = st := (congrArg Prod.fst (Option.some.inj he)).symm
    rw [h1]
    exact ⟨rfl, fun _ _ => rfl,
      (afterEmission_of_empty _ ((GoMap.len_eq_zero _).mp hp)).symm⟩
  unfold typeNode at h
  simp only at h
  by_cases hp : GoMap.len (st.heap t).Properties ≠ 0
  · rw [if_pos hp] at h
    exact ⟨t, Or.inl rfl, hstruct t h⟩
  · rw [if_neg hp] at h
    have hp0 : GoMap.len (st.heap t).Properties = 0 := not_not.mp hp
    by_cases hm : GoMap.len (st.heap t).Members ≠ 0
    · rw [if_pos hm] at h
      exact ⟨t, Or.inl rfl, hsame hp0 _ h⟩
    · rw [if_neg hm] at h
      by_cases hskip : stringsHasSuffix (st.heap t).Name (lit "OemActions") = true ∨
          (st.heap t).Name = lit "ItemOrCollection" ∨ (st.heap t).Wildcard = true
      · rw [if_pos hskip] at h
        exact ⟨t, Or.inl rfl, hsame hp0 _ h⟩
      · rw [if_neg hskip] at h
        by_cases hdot : (46 : Nat) ∉ (st.heap t).Namespace
        · rw [if_pos hdot] at h
          cases ho : otherVersion st (st.heap t) st.types with
          | none =>
            rw [ho] at h
            exact absurd h (by simp)
          | some e =>
            rw [ho] at h
            exact ⟨e, Or.inr rfl, hstruct e h⟩
        · rw [if_neg hdot] at h
          exact absurd h (by simp)

/-- C22 (amended): when `(*Type).Node` returns, the type map is as before and so is every
record but one, the record whose struct is emitted (the receiver, or the other version of
it that the loop at the end of `Node` picks); that record keeps its name, base type, flags
and properties, except that the properties `Id` (unless it is a complex type), `Name` and
`Description` are deleted.  When it has none of them, nothing changes at all, and a second
emission gives the same result. -/
theorem typeNode_frame (st : Store) (t : Nat) (st' : Store) (decls : List Decl)
    (h : typeNode st t = some (st', decls)) :
    st'.types = st.types ∧
    ∃ e, (e = t ∨ otherVersion st (st.heap t) st.types = some e) ∧
      (∀ a, a ≠ e → st'.heap a = st.heap a) ∧
      st'.heap e = afterEmission (st.heap e) ∧
      (afterEmission (st.heap e) = st.heap e → typeNode st' t = some (st', decls)) := by
  obtain ⟨e, h1, h2, h3, h4⟩ := typeNode_frame_core st t st' decls h
  refine ⟨h2, e, h1, h3, h4, ?_⟩
  intro hkeep
  have hst : st' = st := by
    apply Store.eq_of_agree st st' h2
    intro a
    by_cases ha : a = e
    · rw [ha, h4, hkeep]
    · exact h3 a ha
  rw [hst]
  exact hst ▸ h

/-- Witness of C22 (amended): the emission of the `Widget` of `namedStore`. -/
theorem typeNode_frame_witness :
    typeNode namedStore 0 = some (structNode namedStore 0) ∧
    (structNode namedStore 0).1.types = namedStore.types ∧
    ∃ e, (e = 0 ∨ otherVersion namedStore (namedStore.heap 0) namedStore.types = some e) ∧
      (∀ a, a ≠ e → (structNode namedStore 0).1.heap a = namedStore.heap a) ∧
      (structNode namedStore 0).1.heap e = afterEmission (namedStore.heap e) ∧
      (afterEmission (namedStore.heap e) = namedStore.heap e →
        typeNode (structNode namedStore 0).1 0 = some (structNode namedStore 0)) :=
  ⟨rfl, typeNode_frame namedStore 0 (structNode namedStore 0).1 (structNode namedStore 0).2 rfl⟩

/-- Counterexample to C22 as stated: the emission of the `Widget` of `namedStore`, which
declares `Name` and `Size`, deletes `Name` from the properties of the record, and a second
emission of the same type gives a struct without the field `Name`. -/
theorem typeNode_deletes_Name :
    ∃ st1 st2 fields1 fields2,
      (namedStore.heap 0).Properties = [(lit "Name", strProp false), (lit "Size", strProp true)] ∧
      typeNode namedStore 0 = some (st1, [Decl.structType (lit "Acme_Widget") fields1]) ∧
      (st1.heap 0).Properties = [(lit "Size", strProp true)] ∧
      typeNode st1 0 = some (st2, [Decl.structType (lit "Acme_Widget") fields2]) ∧
      fields1.map Field.Name =
        [lit "ID", lit "Type", lit "Context", lit "Name", lit "Size"] ∧
      fields2.map Field.Name = [lit "ID", lit "Type", lit "Context", lit "Size"] :=
  ⟨_, _, _, _, rfl, rfl, by decide, rfl, by decide, by decide⟩

/-! ## The candidates of the fallback search -/

theorem exists_first_dot (s : GoString) (h : (46 : Nat) ∈ s) :
    ∃ v rest, s = v ++ 46 :: rest ∧ (46 : Nat) ∉ v := by
  induction s with
  | nil => simp at h
  | cons x xs ih =>
    by_cases hx : x = 46
    · exact ⟨[], xs, by simp [hx], by simp⟩
    · have hxs : (46 : Nat) ∈ xs := by
        rcases List.mem_cons.mp h with h | h
        · exact absurd h.symm hx
        · exact h
      obtain ⟨v, rest, h1, h2⟩ := ih hxs
      refine ⟨x :: v, rest, by simp [h1], ?_⟩
      simp only [List.mem_cons, not_or]
      exact ⟨fun h => hx h.symm, h2⟩

theorem isPrefixOf_before_dot (rest : GoString) :
    ∀ (v n : GoString), (46 : Nat) ∉ n →
      n.isPrefixOf (v ++ 46 :: rest) = n.isPrefixOf v := by
  intro v
  induction v with
  | nil =>
    intro n hn
    cases n with
    | nil => rfl
    | cons x n' =>
      simp only [List.mem_cons, not_or] at hn
      have hx : (x == 46) = false := by simpa using Ne.symm hn.1
      simp [List.isPrefixOf, hx]
  | cons y v' ih =>
    intro n hn
    cases n with
    | nil => rfl
    | cons x n' =>
      simp only [List.mem_cons, not_or] at hn
      have h := ih n' hn.2
      exact congrArg (fun b => (x == y && b)) h

theorem splitNamespace_fst_of_dot (v rest : GoString) (hv : (46 : Nat) ∉ v) :
    (splitNamespace (v ++ 46 :: rest)).1 = v := by
  unfold splitNamespace
  rw [stringsIndex_append _ _ _ hv]
  simp only [List.take_left']
  cases stringsIndex (List.drop (v.length + 1) (v ++ 46 :: rest)) 46 <;> simp

theorem splitNamespace_fst_of_no_dot (s : GoString) (hs : (46 : Nat) ∉ s) :
    (splitNamespace s).1 = s := by
  unfold splitNamespace
  rw [stringsIndex_none _ _ hs]

theorem GoTypeName_vendor (r : Type_) (hn : (46 : Nat) ∉ r.Name) :
    GoTypeName r =
      if stringsHasPrefix (splitNamespace r.Namespace).1 r.Name = true then r.Name
      else replaceDots ((splitNamespace r.Namespace).1 ++ lit "_" ++ r.Name) := by
  by_cases hdot : (46 : Nat) ∈ r.Namespace
  · obtain ⟨v, rest, h1, h2⟩ := exists_first_dot _ hdot
    rw [h1, splitNamespace_fst_of_dot v rest h2]
    unfold GoTypeName stringsHasPrefix
    rw [h1, isPrefixOf_before_dot rest v r.Name hn, stringsIndex_append _ _ _ h2]
    simp
  · rw [splitNamespace_fst_of_no_dot _ hdot]
    unfold GoTypeName
    rw [stringsIndex_none _ _ hdot]

theorem qualifiedName_eq (r : Type_) : qualifiedName r = r.Namespace ++ 46 :: r.Name := by
  unfold qualifiedName
  rw [List.append_assoc]
  rfl

theorem searchKey_qualifiedName (r : Type_) (hn : (46 : Nat) ∉ r.Name) (hne : r.Name ≠ []) :
    (searchKey (qualifiedName r)).1 = (splitNamespace r.Namespace).1 ∧
    ∃ pre, (searchKey (qualifiedName r)).2 = pre ++ r.Name ∧
      (pre = [] ∨ ∃ q, pre = q ++ [46]) := by
  rw [qualifiedName_eq]
  by_cases hdot : (46 : Nat) ∈ r.Namespace
  · obtain ⟨v, rest, h1, h2⟩ := exists_first_dot _ hdot
    rw [h1, splitNamespace_fst_of_dot v rest h2]
    by_cases hdot2 : (46 : Nat) ∈ rest
    · obtain ⟨r1, r2, h3, h4⟩ := exists_first_dot _ hdot2
      have hk : v ++ 46 :: rest ++ 46 :: r.Name = qualified3 v r1 (r2 ++ 46 :: r.Name) := by
        simp [qualified3, h3]
      rw [hk, searchKey_qualified3 v r1 _ h2 h4 (by simp)]
      exact ⟨rfl, r2 ++ [46], by simp, Or.inr ⟨r2, rfl⟩⟩
    · have hk : v ++ 46 :: rest ++ 46 :: r.Name = qualified3 v rest r.Name := by
        simp [qualified3]
      rw [hk, searchKey_qualified3 v rest _ h2 hdot2 hne]
      exact ⟨rfl, [], rfl, Or.inl rfl⟩
  · rw [splitNamespace_fst_of_no_dot _ hdot, searchKey_two _ _ hdot hn]
    exact ⟨rfl, [], rfl, Or.inl rfl⟩

theorem takeWhile_no_dot (l : GoString) (h : (46 : Nat) ∉ l) :
    l.takeWhile (fun c => c != 46) = l := by
  induction l with
  | nil => rfl
  | cons x xs ih =>
    simp only [List.mem_cons, not_or] at h
    have hx : (x != 46) = true := by simpa using Ne.symm h.1
    rw [List.takeWhile_cons, hx, ih h.2]
    rfl

theorem takeWhile_to_dot (l rest : GoString) (h : (46 : Nat) ∉ l) :
    (l ++ 46 :: rest).takeWhile (fun c => c != 46) = l := by
  induction l with
  | nil => simp [List.takeWhile]
  | cons x xs ih =>
    simp only [List.mem_cons, not_or] at h
    have hx : (x != 46) = true := by simpa using Ne.symm h.1
    rw [List.cons_append, List.takeWhile_cons, hx, ih h.2]
    rfl

theorem name_of_tail (pre n : GoString) (hn : (46 : Nat) ∉ n)
    (hpre : pre = [] ∨ ∃ q, pre = q ++ [46]) :
    ((pre ++ n).reverse.takeWhile (fun c => c != 46)).reverse = n := by
  have hr : (46 : Nat) ∉ n.reverse := by simpa using hn
  rcases hpre with h | ⟨q, h⟩
  · rw [h, List.nil_append, takeWhile_no_dot _ hr, List.reverse_reverse]
  · have hs : (pre ++ n).reverse = n.reverse ++ 46 :: q.reverse := by
      rw [h]
      simp
    rw [hs, takeWhile_to_dot _ _ hr, List.reverse_reverse]

theorem GoTypeName_of_searchKey (r1 r2 : Type_)
    (hn1 : (46 : Nat) ∉ r1.Name) (hne1 : r1.Name ≠ [])
    (hn2 : (46 : Nat) ∉ r2.Name) (hne2 : r2.Name ≠ [])
    (h : searchKey (qualifiedName r1) = searchKey (qualifiedName r2)) :
    GoTypeName r1 = GoTypeName r2 := by
  obtain ⟨a1, pre1, b1, c1⟩ := searchKey_qualifiedName r1 hn1 hne1
  obtain ⟨a2, pre2, b2, c2⟩ := searchKey_qualifiedName r2 hn2 hne2
  have hv : (splitNamespace r1.Namespace).1 = (splitNamespace r2.Namespace).1 := by
    rw [← a1, ← a2, h]
  have hname : r1.Name = r2.Name := by
    rw [← name_of_tail pre1 r1.Name hn1 c1, ← name_of_tail pre2 r2.Name hn2 c2, ← b1, ← b2, h]
  rw [GoTypeName_vendor r1 hn1, GoTypeName_vendor r2 hn2, hv, hname]

theorem GoMap.get_of_mem_nodup {V : Type} (k : GoString) (v : V) :
    ∀ (m : GoMap V), (m.map Prod.fst).Nodup → (k, v) ∈ m → m.get k = some v := by
  intro m
  induction m with
  | nil =>
    intro _ h
    simp at h
  | cons e rest ih =>
    obtain ⟨k', v'⟩ := e
    intro hn hmem
    simp only [List.map_cons, List.nodup_cons] at hn
    rcases List.mem_cons.mp hmem with h | h
    · have h1 : k = k' := congrArg Prod.fst h
      have h2 : v = v' := congrArg Prod.snd h
      simp [GoMap.get, h1, h2]
    · have hk : k' ≠ k := by
        intro hk
        apply hn.1
        rw [hk]
        exact List.mem_map_of_mem Prod.fst h
      simp only [GoMap.get, if_neg hk]
      exact ih hn.2 h

theorem GoMap.get_perm {V : Type} (m m' : GoMap V) (hp : m.Perm m')
    (hn : (m.map Prod.fst).Nodup) (k : GoString) : m.get k = m'.get k := by
  have hn' : (m'.map Prod.fst).Nodup := ((hp.map Prod.fst).nodup_iff).mp hn
  cases h : m.get k with
  | none =>
    cases h' : m'.get k with
    | none => rfl
    | some v =>
      have hmem := hp.mem_iff.mpr (GoMap.mem_of_get _ _ _ h')
      rw [GoMap.get_of_mem_nodup k v m hn hmem] at h
      exact absurd h (by simp)
  | some v =>
    have hmem := hp.mem_iff.mp (GoMap.mem_of_get _ _ _ h)
    rw [GoMap.get_of_mem_nodup k v m' hn' hmem]

theorem searchLoop_mem (wanted : GoString × GoString) (a : Nat) :
    ∀ (m : GoMap Nat), searchLoop m wanted = some a →
      ∃ k, (k, a) ∈ m ∧ searchKey k = wanted := by
  intro m
  induction m with
  | nil =>
    intro h
    simp [searchLoop] at h
  | cons e rest ih =>
    obtain ⟨k0, a0⟩ := e
    intro h
    by_cases hk : searchKey k0 = wanted
    · simp only [searchLoop, if_pos hk, Option.some.injEq] at h
      exact ⟨k0, by simp [h], hk⟩
    · simp only [searchLoop, if_neg hk] at h
      obtain ⟨k, h1, h2⟩ := ih h
      exact ⟨k, List.mem_cons_of_mem _ h1, h2⟩

theorem searchLoop_some_of_mem (wanted : GoString × GoString) :
    ∀ (m : GoMap Nat) (e : GoString × Nat), e ∈ m → searchKey e.1 = wanted →
      ∃ a, searchLoop m wanted = some a := by
  intro m
  induction m with
  | nil =>
    intro e h
    simp at h
  | cons q rest ih =>
    obtain ⟨k0, a0⟩ := q
    intro e hmem he
    by_cases hk : searchKey k0 = wanted
    · exact ⟨a0, by simp only [searchLoop, if_pos hk]⟩
    · simp only [searchLoop, if_neg hk]
      rcases List.mem_cons.mp hmem with h | h
      · rw [h] at he
        exact absurd he hk
      · exact ih e h he

theorem candidates_same_name (heap : Nat → Type_) (types : GoMap Nat)
    (hkeys : ∀ e ∈ types, e.1 = qualifiedName (heap e.2) ∧
      (46 : Nat) ∉ (heap e.2).Name ∧ (heap e.2).Name ≠ [])
    (e1 e2 : GoString × Nat) (h1 : e1 ∈ types) (h2 : e2 ∈ types)
    (h : searchKey e1.1 = searchKey e2.1) :
    GoTypeName (heap e1.2) = GoTypeName (heap e2.2) := by
  obtain ⟨a1, b1, c1⟩ := hkeys e1 h1
  obtain ⟨a2, b2, c2⟩ := hkeys e2 h2
  apply GoTypeName_of_searchKey _ _ b1 c1 b2 c2
  rw [← a1, ← a2]
  exact h

theorem doTypeSearch_perm (heap : Nat → Type_) (types types' : GoMap Nat)
    (hkeys : ∀ e ∈ types, e.1 = qualifiedName (heap e.2) ∧
      (46 : Nat) ∉ (heap e.2).Name ∧ (heap e.2).Name ≠ [])
    (hnodup : (types.map Prod.fst).Nodup) (hperm : types.Perm types') (x : GoString) :
    (doTypeSearch x types).map (fun a => GoTypeName (heap a)) =
      (doTypeSearch x types').map (fun a => GoTypeName (heap a)) := by
  unfold doTypeSearch
  rw [← GoMap.get_perm types types' hperm hnodup x]
  cases types.get x with
  | some a => rfl
  | none =>
    simp only
    cases h1 : searchLoop types (searchKey x) with
    | none =>
      have hnone : ∀ e ∈ types', searchKey e.1 ≠ searchKey x := by
        intro e he hk
        obtain ⟨a, ha⟩ := searchLoop_some_of_mem _ types e (hperm.mem_iff.mpr he) hk
        rw [ha] at h1
        exact absurd h1 (by simp)
      rw [searchLoop_none _ types' hnone]
    | some a =>
      obtain ⟨k, hk1, hk2⟩ := searchLoop_mem _ a types h1
      obtain ⟨a', ha'⟩ := searchLoop_some_of_mem _ types' (k, a) (hperm.mem_iff.mp hk1) hk2
      obtain ⟨k', hk1', hk2'⟩ := searchLoop_mem _ a' types' ha'
      rw [ha']
      simp only [Option.map_some']
      exact congrArg some (candidates_same_name heap types hkeys (k, a) (k', a') hk1
        (hperm.mem_iff.mpr hk1') (hk2.trans hk2'.symm))

theorem Node_of_resolved (st st' : Store) (p : PropType)
    (h : ∀ x, (doTypeSearch x st.types).map (fun a => GoTypeName (st.heap a)) =
      (doTypeSearch x st'.types).map (fun a => GoTypeName (st'.heap a))) :
    Node st p = Node st' p := by
  unfold Node
  by_cases hnav : p.Navigation = true
  · simp only [hnav, if_true]
  · simp only [hnav]
    by_cases hsuf : stringsHasSuffix (strippedTypeName p) (lit "OemActions") = true
    · simp only [hsuf, if_true]
    · simp only [hsuf]
      cases primitiveTable.get (strippedTypeName p) with
      | some e =>
        obtain ⟨b, ident⟩ := e
        cases b <;> rfl
      | none =>
        simp only
        have hx := h (strippedTypeName p)
        cases h1 : doTypeSearch (strippedTypeName p) st.types with
        | none =>
          cases h2 : doTypeSearch (strippedTypeName p) st'.types with
          | none => rfl
          | some b =>
            rw [h1, h2] at hx
            simp at hx
        | some a =>
          cases h2 : doTypeSearch (strippedTypeName p) st'.types with
          | none =>
            rw [h1, h2] at hx
            simp at hx
          | some b =>
            rw [h1, h2] at hx
            simp only [Option.map_some', Option.some.injEq] at hx
            simp only [hx]

/-- C28 (amended): in a type map whose keys are `Namespace + "." + Name`, each with a name
that is non-empty and has no dot, any two entries that match a reference by vendor and bare
type name have the same `GoTypeName`, and `PropType.Node` gives the same identifier for
every property in whatever order the map is iterated. -/
theorem Node_order_independent (heap : Nat → Type_) (types types' : GoMap Nat) (p : PropType)
    (hkeys : ∀ e ∈ types, e.1 = qualifiedName (heap e.2) ∧
      (46 : Nat) ∉ (heap e.2).Name ∧ (heap e.2).Name ≠ [])
    (hnodup : (types.map Prod.fst).Nodup)
    (hperm : types.Perm types') :
    (∀ reference, ∀ e1 ∈ types, ∀ e2 ∈ types,
      searchKey e1.1 = searchKey reference → searchKey e2.1 = searchKey reference →
        GoTypeName (heap e1.2) = GoTypeName (heap e2.2)) ∧
    Node { heap := heap, types := types } p = Node { heap := heap, types := types' } p := by
  constructor
  · intro reference e1 h1 e2 h2 k1 k2
    exact candidates_same_name heap types hkeys e1 e2 h1 h2 (k1.trans k2.symm)
  · exact Node_of_resolved _ _ p (doTypeSearch_perm heap types types' hkeys hnodup hperm)

/-- Witness of C28 (amended): the three versions of the widget of `widgetStore` all match
the reference `Acme.v9_9_9.Widget`; the map is read from the front and from the back. -/
theorem Node_order_independent_witness :
    (∀ e ∈ widgetStore.types, e.1 = qualifiedName (widgetStore.heap e.2) ∧
      (46 : Nat) ∉ (widgetStore.heap e.2).Name ∧ (widgetStore.heap e.2).Name ≠ []) ∧
    (widgetStore.types.map Prod.fst).Nodup ∧
    widgetStore.types.Perm widgetStore.types.reverse ∧
    (∀ reference, ∀ e1 ∈ widgetStore.types, ∀ e2 ∈ widgetStore.types,
      searchKey e1.1 = searchKey reference → searchKey e2.1 = searchKey reference →
        GoTypeName (widgetStore.heap e1.2) = GoTypeName (widgetStore.heap e2.2)) ∧
    Node { heap := widgetStore.heap, types := widgetStore.types }
        (plainProp (lit "Acme.v9_9_9.Widget") true) =
      Node { heap := widgetStore.heap, types := widgetStore.types.reverse }
        (plainProp (lit "Acme.v9_9_9.Widget") true) :=
  ⟨by decide, by decide, (List.reverse_perm _).symm,
    Node_order_independent widgetStore.heap widgetStore.types widgetStore.types.reverse
      (plainProp (lit "Acme.v9_9_9.Widget") true) (by decide) (by decide)
      (List.reverse_perm _).symm⟩

/-- Counterexample to C28 as stated: the keys of `ambiguousStore` are `Namespace + "." +
Name` with dot-free names, the reference `Acme.v1_0_0.Widget` is not a key and both entries
match it, yet one has the `GoTypeName` `Acme_Widget` and the other the empty one, and
`PropType.Node` gives the one or the other depending on the order of the map. -/
theorem Node_depends_on_order :
    (∀ e ∈ ambiguousStore.types, e.1 = qualifiedName (ambiguousStore.heap e.2) ∧
      (46 : Nat) ∉ (ambiguousStore.heap e.2).Name) ∧
    ambiguousStore.types.get (lit "Acme.v1_0_0.Widget") = none ∧
    (∀ e ∈ ambiguousStore.types, searchKey e.1 = searchKey (lit "Acme.v1_0_0.Widget")) ∧
    GoTypeName (ambiguousStore.heap 0) = lit "Acme_Widget" ∧
    GoTypeName (ambiguousStore.heap 1) = [] ∧
    Node ambiguousStore (plainProp (lit "Acme.v1_0_0.Widget") false) = lit "Acme_Widget" ∧
    Node { ambiguousStore with types := ambiguousStore.types.reverse }
      (plainProp (lit "Acme.v1_0_0.Widget") false) = [] := by
  decide

end csdl
